import Mathlib

/-!
# CAL_T3GD: transit graph, overlay line synthesis and base-network ingestion

A shallow embedding of `src/file_reading.h` (`gera_linhas`, `read_edges`) and of
`src/main.cpp` (`abrirFicheiros`, the `Connectivity` branch of `main`).

`Graph.h` and `utils.h` are not part of the sources at hand.  The graph store is
therefore modelled from the specification (sections 3 and 4.1), and the distance
oracle, the speed constants, Dijkstra and BFS are taken as parameters
(`Externos`).  `long double` quantities are idealised as rationals.
-/

namespace CAL

/-! ## Data model -/

/-- Modelled from the spec: `NoInfo` of the missing `utils.h`, the StopIdentity
`{id, longitude, latitude, mode}`.  The constructor order `(idNo, longitude,
latitude, layer)` is the one the sources use (`NoInfo temp(idNo, X, Y); //x long, y lat`). -/
structure NoInfo where
  idNo : Int
  longitude : ℚ
  latitude : ℚ
  layer : Char
  deriving DecidableEq

/-- Modelled from the spec: equality of two identities (`operator==` of the missing
`utils.h`): "two identities are equal iff `id` and `mode` match; coordinates are not
part of equality". -/
def NoInfo.igual (a b : NoInfo) : Bool :=
  a.idNo == b.idNo && a.layer == b.layer

/-- The mode tag of a base (pedestrian) stop: the sources look base stops up with
`NoInfo(id, 0, 0, ' ')`. -/
def LAYER_BASE : Char := ' '

/-- Modelled from the spec: the three-argument constructor `NoInfo(id, x, y)` of the
missing `utils.h`; it builds a base stop (mode `none`). -/
def NoInfo.mk3 (idNo : Int) (longitude latitude : ℚ) : NoInfo :=
  ⟨idNo, longitude, latitude, LAYER_BASE⟩

/-- Modelled from the spec: `Edge` of the missing `Graph.h`,
`{target, weight, sequence_id}`.  The target reference is held as the information
of the vertex pointed to. -/
structure Edge where
  dest : NoInfo
  weight : ℚ
  id : Int
  deriving DecidableEq

/-- Modelled from the spec: `Vertex` of the missing `Graph.h`: one identity and the
ordered list of outgoing edges.  The transient search state of the solvers is left
out: it is reset at the start of every solver run. -/
structure Vertex where
  info : NoInfo
  adj : List Edge
  deriving DecidableEq

/-- Modelled from the spec: `Graph` of the missing `Graph.h`: the vertex collection
in insertion order (`getVertexSet`). -/
structure Graph where
  vertexSet : List Vertex
  deriving DecidableEq

/-- Modelled from the spec: `getVertex(identity)` of the missing `Graph.h`, an
optional reference (`none` for `NULL`). -/
def Graph.getVertex (g : Graph) (x : NoInfo) : Option Vertex :=
  g.vertexSet.find? (fun v => v.info.igual x)

/-- Modelled from the spec: `addVertex(identity)` of the missing `Graph.h`:
"adding a vertex that already exists is a no-op (idempotent)"; a new vertex goes
to the end of the vertex sequence. -/
def Graph.addVertex (g : Graph) (x : NoInfo) : Graph :=
  match g.getVertex x with
  | some _ => g
  | none => ⟨g.vertexSet ++ [⟨x, []⟩]⟩

/-- Appends the edge `e` to the edge list of the first vertex whose identity is `sourc`. -/
def acrescentaAresta (sourc : NoInfo) (e : Edge) : List Vertex → List Vertex
  | [] => []
  | v :: vs =>
    if v.info.igual sourc then ⟨v.info, v.adj ++ [e]⟩ :: vs
    else v :: acrescentaAresta sourc e vs

/-- Modelled from the spec: `addEdge(from, to, weight, sequenceId)` of the missing
`Graph.h`: "fails silently/no-ops if either endpoint absent"; "adding an edge
between two present vertices appends to the source's edge list". -/
def Graph.addEdge (g : Graph) (sourc dest : NoInfo) (w : ℚ) (id : Int) : Graph :=
  match g.getVertex sourc, g.getVertex dest with
  | some _, some vD => ⟨acrescentaAresta sourc ⟨vD.info, w, id⟩ g.vertexSet⟩
  | _, _ => g

/-- Removes the first edge of the list whose target has identity `dest`; `none` when
there is no such edge. -/
def removePrimeira (dest : NoInfo) : List Edge → Option (List Edge)
  | [] => none
  | e :: es =>
    if e.dest.igual dest then some es
    else (removePrimeira dest es).map (fun r => e :: r)

/-- Replaces the edge list of the first vertex whose identity is `sourc`. -/
def substituiAdj (sourc : NoInfo) (novas : List Edge) : List Vertex → List Vertex
  | [] => []
  | v :: vs =>
    if v.info.igual sourc then ⟨v.info, novas⟩ :: vs
    else v :: substituiAdj sourc novas vs

/-- Modelled from the spec: `removeEdge(from, to)` of the missing `Graph.h`: a
"boolean indicating whether a matching edge existed and was removed", together
with the graph left behind. -/
def Graph.removeEdge (g : Graph) (sourc dest : NoInfo) : Bool × Graph :=
  match g.getVertex sourc, g.getVertex dest with
  | some vS, some _ =>
    match removePrimeira dest vS.adj with
    | some resto => (true, ⟨substituiAdj sourc resto g.vertexSet⟩)
    | none => (false, g)
  | _, _ => (false, g)

/-- What the header and library pieces that are not at hand provide: the distance
oracle and the speed constants of `utils.h`, and the solvers of `Graph.h`. -/
structure Externos where
  haversine_km : ℚ → ℚ → ℚ → ℚ → ℚ
  VELOCIDADE_PE : ℚ
  VELOCIDADE_AUTOCARRO : ℚ
  VELOCIDADE_METRO : ℚ
  getDijkstraPath : Graph → NoInfo → NoInfo → List NoInfo
  bfs : Graph → Vertex → List NoInfo

/-- How a run can end without a result. -/
inductive Erro where
  /-- Undefined behaviour in the source: a null dereference, an index out of range,
  a remainder by zero. -/
  | indefinido
  /-- The loop was still running when the step budget of the model ran out. -/
  | sem_combustivel
  /-- An exception thrown and not caught: the `std::out_of_range` of `.at()`. -/
  | excecao
  deriving DecidableEq

/-- Element `i` of a vector (`v[i]`); out of range is undefined behaviour. -/
def acesso (v : List NoInfo) (i : Nat) : Except Erro NoInfo :=
  match v[i]? with
  | some x => .ok x
  | none => .error .indefinido

/-! ## `gera_linhas` (file_reading.h) -/

/-- One pass of the wiring loop of `gera_linhas` (`while(indice_paragem <
linha_provisoria.size())`), for the stop at `indice_paragem`.  `linha_modo` is
`linha_autocarro` or `linha_metro`; `vel_inicial` is the speed constant written in
the branch of the initial stop and `vel_intermedio` the one written in the branch of
the intermediate stops. -/
def liga_paragem (ext : Externos) (vel_inicial vel_intermedio : ℚ)
    (linha_provisoria linha_modo : List NoInfo) (data : Graph) (indice_paragem : Nat) :
    Except Erro Graph :=
  if indice_paragem ≠ 0 ∧ indice_paragem ≠ linha_provisoria.length - 1 then do
    let o ← acesso linha_modo indice_paragem
    let p ← acesso linha_provisoria indice_paragem
    let data1 := data.addEdge o p 0 0
    let data2 := data1.addEdge p o 0 0
    let o1 ← acesso linha_modo (indice_paragem + 1)
    let data3 := data2.addVertex o1
    pure (data3.addEdge o o1
      (ext.haversine_km o.latitude o.longitude o1.latitude o1.longitude / vel_intermedio) 0)
  else if indice_paragem = 0 then do
    let o ← acesso linha_modo indice_paragem
    let data1 := data.addVertex o
    let p ← acesso linha_provisoria indice_paragem
    let data2 := data1.addEdge p o 0 0
    let o1 ← acesso linha_modo (indice_paragem + 1)
    let data3 := data2.addVertex o1
    pure (data3.addEdge o o1
      (ext.haversine_km o.latitude o.longitude o1.latitude o1.longitude / vel_inicial) 0)
  else if indice_paragem = linha_provisoria.length - 1 then do
    let o ← acesso linha_modo indice_paragem
    let p ← acesso linha_provisoria indice_paragem
    pure (data.addEdge o p 0 0)
  else pure data

/-- The overlay stop made from the baseline stop `p` for a line of mode `layer`:
`NoInfo(p.idNo, p.longitude, p.latitude, layer)`. -/
def NoInfo.sobreposto (layer : Char) (p : NoInfo) : NoInfo :=
  ⟨p.idNo, p.longitude, p.latitude, layer⟩

/-- The overlay chain `linha_autocarro` / `linha_metro`: one overlay stop per baseline
stop, pushed back in order. -/
def linha_sobreposta (layer : Char) (linha_provisoria : List NoInfo) : List NoInfo :=
  linha_provisoria.map (NoInfo.sobreposto layer)

/-- Grafting of one accepted line: the overlay chain is built and the wiring loop runs
over `indice_paragem = 0 .. linha_provisoria.size() - 1`. -/
def enxerta_linha (ext : Externos) (layer : Char) (vel_inicial vel_intermedio : ℚ)
    (data : Graph) (linha_provisoria : List NoInfo) : Except Erro Graph :=
  (List.range linha_provisoria.length).foldlM
    (liga_paragem ext vel_inicial vel_intermedio linha_provisoria
      (linha_sobreposta layer linha_provisoria)) data

/-- The variables a line-generation loop of `gera_linhas` works on: the graph, the
count of lines generated so far (`numero_linhas_autocarro` / `numero_linhas_metro`)
and the number of calls of `rand()` made so far. -/
structure Estado where
  data : Graph
  numero_linhas : Nat
  chamadas_rand : Nat
  deriving DecidableEq

/-- The body of a line-generation loop of `gera_linhas`: one sampling attempt.
`rnd k` is the value of the `k`-th call of `rand()`; `rand() % 0` on an empty vertex
sequence is undefined behaviour.  The pointer test `vertice_ori == vertice_des` is the
test that the two vertices found have the same identity: `getVertex` returns the one
vertex of an identity.  A `continue` leaves with the graph and the count as they were. -/
def tentativa_linha (ext : Externos) (rnd : Nat → Nat) (layer : Char)
    (vel_inicial vel_intermedio : ℚ) (comp : Nat) (s : Estado) : Except Erro Estado :=
  let tamanho := s.data.vertexSet.length
  if tamanho = 0 then .error .indefinido
  else
    let indiceSource := rnd s.chamadas_rand % tamanho
    let indiceDestiny := rnd (s.chamadas_rand + 1) % tamanho
    match s.data.vertexSet[indiceSource]?, s.data.vertexSet[indiceDestiny]? with
    | some vS, some vD =>
      let vertice_ori := s.data.getVertex ⟨vS.info.idNo, 0, 0, LAYER_BASE⟩
      let vertice_des := s.data.getVertex ⟨vD.info.idNo, 0, 0, LAYER_BASE⟩
      match vertice_ori, vertice_des with
      | some ori, some des =>
        if ori.info.igual des.info then
          .ok ⟨s.data, s.numero_linhas, s.chamadas_rand + 2⟩
        else
          let linha_provisoria := ext.getDijkstraPath s.data ori.info des.info
          if linha_provisoria.length < comp then
            .ok ⟨s.data, s.numero_linhas, s.chamadas_rand + 2⟩
          else
            (enxerta_linha ext layer vel_inicial vel_intermedio s.data linha_provisoria).map
              (fun data => ⟨data, s.numero_linhas + 1, s.chamadas_rand + 2⟩)
      | _, _ => .ok ⟨s.data, s.numero_linhas, s.chamadas_rand + 2⟩
    | _, _ => .error .indefinido

/-- A line-generation loop of `gera_linhas` (`while (numero_linhas < linhas)`), run
for at most `passos` attempts. -/
def ciclo_linhas (ext : Externos) (rnd : Nat → Nat) (layer : Char)
    (vel_inicial vel_intermedio : ℚ) (comp linhas : Nat) : Nat → Estado → Except Erro Estado
  | 0, s => if s.numero_linhas < linhas then .error .sem_combustivel else .ok s
  | passos + 1, s =>
    if s.numero_linhas < linhas then
      (tentativa_linha ext rnd layer vel_inicial vel_intermedio comp s).bind
        (ciclo_linhas ext rnd layer vel_inicial vel_intermedio comp linhas passos)
    else .ok s

/-- The function `gera_linhas(data, linhas_metro, linhas_autocarro, comp_metro,
comp_autocarro)`: first the bus lines (layer `'A'`), then the subway lines (layer
`'M'`).  The subway loop writes `VELOCIDADE_AUTOCARRO` in the branch of the initial
stop and `VELOCIDADE_METRO` in the branch of the intermediate stops.  Each loop may
make at most `passos` attempts. -/
def gera_linhas (ext : Externos) (rnd : Nat → Nat) (passos : Nat) (data : Graph)
    (linhas_metro linhas_autocarro comp_metro comp_autocarro : Nat) : Except Erro Graph :=
  (ciclo_linhas ext rnd 'A' ext.VELOCIDADE_AUTOCARRO ext.VELOCIDADE_AUTOCARRO
      comp_autocarro linhas_autocarro passos ⟨data, 0, 0⟩).bind fun s1 =>
  (ciclo_linhas ext rnd 'M' ext.VELOCIDADE_AUTOCARRO ext.VELOCIDADE_METRO
      comp_metro linhas_metro passos ⟨s1.data, 0, s1.chamadas_rand⟩).bind fun s2 =>
  .ok s2.data

/-! ## Base-network ingestion: `read_edges` (file_reading.h) and `abrirFicheiros` (main.cpp) -/

/-- The part of an `Aresta` (missing `aresta.h`) that `read_edges` reads: the edge id
it is looked up by, and whether the street is two-way. -/
structure Aresta where
  idAresta : Int
  dois_sentidos : Bool
  deriving DecidableEq

/-- One line of the edges file: `idAresta;idNo1;idNo2`. -/
structure Registo where
  idAresta : Int
  idNo1 : Int
  idNo2 : Int
  deriving DecidableEq

/-- The expression `haversine_km(source->getInfo().latitude, source->getInfo().longitude,
destiny->getInfo().latitude, destiny->getInfo().longitude)`: it reads through both
pointers, so a `NULL` one is undefined behaviour. -/
def distancia_extremos (ext : Externos) (source destiny : Option Vertex) : Except Erro ℚ :=
  match source, destiny with
  | some s, some d =>
    .ok (ext.haversine_km s.info.latitude s.info.longitude d.info.latitude d.info.longitude)
  | _, _ => .error .indefinido

/-- The body of the `while (std::getline(inFile, line))` loop of `read_edges`, for one
line of the edges file; `i` is the running edge number.  `arestas.find(temp)` looks the
street up by its edge id, and `itAre->dois_sentidos` reads through the iterator found.
The calls on the viewer `gv` are left out. -/
def read_edges_linha (ext : Externos) (arestas : List Aresta) (estado : Graph × Int)
    (r : Registo) : Except Erro (Graph × Int) :=
  let grafo := estado.1
  let i := estado.2
  let itAre := arestas.find? (fun a => a.idAresta == r.idAresta)
  let origem := NoInfo.mk3 (r.idNo1.tmod 100000000) 0 0
  let source := grafo.getVertex origem
  let destino := NoInfo.mk3 (r.idNo2.tmod 100000000) 0 0
  let destiny := grafo.getVertex destino
  let removido := grafo.removeEdge origem destino
  let peso := (distancia_extremos ext source destiny).map (fun d => d / ext.VELOCIDADE_PE)
  (if removido.1 then peso.map (fun w => removido.2.addEdge origem destino w i)
    else .ok removido.2).bind fun grafo1 =>
  peso.bind fun w =>
  let grafo2 := grafo1.addEdge origem destino w i
  match itAre with
  | none => .error .indefinido
  | some a =>
    if a.dois_sentidos then .ok (grafo2.addEdge destino origem w (i + 1), i + 2)
    else .ok (grafo2, i + 1)

/-- The function `read_edges`, over the lines of the edges file. -/
def read_edges (ext : Externos) (arestas : List Aresta) (linhas : List Registo)
    (grafo : Graph) : Except Erro Graph :=
  (linhas.foldlM (read_edges_linha ext arestas) (grafo, 0)).map Prod.fst

/-- The body of the edge loop of `abrirFicheiros` (main.cpp), for one line of the edges
file: as in `read_edges`, with the plain distance as weight and no reverse edge. -/
def abrirFicheiros_linha (ext : Externos) (estado : Graph × Int) (r : Registo) :
    Except Erro (Graph × Int) :=
  let grafo := estado.1
  let i := estado.2
  let origem := NoInfo.mk3 (r.idNo1.tmod 100000000) 0 0
  let source := grafo.getVertex origem
  let destino := NoInfo.mk3 (r.idNo2.tmod 100000000) 0 0
  let destiny := grafo.getVertex destino
  let removido := grafo.removeEdge origem destino
  let peso := distancia_extremos ext source destiny
  (if removido.1 then peso.map (fun w => removido.2.addEdge origem destino w i)
    else .ok removido.2).bind fun grafo1 =>
  peso.bind fun w =>
  .ok (grafo1.addEdge origem destino w i, i + 1)

/-- The edge loop of `abrirFicheiros`, over the lines of the edges file. -/
def abrirFicheiros (ext : Externos) (linhas : List Registo) (grafo : Graph) :
    Except Erro Graph :=
  (linhas.foldlM (abrirFicheiros_linha ext) (grafo, 0)).map Prod.fst

/-! ## The `Connectivity` branch of `main` (main.cpp) -/

/-- The vector `soma`: for each vertex, `vertices.size() - tentativa.size()` stored as
an `int`.  The unsigned difference read back as an `int` is the signed difference of the
two sizes; the sizes are counts of vertices, taken to fit an `int`. -/
def soma_falhas (ext : Externos) (data : Graph) : List Int :=
  data.vertexSet.map (fun v => (data.vertexSet.length : Int) - ((ext.bfs data v).length : Int))

/-- The loop `for (int ind : soma)` over the pair `(min_falha, max_falha)`. -/
def passo_falhas (m : Int × Int) (ind : Int) : Int × Int :=
  (if ind < m.1 then ind else m.1, if ind > m.2 then ind else m.2)

/-- The `Connectivity` branch of `main`: the reported `(min_falha, max_falha)`, from
`max_falha = 0` and `min_falha = vertices.size()`. -/
def conectividade (ext : Externos) (data : Graph) : Int × Int :=
  (soma_falhas ext data).foldl passo_falhas ((data.vertexSet.length : Int), 0)

/-! ## Notions used to state the properties -/

/-- The weights of the edges that go from the vertex `a` to the vertex `b`, in the
order of `a`'s edge list. -/
def Graph.pesos (g : Graph) (a b : NoInfo) : List ℚ :=
  match g.getVertex a with
  | some v => (v.adj.filter (fun e => e.dest.igual b)).map Edge.weight
  | none => []

/-- The vertex list `l'` keeps the vertices of `l` in place, each with its edge list
only lengthened at the end. -/
def estendeLista : List Vertex → List Vertex → Prop
  | [], _ => True
  | _ :: _, [] => False
  | v :: vs, v' :: vs' =>
    v'.info = v.info ∧ (∃ novas, v'.adj = v.adj ++ novas) ∧ estendeLista vs vs'

/-- The graph `g'` extends `g`: see `estendeLista`. -/
def Graph.estende (g g' : Graph) : Prop :=
  estendeLista g.vertexSet g'.vertexSet

/-- The graph `g'` is `g` after `n` lines were grafted one after the other, each on the
Dijkstra path between two resolved base stops in the graph of its time, a path of at
least `comp` stops. -/
inductive LinhasAceites (ext : Externos) (layer : Char) (vel_inicial vel_intermedio : ℚ)
    (comp : Nat) : Graph → Nat → Graph → Prop where
  | nenhuma (g : Graph) : LinhasAceites ext layer vel_inicial vel_intermedio comp g 0 g
  | mais (g g1 g2 : Graph) (n : Nat) (ori des : Vertex)
      (hori : g.getVertex ⟨ori.info.idNo, 0, 0, LAYER_BASE⟩ = some ori)
      (hdes : g.getVertex ⟨des.info.idNo, 0, 0, LAYER_BASE⟩ = some des)
      (hcomp : comp ≤ (ext.getDijkstraPath g ori.info des.info).length)
      (henx : enxerta_linha ext layer vel_inicial vel_intermedio g
        (ext.getDijkstraPath g ori.info des.info) = .ok g1)
      (hresto : LinhasAceites ext layer vel_inicial vel_intermedio comp g1 n g2) :
      LinhasAceites ext layer vel_inicial vel_intermedio comp g (n + 1) g2

/-- After `j` passes of the wiring loop (once the first pass is done) the overlay stops
of the positions `0 .. j` are vertices of `g`. -/
def SobrepostasPresentes (layer : Char) (prov : List NoInfo) (j : Nat) (g : Graph) : Prop :=
  ∀ i p, 0 < j → i ≤ j → prov[i]? = some p → (g.getVertex (p.sobreposto layer)).isSome = true

/-- After `j` passes of the wiring loop over the baseline path `prov`, started on the
graph `G`: each baseline stop has gained one zero-weight edge to its overlay stop once its
pass is done, unless it is the last stop; each overlay stop has gained one zero-weight
edge to its baseline stop once its pass is done, unless it is the first stop. -/
def PesosEnxerto (layer : Char) (prov : List NoInfo) (G : Graph) (j : Nat) (g : Graph) : Prop :=
  ∀ i r, prov[i]? = some r →
    g.pesos r (r.sobreposto layer) = G.pesos r (r.sobreposto layer) ++
      (if i < j ∧ i + 1 < prov.length then [0] else []) ∧
    g.pesos (r.sobreposto layer) r = G.pesos (r.sobreposto layer) r ++
      (if 0 < i ∧ i < j then [0] else [])

/-- The vertex the `k`-th call of `rand()` resolves to in `gera_linhas`:
`data.getVertex(NoInfo(data.getVertexSet()[rand() % size]->getInfo().idNo, 0, 0, ' '))`,
`none` for `NULL`. -/
def vertice_amostrado (rnd : Nat → Nat) (data : Graph) (k : Nat) : Option Vertex :=
  (data.vertexSet[rnd k % data.vertexSet.length]?).bind fun v =>
    data.getVertex ⟨v.info.idNo, 0, 0, LAYER_BASE⟩

/-! ## A concrete setting for the worked examples -/

/-- A frontier entry of the Dijkstra model: a stop, its tentative distance and the
stops before it on the path from the origin, last first. -/
structure Etiqueta where
  info : NoInfo
  dist : ℚ
  anteriores : List NoInfo

/-- Extract-min of the frontier: lowest distance wins, the earlier entry on a tie. -/
def extraiMin : List Etiqueta → Option (Etiqueta × List Etiqueta)
  | [] => none
  | e :: es =>
    match extraiMin es with
    | none => some (e, [])
    | some (m, resto) => if m.dist < e.dist then some (m, e :: resto) else some (e, m :: resto)

/-- Relaxation with decrease-key: the entry of `nova.info` is lowered, or added. -/
def relaxa (nova : Etiqueta) : List Etiqueta → List Etiqueta
  | [] => [nova]
  | e :: es =>
    if e.info.igual nova.info then (if nova.dist < e.dist then nova :: es else e :: es)
    else e :: relaxa nova es

/-- The extract-min loop of the Dijkstra model. -/
def dijkstraCiclo (g : Graph) (destino : NoInfo) :
    Nat → List Etiqueta → List NoInfo → List NoInfo
  | 0, _, _ => []
  | passos + 1, fila, fechados =>
    match extraiMin fila with
    | none => []
    | some (u, resto) =>
      if u.info.igual destino then (u.info :: u.anteriores).reverse
      else
        match g.getVertex u.info with
        | none => []
        | some v =>
          dijkstraCiclo g destino passos
            (v.adj.foldl (fun f e =>
              if (u.info :: fechados).any (fun x => x.igual e.dest) then f
              else relaxa ⟨e.dest, u.dist + e.weight, u.info :: u.anteriores⟩ f) resto)
            (u.info :: fechados)

/-- Modelled from the spec: `getDijkstraPath` of the missing `Graph.h` (section 4.4):
classic single-source Dijkstra, "ordered sequence of StopIdentity from origin to
destination inclusive (empty if unreachable)", empty too when an endpoint is absent. -/
def getDijkstraPathModelo (g : Graph) (origem destino : NoInfo) : List NoInfo :=
  match g.getVertex origem, g.getVertex destino with
  | some o, some _ => dijkstraCiclo g destino (g.vertexSet.length + 1) [⟨o.info, 0, []⟩] []
  | _, _ => []

/-- A stand-in for the distance oracle in the worked examples (the haversine formula
is not rational-valued): the taxicab distance of the coordinates. -/
def distanciaExemplo (lat1 lon1 lat2 lon2 : ℚ) : ℚ :=
  |lat1 - lat2| + |lon1 - lon2|

/-- The externals of the worked examples: walking at 5, buses at 40, subway at 80, the
Dijkstra model, and a search that reaches the start vertex only. -/
def extExemplo : Externos where
  haversine_km := distanciaExemplo
  VELOCIDADE_PE := 5
  VELOCIDADE_AUTOCARRO := 40
  VELOCIDADE_METRO := 80
  getDijkstraPath := getDijkstraPathModelo
  bfs := fun _ v => [v.info]

/-- Three base stops of the worked examples. -/
def paragem1 : NoInfo := NoInfo.mk3 1 0 0
/-- Second base stop. -/
def paragem2 : NoInfo := NoInfo.mk3 2 3 4
/-- Third base stop. -/
def paragem3 : NoInfo := NoInfo.mk3 3 6 0

/-- A base network: stops 1, 2, 3 with the one-way streets 1 -> 2 and 3 -> 2. -/
def redeExemplo : Graph :=
  ⟨[⟨paragem1, [⟨paragem2, 7 / 5, 0⟩]⟩, ⟨paragem2, []⟩, ⟨paragem3, [⟨paragem2, 7 / 5, 1⟩]⟩]⟩

/-- A second base network: stops 1, 2, 3 along the one-way streets 1 -> 2 -> 3. -/
def redeLinha : Graph :=
  ⟨[⟨paragem1, [⟨paragem2, 7 / 5, 0⟩]⟩, ⟨paragem2, [⟨paragem3, 7 / 5, 1⟩]⟩, ⟨paragem3, []⟩]⟩

/-- The values of `rand()` given by a list, call after call, and 0 once it is used up. -/
def amostras (l : List Nat) (k : Nat) : Nat :=
  l.getD k 0

deriving instance DecidableEq for Except

/-- The graph inside a result, `g` when there is none. -/
def grafoDe (g : Graph) : Except Erro Graph → Graph
  | .ok g' => g'
  | .error _ => g

/-! ## The A* heuristic (main.cpp) -/

/-- The estimate `heuristicFunc<NoInfo>::operator()(Vertex<NoInfo>* a)`: the distance
oracle from the stop `a` to the bound destination `destino`. -/
def heuristicFunc (ext : Externos) (destino a : NoInfo) : ℚ :=
  ext.haversine_km a.latitude a.longitude destino.latitude destino.longitude

/-- The distance oracle is symmetric and satisfies the triangle inequality. -/
def Metrica (d : ℚ → ℚ → ℚ → ℚ → ℚ) : Prop :=
  (∀ a b c e, d a b c e = d c e a b) ∧
  (∀ a b c e f g, d a b f g ≤ d a b c e + d c e f g)

/-- Externals with speeds of at most one kilometre per unit of time. -/
def extLento : Externos where
  haversine_km := distanciaExemplo
  VELOCIDADE_PE := 1 / 12
  VELOCIDADE_AUTOCARRO := 1 / 2
  VELOCIDADE_METRO := 1
  getDijkstraPath := getDijkstraPathModelo
  bfs := fun _ v => [v.info]

/-- The stops 1 and 2 with no street yet. -/
def redeSemRuas : Graph :=
  ⟨[⟨paragem1, []⟩, ⟨paragem2, []⟩]⟩

/-! ## The mode dispatch of `main` (main.cpp) -/

/-- The branches of the `if (strcmp(argv[1], ...) == 0)` chain of `main`. -/
inductive Modo where
  /-- The branch of `"auto"`. -/
  | auto
  /-- The branch of `"comp"`. -/
  | comp
  /-- The branch of `"Connectivity"`. -/
  | conectividade
  /-- The string-search branch; the flag tells whether the approximate search is asked
  for by name (`strcmp(argv[1], "SearchApprox") == 0`). -/
  | pesquisa (aproximada : Bool)
  /-- The last `else`: `argv[1]` is read as the number of the start node. -/
  | no_inicio
  deriving DecidableEq

/-- The mode dispatch of `main` on `argv[1]` (after the test `argc != 15`): the chain of
`strcmp` tests at lines 320-358 and 574, with the string literals the code compares
with. -/
def modo_de_main (argv1 : String) : Modo :=
  if argv1 = "auto" then .auto
  else if argv1 = "comp" then .comp
  else if argv1 = "Connectivity" then .conectividade
  else if argv1 = "SearchExact" ∨ argv1 = "SearchApprox" then
    .pesquisa (decide (argv1 = "SearchApprox"))
  else .no_inicio

/-! ## `choose_random` (string_find.h) -/

/-- Modelled from the spec: the struct `par` of the missing `utils.h`, built as
`par(estacao, false)` and read as `nome_estacao` and `usado`. -/
structure par where
  nome_estacao : String
  usado : Bool
  deriving DecidableEq

/-- The function `choose_random(vec)`: the loop `while (true)` run for at most `passos`
draws.  `rnd k` is the value of the `k`-th call of `rand()` and `chamadas` the number
of calls made before.  The result is the returned name, the vector left behind and the
number of calls of `rand()` made so far. -/
def choose_random (rnd : Nat → Nat) :
    Nat → List par → Nat → Except Erro (String × List par × Nat)
  | 0, _, _ => .error .sem_combustivel
  | passos + 1, vec, chamadas =>
    if vec.length = 0 then .error .indefinido
    else
      let i := rnd chamadas % vec.length
      match vec[i]? with
      | some p =>
        if !p.usado then .ok (p.nome_estacao, vec.set i ⟨p.nome_estacao, true⟩, chamadas + 1)
        else choose_random rnd passos vec (chamadas + 1)
      | none => .error .indefinido

/-! ## Exact search: `computePrefix`, `kmpStringMatchGivenPi`, `naiveStringMatch` (string_find.h) -/

/-- The checked access `v.at(i)` of a vector or string: `std::out_of_range` is thrown
when `i` is out of range. -/
def vetor_at {α : Type} (v : List α) (i : Nat) : Except Erro α :=
  match v[i]? with
  | some x => .ok x
  | none => .error .excecao

/-- The checked store `v.at(i) = x`. -/
def vetor_at_put {α : Type} (v : List α) (i : Nat) (x : α) : Except Erro (List α) :=
  if i < v.length then .ok (v.set i x) else .error .excecao

/-- The unchecked access `s[i]` of a `std::string`: the character at `i`, the null
character at `i = s.size()`, undefined behaviour beyond. -/
def string_indice (s : List Char) (i : Nat) : Except Erro Char :=
  match s[i]? with
  | some c => .ok c
  | none => if i = s.length then .ok (Char.ofNat 0) else .error .indefinido

/-- The loop `while (k > 0 && toSearch.at(k) != c) { k = pi.at(k); }` of `computePrefix`
(with `c = toSearch.at(q - 1)`) and of `kmpStringMatchGivenPi` (with
`c = input.at(i - 1)`), run for at most `passos` assignments. -/
def recua (toSearch : List Char) (pi : List Nat) (c : Char) : Nat → Nat → Except Erro Nat
  | 0, k =>
    if k > 0 then
      (vetor_at toSearch k).bind fun x => if x ≠ c then .error .sem_combustivel else .ok k
    else .ok k
  | passos + 1, k =>
    if k > 0 then
      (vetor_at toSearch k).bind fun x =>
        if x ≠ c then (vetor_at pi k).bind (recua toSearch pi c passos) else .ok k
    else .ok k

/-- The loop `recua` followed by `if (toSearch.at(k) == c) { k++; }`. -/
def avanca (toSearch : List Char) (pi : List Nat) (c : Char) (passos k : Nat) :
    Except Erro Nat :=
  (recua toSearch pi c passos k).bind fun k1 =>
  (vetor_at toSearch k1).bind fun x =>
  .ok (if x = c then k1 + 1 else k1)

/-- The body of the loop `for (size_t q = 2; q <= m; q++)` of `computePrefix`, on the
pair `(pi, k)`. -/
def computePrefix_passo (passos : Nat) (toSearch : List Char) (estado : List Nat × Nat)
    (q : Nat) : Except Erro (List Nat × Nat) :=
  (vetor_at toSearch (q - 1)).bind fun c =>
  (avanca toSearch estado.1 c passos estado.2).bind fun k =>
  (vetor_at_put estado.1 q k).bind fun pi =>
  .ok (pi, k)

/-- The function `computePrefix(toSearch)`: `pi` starts as `m + 1` zeros and `q` runs
from 2 to `m`.  Each inner loop may make at most `passos` assignments. -/
def computePrefix (passos : Nat) (toSearch : List Char) : Except Erro (List Nat) :=
  ((List.range' 2 (toSearch.length - 1)).foldlM (computePrefix_passo passos toSearch)
    (List.replicate (toSearch.length + 1) 0, 0)).map Prod.fst

/-- The body of the loop `for (size_t i = 1; i <= n; i++)` of `kmpStringMatchGivenPi`,
on the pair `(occ, q)`. -/
def kmp_passo (passos : Nat) (input toSearch : List Char) (pi : List Nat)
    (estado : Nat × Nat) (i : Nat) : Except Erro (Nat × Nat) :=
  (vetor_at input (i - 1)).bind fun c =>
  (avanca toSearch pi c passos estado.2).bind fun q =>
  if q = toSearch.length then
    (vetor_at pi q).bind fun q1 => .ok (estado.1 + 1, q1)
  else .ok (estado.1, q)

/-- The function `kmpStringMatchGivenPi(input, toSearch, pi)`.  Each inner loop may make
at most `passos` assignments. -/
def kmpStringMatchGivenPi (passos : Nat) (input toSearch : List Char) (pi : List Nat) :
    Except Erro Nat :=
  if toSearch.length > input.length then .ok 0
  else
    ((List.range' 1 input.length).foldlM (kmp_passo passos input toSearch pi) (0, 0)).map
      Prod.fst

/-- The value of `pattern.size() - 1`, an unsigned subtraction: it wraps for the empty
pattern. -/
def ultimo_indice (pattern : List Char) : Nat :=
  if pattern.length = 0 then 2 ^ 64 - 1 else pattern.length - 1

/-- The loop `while (true)` of `naiveStringMatch`, from `inicioTexto` and
`inicioPattern`, run for at most `passos` comparisons: 1 when it leaves through
`sum++`, 0 when it leaves through the last `break`. -/
def naive_compara (text pattern : List Char) : Nat → Nat → Nat → Except Erro Nat
  | 0, _, _ => .error .sem_combustivel
  | passos + 1, inicioTexto, inicioPattern =>
    (string_indice pattern inicioPattern).bind fun a =>
    (string_indice text inicioTexto).bind fun b =>
    if a = b then
      if inicioPattern = ultimo_indice pattern then .ok 1
      else naive_compara text pattern passos (inicioTexto + 1) (inicioPattern + 1)
    else .ok 0

/-- The function `naiveStringMatch(text, pattern)`: `i` runs from 0 to
`text.size() - pattern.size()`.  Each inner loop may make at most `passos`
comparisons. -/
def naiveStringMatch (passos : Nat) (text pattern : List Char) : Except Erro Nat :=
  if pattern.length > text.length then .ok 0
  else
    (List.range (text.length - pattern.length + 1)).foldlM
      (fun sum i => (naive_compara text pattern passos i 0).map fun inc => sum + inc) 0

/-- The pattern `toSearch` occurs in `input` at the position `i`. -/
def ocorre_em (toSearch input : List Char) (i : Nat) : Bool :=
  decide ((input.drop i).take toSearch.length = toSearch)

/-- The number of positions `i` with `0 <= i <= |input| - |toSearch|` at which
`toSearch` occurs in `input`; there is no such position when the pattern is longer. -/
def numero_ocorrencias (toSearch input : List Char) : Nat :=
  (List.range (input.length + 1 - toSearch.length)).countP (ocorre_em toSearch input)

/-- The first `k` characters of the pattern `p` end the string `s`. -/
def Bord (p s : List Char) (k : Nat) : Prop :=
  k ≤ p.length ∧ p.take k <:+ s

/-- The value `b` is what the table must hold at `j`: the length of the longest proper
border of the first `j` characters of `p`. -/
def EhFalha (p : List Char) (j b : Nat) : Prop :=
  b < j ∧ Bord p (p.take j) b ∧ ∀ k, k < j → Bord p (p.take j) k → k ≤ b

/-- The table `pi` holds the right value at every index from 1 to `ate`. -/
def TabelaOk (p : List Char) (pi : List Nat) (ate : Nat) : Prop :=
  ∀ j, 1 ≤ j → j ≤ ate → ∃ b, pi[j]? = some b ∧ EhFalha p j b

/-! ## `distancia_entre_palavras` (string_find.h) -/

/-- The assignment `D[i][j] = v` on the table `D`, held as the function that gives the
entry at each pair of indices.  In `distancia_entre_palavras` the indices stay within
the table of `pattern.size() + 1` rows and `texto.size() + 1` columns. -/
def tabela_put (D : Nat → Nat → Int) (i j : Nat) (v : Int) : Nat → Nat → Int :=
  fun i' j' => if i' = i ∧ j' = j then v else D i' j'

/-- The body of the inner loop of `distancia_entre_palavras`, for the cell `(i, j)`. -/
def distancia_celula (pattern texto : List Char) (i : Nat) (D : Nat → Nat → Int) (j : Nat) :
    Except Erro (Nat → Nat → Int) :=
  (string_indice pattern (i - 1)).bind fun a =>
  (string_indice texto (j - 1)).bind fun b =>
  if a = b then .ok (tabela_put D i j (D (i - 1) (j - 1)))
  else .ok (tabela_put D i j (1 + min (min (D (i - 1) (j - 1)) (D (i - 1) j)) (D i (j - 1))))

/-- The function `distancia_entre_palavras(pattern, texto)`: the table starts as zeros,
the first column and the first row are filled, then the cells row by row, and
`D[pattern.size()][texto.size()]` is returned. -/
def distancia_entre_palavras (pattern texto : List Char) : Except Erro Int :=
  let D0 : Nat → Nat → Int := fun _ _ => 0
  let D1 := (List.range (pattern.length + 1)).foldl (fun D i => tabela_put D i 0 (i : Int)) D0
  let D2 := (List.range (texto.length + 1)).foldl (fun D j => tabela_put D 0 j (j : Int)) D1
  ((List.range' 1 pattern.length).foldlM
    (fun D i => (List.range' 1 texto.length).foldlM (distancia_celula pattern texto i) D)
    D2).map fun D => D pattern.length texto.length

/-- One single-character edit: an insertion, a deletion or a substitution at some
place of the string. -/
inductive Passo : List Char → List Char → Prop where
  | insere (l r : List Char) (x : Char) : Passo (l ++ r) (l ++ x :: r)
  | apaga (l r : List Char) (x : Char) : Passo (l ++ x :: r) (l ++ r)
  | substitui (l r : List Char) (x y : Char) : Passo (l ++ x :: r) (l ++ y :: r)

/-- The string `a` is turned into `b` by `n` single-character edits, one after the
other. -/
inductive Transforma : List Char → List Char → Nat → Prop where
  | nada (a : List Char) : Transforma a a 0
  | mais (a a' b : List Char) (n : Nat) (h : Passo a a') (hresto : Transforma a' b n) :
      Transforma a b (n + 1)

/-- The recurrence of the table of `distancia_entre_palavras`, read on the first
characters of two strings. -/
def lev : List Char → List Char → Nat
  | [], ys => ys.length
  | x :: xs, [] => (x :: xs).length
  | x :: xs, y :: ys =>
    if x = y then lev xs ys
    else 1 + min (min (lev xs ys) (lev xs (y :: ys))) (lev (x :: xs) ys)
termination_by xs ys => xs.length + ys.length

/-- The value the table must hold at `(i, j)`: the recurrence on the first `i`
characters of `a` and the first `j` characters of `b`, last character first. -/
def levTabela (a b : List Char) (i j : Nat) : Int :=
  (lev (a.take i).reverse (b.take j).reverse : Nat)

/-- The table `D` holds the right value in the first row, in the first column, in the
rows before `i` and in row `i` up to column `j`. -/
def TabelaAte (a b : List Char) (i j : Nat) (D : Nat → Nat → Int) : Prop :=
  ∀ i' j', i' ≤ a.length → j' ≤ b.length →
    (i' = 0 ∨ j' = 0 ∨ i' < i ∨ (i' = i ∧ j' ≤ j)) → D i' j' = levTabela a b i' j'

/-! ## `printMoreProximate` (string_find.h) -/

/-- The two tests of the first loops of `printMoreProximate` on the pair `(min, max)`,
for one distance. -/
def passo_min_max (m : Int × Int) (d : Int) : Int × Int :=
  (if d < m.1 then d else m.1, if d > m.2 then d else m.2)

/-- The first loops of `printMoreProximate`: `(min, max)` from `min = 10000` and
`max = 0`, over all the distances. -/
def min_max_distancias (distancias : List (List Int)) : Int × Int :=
  distancias.foldl (fun m linha => linha.foldl passo_min_max m) (10000, 0)

/-- The unchecked access `linhas_geradas[i][j]`. -/
def acesso2 (linhas_geradas : List (List NoInfo)) (i j : Nat) : Except Erro NoInfo :=
  match linhas_geradas[i]? with
  | some linha => acesso linha j
  | none => .error .indefinido

/-- The loop `for (j ...)` inside the loop `while` of `printMoreProximate`, from the
index `j` over the distances of row `i` that are left.  The vectors `lista` and
`diferencas` grow together and are held as one list of pairs.  `nome_paragem` reads the
field of that name of a `NoInfo` (missing `utils.h`). -/
def varre_linha (nome_paragem : NoInfo → String) (linhas_geradas : List (List NoInfo))
    (min : Int) (numero_lista i : Nat) :
    Nat → List Int → List (String × Int) → Except Erro (List (String × Int))
  | _, [], lista => .ok lista
  | j, d :: ds, lista =>
    if d = min then
      (acesso2 linhas_geradas i j).bind fun x =>
        if (lista ++ [(nome_paragem x, min)]).length ≥ numero_lista then
          .ok (lista ++ [(nome_paragem x, min)])
        else
          varre_linha nome_paragem linhas_geradas min numero_lista i (j + 1) ds
            (lista ++ [(nome_paragem x, min)])
    else varre_linha nome_paragem linhas_geradas min numero_lista i (j + 1) ds lista

/-- The loop `for (i ...)` inside the loop `while` of `printMoreProximate`, from the
index `i` over the rows of distances that are left. -/
def varre_linhas (nome_paragem : NoInfo → String) (linhas_geradas : List (List NoInfo))
    (min : Int) (numero_lista : Nat) :
    Nat → List (List Int) → List (String × Int) → Except Erro (List (String × Int))
  | _, [], lista => .ok lista
  | i, ds :: resto, lista =>
    (varre_linha nome_paragem linhas_geradas min numero_lista i 0 ds lista).bind fun lista1 =>
      if lista1.length ≥ numero_lista then .ok lista1
      else varre_linhas nome_paragem linhas_geradas min numero_lista (i + 1) resto lista1

/-- The loop `while (lista.size() < numero_lista || min > max)` of `printMoreProximate`,
run for at most `passos` rounds. -/
def printMoreProximate_ciclo (nome_paragem : NoInfo → String)
    (linhas_geradas : List (List NoInfo)) (distancias : List (List Int))
    (numero_lista : Nat) (max : Int) :
    Nat → Int → List (String × Int) → Except Erro (List (String × Int))
  | 0, min, lista =>
    if lista.length < numero_lista ∨ min > max then .error .sem_combustivel else .ok lista
  | passos + 1, min, lista =>
    if lista.length < numero_lista ∨ min > max then
      (varre_linhas nome_paragem linhas_geradas min numero_lista 0 distancias lista).bind
        fun lista1 =>
          if lista1.length ≥ numero_lista then .ok lista1
          else printMoreProximate_ciclo nome_paragem linhas_geradas distancias numero_lista
            max passos (min + 1) lista1
    else .ok lista

/-- The function `printMoreProximate(linhas_geradas, distancias, numero_lista)`: the
lines it prints, as the pairs of `lista[ind]` and `diferencas[ind]` in the order of
`ind`. -/
def printMoreProximate (passos : Nat) (nome_paragem : NoInfo → String)
    (linhas_geradas : List (List NoInfo)) (distancias : List (List Int))
    (numero_lista : Nat) : Except Erro (List (String × Int)) :=
  printMoreProximate_ciclo nome_paragem linhas_geradas distancias numero_lista
    (min_max_distancias distancias).2 passos (min_max_distancias distancias).1 []

/-- The entries: every stop of `linhas_geradas` with its name and its own distance, row
by row. -/
def entradas (nome_paragem : NoInfo → String) (linhas_geradas : List (List NoInfo))
    (distancias : List (List Int)) : List (String × Int) :=
  (List.zipWith (fun l ds => List.zipWith (fun x d => (nome_paragem x, d)) l ds)
    linhas_geradas distancias).flatten

/-- The vectors `linhas_geradas` and `distancias` have the same shape. -/
def MesmaForma (linhas_geradas : List (List NoInfo)) (distancias : List (List Int)) : Prop :=
  List.Forall₂ (fun l ds => l.length = ds.length) linhas_geradas distancias

/-- The entries of distance `v0`, then those of distance `v0 + 1`, and so on for `k`
values. -/
def rondas (E : List (String × Int)) (v0 : Int) : Nat → List (String × Int)
  | 0 => []
  | k + 1 => rondas E v0 k ++ E.filter (fun e => decide (e.2 = v0 + (k : Int)))

/-! ## Identity of stops -/

theorem NoInfo.igual_iff (a b : NoInfo) :
    a.igual b = true ↔ a.idNo = b.idNo ∧ a.layer = b.layer := by
  simp [NoInfo.igual]

theorem NoInfo.igual_refl (a : NoInfo) : a.igual a = true := by
  simp [NoInfo.igual]

theorem NoInfo.igual_comm (a b : NoInfo) : a.igual b = b.igual a := by
  rw [Bool.eq_iff_iff, NoInfo.igual_iff, NoInfo.igual_iff]
  constructor <;> rintro ⟨h1, h2⟩ <;> exact ⟨h1.symm, h2.symm⟩

theorem NoInfo.igual_congr {a b : NoInfo} (h : a.igual b = true) (c : NoInfo) :
    a.igual c = b.igual c := by
  rw [NoInfo.igual_iff] at h
  rw [Bool.eq_iff_iff, NoInfo.igual_iff, NoInfo.igual_iff, h.1, h.2]

theorem NoInfo.igual_congr_right {a b : NoInfo} (h : a.igual b = true) (c : NoInfo) :
    c.igual a = c.igual b := by
  rw [NoInfo.igual_comm c a, NoInfo.igual_comm c b, NoInfo.igual_congr h]

/-! ## The graph store only grows under `addVertex` and `addEdge` -/

theorem estendeLista_refl (l : List Vertex) : estendeLista l l := by
  induction l with
  | nil => trivial
  | cons v vs ih => exact ⟨rfl, ⟨[], by simp⟩, ih⟩

theorem estendeLista_trans {l1 l2 l3 : List Vertex} (h12 : estendeLista l1 l2)
    (h23 : estendeLista l2 l3) : estendeLista l1 l3 := by
  induction l1 generalizing l2 l3 with
  | nil => trivial
  | cons v vs ih =>
    cases l2 with
    | nil => exact h12.elim
    | cons v2 vs2 =>
      cases l3 with
      | nil => exact h23.elim
      | cons v3 vs3 =>
        obtain ⟨hi, ⟨n1, hn1⟩, hr⟩ := h12
        obtain ⟨hi2, ⟨n2, hn2⟩, hr2⟩ := h23
        refine ⟨hi2.trans hi, ⟨n1 ++ n2, ?_⟩, ih hr hr2⟩
        rw [hn2, hn1, List.append_assoc]

theorem estendeLista_append (l r : List Vertex) : estendeLista l (l ++ r) := by
  induction l with
  | nil => trivial
  | cons v vs ih => exact ⟨rfl, ⟨[], by simp⟩, ih⟩

theorem estendeLista_acrescenta (sourc : NoInfo) (e : Edge) (l : List Vertex) :
    estendeLista l (acrescentaAresta sourc e l) := by
  induction l with
  | nil => trivial
  | cons v vs ih =>
    unfold acrescentaAresta
    split_ifs
    · exact ⟨rfl, ⟨[e], rfl⟩, estendeLista_refl vs⟩
    · exact ⟨rfl, ⟨[], by simp⟩, ih⟩

theorem Graph.estende_refl (g : Graph) : g.estende g := estendeLista_refl _

theorem Graph.estende.trans {g1 g2 g3 : Graph} (h12 : g1.estende g2) (h23 : g2.estende g3) :
    g1.estende g3 := estendeLista_trans h12 h23

theorem Graph.estende_addVertex (g : Graph) (x : NoInfo) : g.estende (g.addVertex x) := by
  unfold Graph.addVertex
  split
  · exact g.estende_refl
  · exact estendeLista_append _ _

theorem Graph.estende_addEdge (g : Graph) (sourc dest : NoInfo) (w : ℚ) (id : Int) :
    g.estende (g.addEdge sourc dest w id) := by
  unfold Graph.addEdge
  split
  · exact estendeLista_acrescenta _ _ _
  · exact g.estende_refl

theorem estendeLista_length {l l' : List Vertex} (h : estendeLista l l') :
    l.length ≤ l'.length := by
  induction l generalizing l' with
  | nil => exact Nat.zero_le _
  | cons a as ih =>
    cases l' with
    | nil => exact h.elim
    | cons a' as' => exact Nat.succ_le_succ (ih h.2.2)

theorem estendeLista_getElem {l l' : List Vertex} (h : estendeLista l l') (i : Nat) (v : Vertex)
    (hv : l[i]? = some v) :
    ∃ v', l'[i]? = some v' ∧ v'.info = v.info ∧ ∃ novas, v'.adj = v.adj ++ novas := by
  induction l generalizing l' i with
  | nil => simp at hv
  | cons a as ih =>
    cases l' with
    | nil => exact h.elim
    | cons a' as' =>
      obtain ⟨hi, hn, hr⟩ := h
      cases i with
      | zero =>
        simp at hv
        subst hv
        exact ⟨a', by simp, hi, hn⟩
      | succ k =>
        simp at hv
        simpa using ih hr k hv

theorem estendeLista_find {l l' : List Vertex} (h : estendeLista l l') (x : NoInfo) (v : Vertex)
    (hv : l.find? (fun u => u.info.igual x) = some v) :
    ∃ v', l'.find? (fun u => u.info.igual x) = some v' ∧ v'.info = v.info ∧
      ∃ novas, v'.adj = v.adj ++ novas := by
  induction l generalizing l' with
  | nil => simp at hv
  | cons a as ih =>
    cases l' with
    | nil => exact h.elim
    | cons a' as' =>
      obtain ⟨hi, hn, hr⟩ := h
      rw [List.find?_cons] at hv
      rw [List.find?_cons, hi]
      cases hax : a.info.igual x with
      | true =>
        rw [hax] at hv
        simp at hv
        subst hv
        exact ⟨a', rfl, hi, hn⟩
      | false =>
        rw [hax] at hv
        exact ih hr hv

theorem Graph.estende_getVertex {g g' : Graph} (h : g.estende g') (x : NoInfo)
    (hx : (g.getVertex x).isSome = true) : (g'.getVertex x).isSome = true := by
  obtain ⟨v, hv⟩ := Option.isSome_iff_exists.mp hx
  obtain ⟨v', hv', -⟩ := estendeLista_find h x v hv
  unfold Graph.getVertex
  rw [hv']
  rfl

/-! ## `gera_linhas` only adds to the graph -/

theorem liga_paragem_estende (ext : Externos) (v1 v2 : ℚ) (prov over : List NoInfo)
    (g g' : Graph) (j : Nat) (h : liga_paragem ext v1 v2 prov over g j = .ok g') :
    g.estende g' := by
  unfold liga_paragem at h
  split_ifs at h
  · cases ho : acesso over j <;> cases hp : acesso prov j <;>
      cases ho1 : acesso over (j + 1) <;>
      simp [ho, hp, ho1, bind, Except.bind, pure, Except.pure] at h
    subst h
    exact (((Graph.estende_addEdge _ _ _ _ _).trans
      (Graph.estende_addEdge _ _ _ _ _)).trans
      (Graph.estende_addVertex _ _)).trans (Graph.estende_addEdge _ _ _ _ _)
  · cases ho : acesso over j <;> cases hp : acesso prov j <;>
      cases ho1 : acesso over (j + 1) <;>
      simp [ho, hp, ho1, bind, Except.bind, pure, Except.pure] at h
    subst h
    exact (((Graph.estende_addVertex _ _).trans
      (Graph.estende_addEdge _ _ _ _ _)).trans
      (Graph.estende_addVertex _ _)).trans (Graph.estende_addEdge _ _ _ _ _)
  · cases ho : acesso over j <;> cases hp : acesso prov j <;>
      simp [ho, hp, bind, Except.bind, pure, Except.pure] at h
    subst h
    exact Graph.estende_addEdge _ _ _ _ _
  · simp [pure, Except.pure] at h
    subst h
    exact g.estende_refl

theorem foldlM_estende (f : Graph → Nat → Except Erro Graph)
    (hf : ∀ g j g', f g j = .ok g' → g.estende g') (l : List Nat) (g g' : Graph)
    (h : l.foldlM f g = .ok g') : g.estende g' := by
  induction l generalizing g with
  | nil =>
    simp [pure, Except.pure] at h
    subst h
    exact g.estende_refl
  | cons j js ih =>
    rw [List.foldlM_cons] at h
    cases hj : f g j with
    | error e => simp [hj, bind, Except.bind] at h
    | ok g1 =>
      simp [hj, bind, Except.bind] at h
      exact (hf g j g1 hj).trans (ih g1 h)

theorem enxerta_linha_estende (ext : Externos) (layer : Char) (v1 v2 : ℚ) (g g' : Graph)
    (prov : List NoInfo) (h : enxerta_linha ext layer v1 v2 g prov = .ok g') :
    g.estende g' :=
  foldlM_estende _ (fun a j b hab => liga_paragem_estende ext v1 v2 _ _ a b j hab) _ g g' h

/-- What an attempt can do: leave graph and count as they were, or graft the Dijkstra
path between two resolved base stops, a path of at least `comp` stops, and count it. -/
theorem tentativa_linha_casos (ext : Externos) (rnd : Nat → Nat) (layer : Char) (v1 v2 : ℚ)
    (comp : Nat) (s s' : Estado) (h : tentativa_linha ext rnd layer v1 v2 comp s = .ok s') :
    (s'.data = s.data ∧ s'.numero_linhas = s.numero_linhas) ∨
    (s'.numero_linhas = s.numero_linhas + 1 ∧ ∃ ori des : Vertex,
      s.data.getVertex ⟨ori.info.idNo, 0, 0, LAYER_BASE⟩ = some ori ∧
      s.data.getVertex ⟨des.info.idNo, 0, 0, LAYER_BASE⟩ = some des ∧
      comp ≤ (ext.getDijkstraPath s.data ori.info des.info).length ∧
      enxerta_linha ext layer v1 v2 s.data (ext.getDijkstraPath s.data ori.info des.info)
        = .ok s'.data) := by
  unfold tentativa_linha at h
  simp only at h
  split_ifs at h with h0
  split at h
  · rename_i vS vD hS hD
    split at h
    · rename_i ori des hori hdes
      have eo : ori.info.idNo = vS.info.idNo := by
        have := List.find?_some hori
        simp [NoInfo.igual] at this
        exact this.1
      have ed : des.info.idNo = vD.info.idNo := by
        have := List.find?_some hdes
        simp [NoInfo.igual] at this
        exact this.1
      split_ifs at h with hig hlen
      · injection h with h
        subst h
        exact Or.inl ⟨rfl, rfl⟩
      · injection h with h
        subst h
        exact Or.inl ⟨rfl, rfl⟩
      · cases he : enxerta_linha ext layer v1 v2 s.data
            (ext.getDijkstraPath s.data ori.info des.info) with
        | error e => simp [he, Except.map] at h
        | ok g1 =>
          simp [he, Except.map] at h
          subst h
          refine Or.inr ⟨rfl, ori, des, ?_, ?_, Nat.le_of_not_lt hlen, he⟩
          · rw [eo]; exact hori
          · rw [ed]; exact hdes
    · injection h with h
      subst h
      exact Or.inl ⟨rfl, rfl⟩
  · simp at h

theorem tentativa_linha_estende (ext : Externos) (rnd : Nat → Nat) (layer : Char) (v1 v2 : ℚ)
    (comp : Nat) (s s' : Estado) (h : tentativa_linha ext rnd layer v1 v2 comp s = .ok s') :
    s.data.estende s'.data := by
  rcases tentativa_linha_casos ext rnd layer v1 v2 comp s s' h with ⟨hd, -⟩ | ⟨-, _, _, -, -, -, he⟩
  · rw [hd]; exact Graph.estende_refl _
  · exact enxerta_linha_estende ext layer v1 v2 _ _ _ he

theorem ciclo_linhas_estende (ext : Externos) (rnd : Nat → Nat) (layer : Char) (v1 v2 : ℚ)
    (comp linhas : Nat) (passos : Nat) (s s' : Estado)
    (h : ciclo_linhas ext rnd layer v1 v2 comp linhas passos s = .ok s') :
    s.data.estende s'.data := by
  induction passos generalizing s with
  | zero =>
    unfold ciclo_linhas at h
    split_ifs at h
    injection h with h
    subst h
    exact Graph.estende_refl _
  | succ k ih =>
    unfold ciclo_linhas at h
    split_ifs at h
    · cases ht : tentativa_linha ext rnd layer v1 v2 comp s with
      | error e => simp [ht, Except.bind] at h
      | ok s1 =>
        simp [ht, Except.bind] at h
        exact (tentativa_linha_estende ext rnd layer v1 v2 comp s s1 ht).trans (ih s1 h)
    · injection h with h
      subst h
      exact Graph.estende_refl _

theorem gera_linhas_estende (ext : Externos) (rnd : Nat → Nat) (passos : Nat) (data g' : Graph)
    (linhas_metro linhas_autocarro comp_metro comp_autocarro : Nat)
    (h : gera_linhas ext rnd passos data linhas_metro linhas_autocarro comp_metro
      comp_autocarro = .ok g') : data.estende g' := by
  unfold gera_linhas at h
  cases h1 : ciclo_linhas ext rnd 'A' ext.VELOCIDADE_AUTOCARRO ext.VELOCIDADE_AUTOCARRO
      comp_autocarro linhas_autocarro passos ⟨data, 0, 0⟩ with
  | error e => simp [h1, Except.bind] at h
  | ok s1 =>
    simp only [h1, Except.bind] at h
    cases h2 : ciclo_linhas ext rnd 'M' ext.VELOCIDADE_AUTOCARRO ext.VELOCIDADE_METRO
        comp_metro linhas_metro passos ⟨s1.data, 0, s1.chamadas_rand⟩ with
    | error e => simp [h2] at h
    | ok s2 =>
      simp only [h2] at h
      injection h with h
      subst h
      have e1 := ciclo_linhas_estende _ _ _ _ _ _ _ _ _ _ h1
      have e2 := ciclo_linhas_estende _ _ _ _ _ _ _ _ _ _ h2
      exact Graph.estende.trans e1 e2

/-! ## Lookups and edge weights after `addVertex` and `addEdge` -/

theorem Graph.getVertex_congr (g : Graph) {a b : NoInfo} (h : a.igual b = true) :
    g.getVertex a = g.getVertex b := by
  unfold Graph.getVertex
  congr 1
  funext v
  exact NoInfo.igual_congr_right h _

theorem find_igual {l : List Vertex} {x : NoInfo} {v : Vertex}
    (h : l.find? (fun u => u.info.igual x) = some v) : v.info.igual x = true := by
  have := List.find?_some h
  simpa using this

theorem Graph.getVertex_info (g : Graph) (x : NoInfo) (v : Vertex)
    (h : g.getVertex x = some v) : v.info.igual x = true :=
  find_igual h

theorem Graph.getVertex_addVertex_self (g : Graph) (x : NoInfo) :
    ((g.addVertex x).getVertex x).isSome = true := by
  unfold Graph.addVertex
  cases h : g.getVertex x with
  | some v => simp [h]
  | none =>
    unfold Graph.getVertex at h
    simp [Graph.getVertex, List.find?_append, h, NoInfo.igual_refl]

theorem Graph.pesos_addVertex (g : Graph) (x a b : NoInfo) :
    (g.addVertex x).pesos a b = g.pesos a b := by
  unfold Graph.addVertex
  cases h : g.getVertex x with
  | some v => rfl
  | none =>
    unfold Graph.pesos Graph.getVertex
    simp only [List.find?_append]
    cases ha : g.vertexSet.find? (fun v => v.info.igual a) with
    | some v => simp
    | none =>
      by_cases hx : x.igual a = true
      · simp [List.find?_cons, hx]
      · simp [List.find?_cons, hx]

theorem find_acrescentaAresta (sourc : NoInfo) (e : Edge) (l : List Vertex) (a : NoInfo) :
    (acrescentaAresta sourc e l).find? (fun v => v.info.igual a) =
      (l.find? (fun v => v.info.igual a)).map
        (fun v => if v.info.igual sourc then ⟨v.info, v.adj ++ [e]⟩ else v) := by
  induction l with
  | nil => rfl
  | cons v vs ih =>
    unfold acrescentaAresta
    by_cases hs : v.info.igual sourc = true
    · by_cases ha : v.info.igual a = true
      · simp [hs, ha, List.find?_cons]
      · simp only [hs, if_true, List.find?_cons, ha]
        cases hf : vs.find? (fun v => v.info.igual a) with
        | none => rfl
        | some u =>
          have hu : u.info.igual a = true := find_igual hf
          have hus : ¬ u.info.igual sourc = true := by
            intro hus
            apply ha
            rw [NoInfo.igual_congr hs, ← NoInfo.igual_congr hus]
            exact hu
          simp [hus]
    · by_cases ha : v.info.igual a = true
      · simp [hs, ha, List.find?_cons]
      · simp only [hs, List.find?_cons, ha, Bool.false_eq_true, if_false]
        exact ih

theorem Graph.pesos_addEdge (g : Graph) (sourc dest : NoInfo) (w : ℚ) (id : Int) (a b : NoInfo)
    (hs : (g.getVertex sourc).isSome = true) (hd : (g.getVertex dest).isSome = true) :
    (g.addEdge sourc dest w id).pesos a b =
      g.pesos a b ++ (if a.igual sourc && b.igual dest then [w] else []) := by
  obtain ⟨vS, hvS⟩ := Option.isSome_iff_exists.mp hs
  obtain ⟨vD, hvD⟩ := Option.isSome_iff_exists.mp hd
  have hDd : vD.info.igual dest = true := g.getVertex_info dest vD hvD
  unfold Graph.addEdge
  simp only [hvS, hvD]
  unfold Graph.pesos Graph.getVertex
  simp only [find_acrescentaAresta]
  by_cases has : a.igual sourc = true
  · have hga : g.getVertex a = some vS := by rw [g.getVertex_congr has]; exact hvS
    unfold Graph.getVertex at hga
    have hSs : vS.info.igual sourc = true := g.getVertex_info sourc vS hvS
    have hbd : vD.info.igual b = b.igual dest := by
      rw [NoInfo.igual_congr hDd, NoInfo.igual_comm]
    simp only [hga, Option.map_some', hSs, if_true, List.filter_append, List.map_append, has,
      Bool.true_and]
    congr 1
    by_cases hb : b.igual dest = true
    · simp [List.filter_cons, hbd, hb]
    · simp [List.filter_cons, hbd, hb]
  · cases hga : g.vertexSet.find? (fun v => v.info.igual a) with
    | none => simp [has]
    | some v =>
      have hva : v.info.igual a = true := find_igual hga
      have hvs : ¬ v.info.igual sourc = true := by
        rw [NoInfo.igual_congr hva]; exact has
      simp [hvs, has]

theorem Graph.pesos_addEdge_outro (g : Graph) (sourc dest : NoInfo) (w : ℚ) (id : Int)
    (a b : NoInfo) (h : (a.igual sourc && b.igual dest) = false) :
    (g.addEdge sourc dest w id).pesos a b = g.pesos a b := by
  by_cases hs : (g.getVertex sourc).isSome = true
  · by_cases hd : (g.getVertex dest).isSome = true
    · rw [g.pesos_addEdge sourc dest w id a b hs hd, h]
      simp
    · unfold Graph.addEdge
      cases h1 : g.getVertex sourc <;> cases h2 : g.getVertex dest <;> simp_all
  · unfold Graph.addEdge
    cases h1 : g.getVertex sourc <;> simp_all

theorem Graph.getVertex_addEdge (g : Graph) (sourc dest : NoInfo) (w : ℚ) (id : Int)
    (x : NoInfo) (hx : (g.getVertex x).isSome = true) :
    ((g.addEdge sourc dest w id).getVertex x).isSome = true :=
  Graph.estende_getVertex (g.estende_addEdge sourc dest w id) x hx

theorem Graph.getVertex_addVertex (g : Graph) (y x : NoInfo)
    (hx : (g.getVertex x).isSome = true) : ((g.addVertex y).getVertex x).isSome = true :=
  Graph.estende_getVertex (g.estende_addVertex y) x hx

/-! ## The wiring loop, pass by pass -/

theorem acesso_some {v : List NoInfo} {i : Nat} {x : NoInfo} (h : v[i]? = some x) :
    acesso v i = .ok x := by
  simp [acesso, h]

theorem sobreposta_getElem (layer : Char) (prov : List NoInfo) (i : Nat) (p : NoInfo)
    (h : prov[i]? = some p) : (linha_sobreposta layer prov)[i]? = some (p.sobreposto layer) := by
  simp [linha_sobreposta, h]

theorem liga_paragem_inicial (ext : Externos) (v1 v2 : ℚ) (layer : Char) (prov : List NoInfo)
    (g : Graph) (p q : NoInfo) (h0 : prov[0]? = some p) (h1 : prov[1]? = some q) :
    liga_paragem ext v1 v2 prov (linha_sobreposta layer prov) g 0 =
      .ok ((((g.addVertex (p.sobreposto layer)).addEdge p (p.sobreposto layer) 0 0).addVertex
        (q.sobreposto layer)).addEdge (p.sobreposto layer) (q.sobreposto layer)
        (ext.haversine_km p.latitude p.longitude q.latitude q.longitude / v1) 0) := by
  unfold liga_paragem
  simp [acesso_some (sobreposta_getElem layer prov 0 p h0), acesso_some h0,
    acesso_some (sobreposta_getElem layer prov 1 q h1), bind, Except.bind, pure, Except.pure,
    NoInfo.sobreposto]

theorem liga_paragem_intermedio (ext : Externos) (v1 v2 : ℚ) (layer : Char)
    (prov : List NoInfo) (g : Graph) (j : Nat) (p q : NoInfo) (hj0 : j ≠ 0)
    (hjn : j ≠ prov.length - 1) (hp : prov[j]? = some p) (hq : prov[j + 1]? = some q) :
    liga_paragem ext v1 v2 prov (linha_sobreposta layer prov) g j =
      .ok ((((g.addEdge (p.sobreposto layer) p 0 0).addEdge p (p.sobreposto layer) 0 0).addVertex
        (q.sobreposto layer)).addEdge (p.sobreposto layer) (q.sobreposto layer)
        (ext.haversine_km p.latitude p.longitude q.latitude q.longitude / v2) 0) := by
  unfold liga_paragem
  simp [hj0, hjn, acesso_some (sobreposta_getElem layer prov j p hp), acesso_some hp,
    acesso_some (sobreposta_getElem layer prov (j + 1) q hq), bind, Except.bind, pure,
    Except.pure, NoInfo.sobreposto]

theorem liga_paragem_final (ext : Externos) (v1 v2 : ℚ) (layer : Char) (prov : List NoInfo)
    (g : Graph) (j : Nat) (p : NoInfo) (hj0 : j ≠ 0) (hjn : j = prov.length - 1)
    (hp : prov[j]? = some p) :
    liga_paragem ext v1 v2 prov (linha_sobreposta layer prov) g j =
      .ok (g.addEdge (p.sobreposto layer) p 0 0) := by
  unfold liga_paragem
  have hn : ¬ (j ≠ 0 ∧ j ≠ prov.length - 1) := fun h => h.2 hjn
  rw [if_neg hn, if_neg hj0, if_pos hjn]
  simp [acesso_some (sobreposta_getElem layer prov j p hp), acesso_some hp, bind, Except.bind,
    pure, Except.pure]

theorem foldlM_range_inducao (f : Graph → Nat → Except Erro Graph) (P : Nat → Graph → Prop)
    (n : Nat) (G : Graph) (h0 : P 0 G)
    (hstep : ∀ j g, j < n → P j g → ∃ g', f g j = .ok g' ∧ P (j + 1) g') :
    ∀ k, k ≤ n → ∃ g', (List.range k).foldlM f G = .ok g' ∧ P k g' := by
  intro k
  induction k with
  | zero => intro _; exact ⟨G, rfl, h0⟩
  | succ k ih =>
    intro hk
    obtain ⟨g1, hg1, hP1⟩ := ih (Nat.le_of_succ_le hk)
    obtain ⟨g2, hg2, hP2⟩ := hstep k g1 hk hP1
    refine ⟨g2, ?_, hP2⟩
    rw [List.range_succ, List.foldlM_append, hg1]
    simp [bind, Except.bind, hg2, pure, Except.pure]

/-- Induction over the passes of the wiring loop for a path of at least two stops: a
property that holds before the loop and is carried by the pass of the initial stop, of
an intermediate stop and of the final stop holds of the graph the loop returns. -/
theorem enxerta_linha_inducao (ext : Externos) (layer : Char) (v1 v2 : ℚ) (G : Graph)
    (prov : List NoInfo) (P : Nat → Graph → Prop) (h2 : 2 ≤ prov.length) (h0 : P 0 G)
    (hini : ∀ g p q, prov[0]? = some p → prov[1]? = some q → P 0 g →
      P 1 ((((g.addVertex (p.sobreposto layer)).addEdge p (p.sobreposto layer) 0 0).addVertex
        (q.sobreposto layer)).addEdge (p.sobreposto layer) (q.sobreposto layer)
        (ext.haversine_km p.latitude p.longitude q.latitude q.longitude / v1) 0))
    (hint : ∀ j g p q, 0 < j → j + 1 < prov.length → prov[j]? = some p →
      prov[j + 1]? = some q → P j g →
      P (j + 1) ((((g.addEdge (p.sobreposto layer) p 0 0).addEdge p (p.sobreposto layer)
        0 0).addVertex (q.sobreposto layer)).addEdge (p.sobreposto layer) (q.sobreposto layer)
        (ext.haversine_km p.latitude p.longitude q.latitude q.longitude / v2) 0))
    (hfin : ∀ j g p, 0 < j → j + 1 = prov.length → prov[j]? = some p → P j g →
      P (j + 1) (g.addEdge (p.sobreposto layer) p 0 0)) :
    ∃ g', enxerta_linha ext layer v1 v2 G prov = .ok g' ∧ P prov.length g' := by
  apply foldlM_range_inducao _ P prov.length G h0 _ prov.length (Nat.le_refl _)
  intro j g hj hP
  obtain ⟨p, hp⟩ : ∃ p, prov[j]? = some p := ⟨prov[j], List.getElem?_eq_getElem hj⟩
  by_cases hj0 : j = 0
  · subst hj0
    obtain ⟨q, hq⟩ : ∃ q, prov[1]? = some q :=
      ⟨prov[1], List.getElem?_eq_getElem (by omega)⟩
    exact ⟨_, liga_paragem_inicial ext v1 v2 layer prov g p q hp hq, hini g p q hp hq hP⟩
  · by_cases hjn : j + 1 = prov.length
    · exact ⟨_, liga_paragem_final ext v1 v2 layer prov g j p hj0 (by omega) hp,
        hfin j g p (by omega) hjn hp hP⟩
    · have hlt : j + 1 < prov.length := by omega
      obtain ⟨q, hq⟩ : ∃ q, prov[j + 1]? = some q :=
        ⟨prov[j + 1], List.getElem?_eq_getElem hlt⟩
      exact ⟨_, liga_paragem_intermedio ext v1 v2 layer prov g j p q hj0 (by omega) hp hq,
        hint j g p q (by omega) hlt hp hq hP⟩

/-! ## The overlay stops become vertices -/

theorem estende_passo_inicial (g : Graph) (p o o1 : NoInfo) (w : ℚ) :
    g.estende ((((g.addVertex o).addEdge p o 0 0).addVertex o1).addEdge o o1 w 0) :=
  (((Graph.estende_addVertex _ _).trans (Graph.estende_addEdge _ _ _ _ _)).trans
    (Graph.estende_addVertex _ _)).trans (Graph.estende_addEdge _ _ _ _ _)

theorem estende_passo_intermedio (g : Graph) (p o o1 : NoInfo) (w : ℚ) :
    g.estende ((((g.addEdge o p 0 0).addEdge p o 0 0).addVertex o1).addEdge o o1 w 0) :=
  (((Graph.estende_addEdge _ _ _ _ _).trans (Graph.estende_addEdge _ _ _ _ _)).trans
    (Graph.estende_addVertex _ _)).trans (Graph.estende_addEdge _ _ _ _ _)

theorem presentes_inicial (layer : Char) (prov : List NoInfo) (g : Graph) (p q : NoInfo)
    (w : ℚ) (hp : prov[0]? = some p) (hq : prov[1]? = some q) :
    SobrepostasPresentes layer prov 1
      ((((g.addVertex (p.sobreposto layer)).addEdge p (p.sobreposto layer) 0 0).addVertex
        (q.sobreposto layer)).addEdge (p.sobreposto layer) (q.sobreposto layer) w 0) := by
  intro i r _ hi hr
  have hi' : i = 0 ∨ i = 1 := by omega
  rcases hi' with rfl | rfl
  · have : r = p := by rw [hp] at hr; exact (Option.some.inj hr).symm
    subst this
    apply Graph.getVertex_addEdge
    apply Graph.getVertex_addVertex
    apply Graph.getVertex_addEdge
    exact Graph.getVertex_addVertex_self _ _
  · have : r = q := by rw [hq] at hr; exact (Option.some.inj hr).symm
    subst this
    apply Graph.getVertex_addEdge
    exact Graph.getVertex_addVertex_self _ _

theorem presentes_intermedio (layer : Char) (prov : List NoInfo) (g : Graph) (j : Nat)
    (p q : NoInfo) (w : ℚ) (hj : 0 < j) (hq : prov[j + 1]? = some q)
    (h : SobrepostasPresentes layer prov j g) :
    SobrepostasPresentes layer prov (j + 1)
      ((((g.addEdge (p.sobreposto layer) p 0 0).addEdge p (p.sobreposto layer) 0 0).addVertex
        (q.sobreposto layer)).addEdge (p.sobreposto layer) (q.sobreposto layer) w 0) := by
  intro i r _ hi hr
  by_cases hij : i ≤ j
  · exact Graph.estende_getVertex (estende_passo_intermedio _ _ _ _ _) _ (h i r hj hij hr)
  · have : i = j + 1 := by omega
    subst this
    have : r = q := by rw [hq] at hr; exact (Option.some.inj hr).symm
    subst this
    apply Graph.getVertex_addEdge
    exact Graph.getVertex_addVertex_self _ _

theorem presentes_final (layer : Char) (prov : List NoInfo) (g : Graph) (j : Nat)
    (p : NoInfo) (hj : 0 < j) (hjn : j + 1 = prov.length)
    (h : SobrepostasPresentes layer prov j g) :
    SobrepostasPresentes layer prov (j + 1) (g.addEdge (p.sobreposto layer) p 0 0) := by
  intro i r _ _ hr
  have hlt : i < prov.length := by
    rcases List.getElem?_eq_some.mp hr with ⟨hlt, -⟩
    exact hlt
  exact Graph.getVertex_addEdge _ _ _ _ _ _ (h i r hj (by omega) hr)

theorem enxerta_linha_presentes (ext : Externos) (layer : Char) (v1 v2 : ℚ) (G : Graph)
    (prov : List NoInfo) (h2 : 2 ≤ prov.length) :
    ∃ g', enxerta_linha ext layer v1 v2 G prov = .ok g' ∧
      ∀ o ∈ linha_sobreposta layer prov, (g'.getVertex o).isSome = true := by
  obtain ⟨g', hg', hP⟩ := enxerta_linha_inducao ext layer v1 v2 G prov
    (SobrepostasPresentes layer prov) h2 (fun i r h => absurd h (Nat.lt_irrefl 0))
    (fun g p q hp hq _ => presentes_inicial layer prov g p q _ hp hq)
    (fun j g p q hj _ _ hq h => presentes_intermedio layer prov g j p q _ hj hq h)
    (fun j g p hj hjn _ h => presentes_final layer prov g j p hj hjn h)
  refine ⟨g', hg', ?_⟩
  intro o ho
  unfold linha_sobreposta at ho
  obtain ⟨r, hr, rfl⟩ := List.mem_map.mp ho
  obtain ⟨i, hi⟩ := List.mem_iff_getElem?.mp hr
  have hlt : i < prov.length := by
    rcases List.getElem?_eq_some.mp hi with ⟨hlt, -⟩
    exact hlt
  exact hP i r (by omega) (by omega) hi

/-! ## Which stops are the same stop -/

theorem igual_base_sobreposto {layer : Char} (r p : NoInfo) (hl : layer ≠ LAYER_BASE)
    (hr : r.layer = LAYER_BASE) : r.igual (p.sobreposto layer) = false := by
  rw [Bool.eq_false_iff]
  intro h
  rw [NoInfo.igual_iff] at h
  apply hl
  rw [← hr, h.2]
  rfl

theorem igual_sobreposto_base {layer : Char} (r p : NoInfo) (hl : layer ≠ LAYER_BASE)
    (hr : r.layer = LAYER_BASE) : (p.sobreposto layer).igual r = false := by
  rw [NoInfo.igual_comm]
  exact igual_base_sobreposto r p hl hr

theorem idNo_distintos {prov : List NoInfo} (hnd : (prov.map NoInfo.idNo).Nodup) {i j : Nat}
    {r p : NoInfo} (hr : prov[i]? = some r) (hp : prov[j]? = some p) (hij : i ≠ j) :
    r.idNo ≠ p.idNo := by
  intro heq
  have hi : (prov.map NoInfo.idNo)[i]? = some r.idNo := by simp [hr]
  have hj : (prov.map NoInfo.idNo)[j]? = some p.idNo := by simp [hp]
  have hli : i < (prov.map NoInfo.idNo).length := by
    rcases List.getElem?_eq_some.mp hi with ⟨h, -⟩
    exact h
  have hlj : j < (prov.map NoInfo.idNo).length := by
    rcases List.getElem?_eq_some.mp hj with ⟨h, -⟩
    exact h
  rw [List.nodup_iff_getElem?_ne_getElem?] at hnd
  rcases Nat.lt_or_gt_of_ne hij with h | h
  · exact hnd i j h hlj (by rw [hi, hj, heq])
  · exact hnd j i h hli (by rw [hi, hj, heq])

theorem igual_outra_paragem {prov : List NoInfo} (hnd : (prov.map NoInfo.idNo).Nodup)
    {i j : Nat} {r p : NoInfo} (hr : prov[i]? = some r) (hp : prov[j]? = some p)
    (hij : i ≠ j) : r.igual p = false := by
  rw [Bool.eq_false_iff]
  intro h
  rw [NoInfo.igual_iff] at h
  exact idNo_distintos hnd hr hp hij h.1

theorem igual_outra_sobreposta {prov : List NoInfo} (hnd : (prov.map NoInfo.idNo).Nodup)
    (layer : Char) {i j : Nat} {r p : NoInfo} (hr : prov[i]? = some r) (hp : prov[j]? = some p)
    (hij : i ≠ j) : (r.sobreposto layer).igual (p.sobreposto layer) = false := by
  rw [Bool.eq_false_iff]
  intro h
  rw [NoInfo.igual_iff] at h
  exact idNo_distintos hnd hr hp hij h.1

/-! ## Board and alight edges added by the wiring loop -/

theorem pesos_inicial (layer : Char) (prov : List NoInfo) (G g : Graph) (p q : NoInfo) (w : ℚ)
    (hl : layer ≠ LAYER_BASE) (h2 : 2 ≤ prov.length)
    (hbase : ∀ x ∈ prov, x.layer = LAYER_BASE) (hnd : (prov.map NoInfo.idNo).Nodup)
    (hpres : ∀ x ∈ prov, (G.getVertex x).isSome = true) (hGg : G.estende g)
    (hp : prov[0]? = some p) (hP : PesosEnxerto layer prov G 0 g) :
    PesosEnxerto layer prov G 1
      ((((g.addVertex (p.sobreposto layer)).addEdge p (p.sobreposto layer) 0 0).addVertex
        (q.sobreposto layer)).addEdge (p.sobreposto layer) (q.sobreposto layer) w 0) := by
  intro i r hr
  obtain ⟨hb, ha⟩ := hP i r hr
  have hrm : r ∈ prov := List.mem_iff_getElem?.mpr ⟨i, hr⟩
  have hpm : p ∈ prov := List.mem_iff_getElem?.mpr ⟨0, hp⟩
  have hrb := hbase r hrm
  have hpb := hbase p hpm
  constructor
  · rw [Graph.pesos_addEdge_outro _ _ _ _ _ _ _
      (by simp [igual_base_sobreposto r p hl hrb]), Graph.pesos_addVertex]
    by_cases hi : i = 0
    · subst hi
      have : r = p := by rw [hp] at hr; exact (Option.some.inj hr).symm
      subst this
      rw [Graph.pesos_addEdge _ _ _ _ _ _ _
        (Graph.getVertex_addVertex _ _ _ (Graph.estende_getVertex hGg _ (hpres r hrm)))
        (Graph.getVertex_addVertex_self _ _), Graph.pesos_addVertex, hb]
      have h1 : 1 < prov.length := by omega
      simp [NoInfo.igual_refl, h1]
    · rw [Graph.pesos_addEdge_outro _ _ _ _ _ _ _
        (by simp [igual_outra_paragem hnd hr hp hi]), Graph.pesos_addVertex, hb]
      have h1 : ¬ i < 1 := by omega
      simp [h1]
  · rw [Graph.pesos_addEdge_outro _ _ _ _ _ _ _
      (by simp [igual_base_sobreposto r q hl hrb]), Graph.pesos_addVertex,
      Graph.pesos_addEdge_outro _ _ _ _ _ _ _
      (by simp [igual_sobreposto_base p r hl hpb]), Graph.pesos_addVertex, ha]
    have h1 : ¬ (0 < i ∧ i < 1) := by omega
    have h0 : ¬ (0 < i ∧ i < 0) := by omega
    rw [if_neg h1, if_neg h0]

theorem pesos_intermedio (layer : Char) (prov : List NoInfo) (G g : Graph) (j : Nat)
    (p q : NoInfo) (w : ℚ) (hl : layer ≠ LAYER_BASE)
    (hbase : ∀ x ∈ prov, x.layer = LAYER_BASE) (hnd : (prov.map NoInfo.idNo).Nodup)
    (hpres : ∀ x ∈ prov, (G.getVertex x).isSome = true) (hGg : G.estende g)
    (hj : 0 < j) (hjn : j + 1 < prov.length) (hp : prov[j]? = some p)
    (hS : SobrepostasPresentes layer prov j g) (hP : PesosEnxerto layer prov G j g) :
    PesosEnxerto layer prov G (j + 1)
      ((((g.addEdge (p.sobreposto layer) p 0 0).addEdge p (p.sobreposto layer) 0 0).addVertex
        (q.sobreposto layer)).addEdge (p.sobreposto layer) (q.sobreposto layer) w 0) := by
  intro i r hr
  obtain ⟨hb, ha⟩ := hP i r hr
  have hrm : r ∈ prov := List.mem_iff_getElem?.mpr ⟨i, hr⟩
  have hpm : p ∈ prov := List.mem_iff_getElem?.mpr ⟨j, hp⟩
  have hrb := hbase r hrm
  have hpb := hbase p hpm
  have hgp : (g.getVertex p).isSome = true := Graph.estende_getVertex hGg _ (hpres p hpm)
  have hgo : (g.getVertex (p.sobreposto layer)).isSome = true := hS j p hj (Nat.le_refl j) hp
  constructor
  · rw [Graph.pesos_addEdge_outro _ _ _ _ _ _ _
      (by simp [igual_base_sobreposto r p hl hrb]), Graph.pesos_addVertex]
    by_cases hi : i = j
    · subst hi
      have : r = p := by rw [hp] at hr; exact (Option.some.inj hr).symm
      subst this
      rw [Graph.pesos_addEdge _ _ _ _ _ _ _ (Graph.getVertex_addEdge _ _ _ _ _ _ hgp)
        (Graph.getVertex_addEdge _ _ _ _ _ _ hgo),
        Graph.pesos_addEdge_outro _ _ _ _ _ _ _
        (by simp [igual_base_sobreposto r r hl hrb]), hb]
      have h1 : i + 1 < prov.length := by omega
      simp [NoInfo.igual_refl, h1]
    · rw [Graph.pesos_addEdge_outro _ _ _ _ _ _ _
        (by simp [igual_outra_paragem hnd hr hp hi]),
        Graph.pesos_addEdge_outro _ _ _ _ _ _ _
        (by simp [igual_base_sobreposto r p hl hrb]), hb]
      have h1 : (i < j + 1 ∧ i + 1 < prov.length) ↔ (i < j ∧ i + 1 < prov.length) := by omega
      simp [h1]
  · rw [Graph.pesos_addEdge_outro _ _ _ _ _ _ _
      (by simp [igual_base_sobreposto r q hl hrb]), Graph.pesos_addVertex,
      Graph.pesos_addEdge_outro _ _ _ _ _ _ _
      (by simp [igual_sobreposto_base p r hl hpb])]
    by_cases hi : i = j
    · subst hi
      have : r = p := by rw [hp] at hr; exact (Option.some.inj hr).symm
      subst this
      rw [Graph.pesos_addEdge _ _ _ _ _ _ _ hgo hgp, ha]
      have h1 : ¬ i < i := Nat.lt_irrefl i
      simp [NoInfo.igual_refl, h1, hj]
    · rw [Graph.pesos_addEdge_outro _ _ _ _ _ _ _
        (by simp [igual_outra_paragem hnd hr hp hi]), ha]
      have h1 : (0 < i ∧ i < j + 1) ↔ (0 < i ∧ i < j) := by omega
      simp [h1]

theorem pesos_final (layer : Char) (prov : List NoInfo) (G g : Graph) (j : Nat)
    (p : NoInfo) (hl : layer ≠ LAYER_BASE)
    (hbase : ∀ x ∈ prov, x.layer = LAYER_BASE) (hnd : (prov.map NoInfo.idNo).Nodup)
    (hpres : ∀ x ∈ prov, (G.getVertex x).isSome = true) (hGg : G.estende g)
    (hj : 0 < j) (hjn : j + 1 = prov.length) (hp : prov[j]? = some p)
    (hS : SobrepostasPresentes layer prov j g) (hP : PesosEnxerto layer prov G j g) :
    PesosEnxerto layer prov G (j + 1) (g.addEdge (p.sobreposto layer) p 0 0) := by
  intro i r hr
  obtain ⟨hb, ha⟩ := hP i r hr
  have hrm : r ∈ prov := List.mem_iff_getElem?.mpr ⟨i, hr⟩
  have hpm : p ∈ prov := List.mem_iff_getElem?.mpr ⟨j, hp⟩
  have hrb := hbase r hrm
  have hgp : (g.getVertex p).isSome = true := Graph.estende_getVertex hGg _ (hpres p hpm)
  have hgo : (g.getVertex (p.sobreposto layer)).isSome = true := hS j p hj (Nat.le_refl j) hp
  have hlt : i < prov.length := by
    rcases List.getElem?_eq_some.mp hr with ⟨hlt, -⟩
    exact hlt
  constructor
  · rw [Graph.pesos_addEdge_outro _ _ _ _ _ _ _
      (by simp [igual_base_sobreposto r p hl hrb]), hb]
    have h1 : (i < j + 1 ∧ i + 1 < prov.length) ↔ (i < j ∧ i + 1 < prov.length) := by omega
    simp [h1]
  · by_cases hi : i = j
    · subst hi
      have : r = p := by rw [hp] at hr; exact (Option.some.inj hr).symm
      subst this
      rw [Graph.pesos_addEdge _ _ _ _ _ _ _ hgo hgp, ha]
      have h1 : ¬ i < i := Nat.lt_irrefl i
      simp [NoInfo.igual_refl, h1, hj]
    · rw [Graph.pesos_addEdge_outro _ _ _ _ _ _ _
        (by simp [igual_outra_paragem hnd hr hp hi]), ha]
      have h1 : (0 < i ∧ i < j + 1) ↔ (0 < i ∧ i < j) := by omega
      simp [h1]

theorem enxerta_linha_pesos (ext : Externos) (layer : Char) (v1 v2 : ℚ) (G : Graph)
    (prov : List NoInfo) (hl : layer ≠ LAYER_BASE) (h2 : 2 ≤ prov.length)
    (hbase : ∀ x ∈ prov, x.layer = LAYER_BASE) (hnd : (prov.map NoInfo.idNo).Nodup)
    (hpres : ∀ x ∈ prov, (G.getVertex x).isSome = true) :
    ∃ g', enxerta_linha ext layer v1 v2 G prov = .ok g' ∧
      PesosEnxerto layer prov G prov.length g' := by
  obtain ⟨g', hg', -, -, hP⟩ := enxerta_linha_inducao ext layer v1 v2 G prov
    (fun j g => G.estende g ∧ SobrepostasPresentes layer prov j g ∧
      PesosEnxerto layer prov G j g) h2
    ⟨G.estende_refl, fun i r h => absurd h (Nat.lt_irrefl 0), fun i r _ => by simp⟩
    (fun g p q hp hq hP => ⟨hP.1.trans (estende_passo_inicial _ _ _ _ _),
      presentes_inicial layer prov g p q _ hp hq,
      pesos_inicial layer prov G g p q _ hl h2 hbase hnd hpres hP.1 hp hP.2.2⟩)
    (fun j g p q hj hjn hp hq hP => ⟨hP.1.trans (estende_passo_intermedio _ _ _ _ _),
      presentes_intermedio layer prov g j p q _ hj hq hP.2.1,
      pesos_intermedio layer prov G g j p q _ hl hbase hnd hpres hP.1 hj hjn hp hP.2.1 hP.2.2⟩)
    (fun j g p hj hjn hp hP => ⟨hP.1.trans (Graph.estende_addEdge _ _ _ _ _),
      presentes_final layer prov g j p hj hjn hP.2.1,
      pesos_final layer prov G g j p hl hbase hnd hpres hP.1 hj hjn hp hP.2.1 hP.2.2⟩)
  exact ⟨g', hg', hP⟩

/-! ## The line-generation loops -/

theorem ciclo_linhas_aceites (ext : Externos) (rnd : Nat → Nat) (layer : Char) (v1 v2 : ℚ)
    (comp linhas : Nat) (passos : Nat) (s s' : Estado)
    (h : ciclo_linhas ext rnd layer v1 v2 comp linhas passos s = .ok s')
    (hle : s.numero_linhas ≤ linhas) :
    LinhasAceites ext layer v1 v2 comp s.data (linhas - s.numero_linhas) s'.data := by
  induction passos generalizing s with
  | zero =>
    unfold ciclo_linhas at h
    split_ifs at h with hlt
    injection h with h
    subst h
    have : linhas - s.numero_linhas = 0 := by omega
    rw [this]
    exact LinhasAceites.nenhuma _
  | succ k ih =>
    unfold ciclo_linhas at h
    split_ifs at h with hlt
    · cases ht : tentativa_linha ext rnd layer v1 v2 comp s with
      | error e => simp [ht, Except.bind] at h
      | ok s1 =>
        simp only [ht, Except.bind] at h
        rcases tentativa_linha_casos ext rnd layer v1 v2 comp s s1 ht with
          ⟨hd, hn⟩ | ⟨hn, ori, des, hori, hdes, hcomp, henx⟩
        · have := ih s1 h (by omega)
          rw [hd, hn] at this
          exact this
        · have hrec := ih s1 h (by omega)
          have : linhas - s.numero_linhas = (linhas - s1.numero_linhas) + 1 := by omega
          rw [this]
          exact LinhasAceites.mais _ _ _ _ ori des hori hdes hcomp henx hrec
    · injection h with h
      subst h
      have : linhas - s.numero_linhas = 0 := by omega
      rw [this]
      exact LinhasAceites.nenhuma _

/-- An attempt whose two samples pick the same position of the vertex sequence is
rejected: graph and count stay, two more values of `rand()` are used. -/
theorem tentativa_linha_mesmo_indice (ext : Externos) (rnd : Nat → Nat) (layer : Char)
    (v1 v2 : ℚ) (comp : Nat) (s : Estado) (hne : s.data.vertexSet ≠ [])
    (hig : rnd s.chamadas_rand % s.data.vertexSet.length =
      rnd (s.chamadas_rand + 1) % s.data.vertexSet.length) :
    tentativa_linha ext rnd layer v1 v2 comp s =
      .ok ⟨s.data, s.numero_linhas, s.chamadas_rand + 2⟩ := by
  have hpos : 0 < s.data.vertexSet.length := List.length_pos.mpr hne
  have hlt : rnd s.chamadas_rand % s.data.vertexSet.length < s.data.vertexSet.length :=
    Nat.mod_lt _ hpos
  unfold tentativa_linha
  simp only [Nat.ne_of_gt hpos, if_false, ← hig, List.getElem?_eq_getElem hlt]
  split
  · rename_i ori des hori hdes
    have : ori = des := by rw [hori] at hdes; exact Option.some.inj hdes
    subst this
    simp [NoInfo.igual_refl]
  · rfl

/-- An attempt whose two samples resolve to the same vertex is rejected: graph and
count stay, two more values of `rand()` are used. -/
theorem tentativa_linha_mesmo_vertice (ext : Externos) (rnd : Nat → Nat) (layer : Char)
    (v1 v2 : ℚ) (comp : Nat) (s : Estado) (hne : s.data.vertexSet ≠ [])
    (hig : vertice_amostrado rnd s.data s.chamadas_rand =
      vertice_amostrado rnd s.data (s.chamadas_rand + 1)) :
    tentativa_linha ext rnd layer v1 v2 comp s =
      .ok ⟨s.data, s.numero_linhas, s.chamadas_rand + 2⟩ := by
  have hpos : 0 < s.data.vertexSet.length := List.length_pos.mpr hne
  have h1 : rnd s.chamadas_rand % s.data.vertexSet.length < s.data.vertexSet.length :=
    Nat.mod_lt _ hpos
  have h2 : rnd (s.chamadas_rand + 1) % s.data.vertexSet.length < s.data.vertexSet.length :=
    Nat.mod_lt _ hpos
  unfold vertice_amostrado at hig
  rw [List.getElem?_eq_getElem h1, List.getElem?_eq_getElem h2] at hig
  simp only [Option.some_bind] at hig
  unfold tentativa_linha
  simp only [Nat.ne_of_gt hpos, if_false, List.getElem?_eq_getElem h1,
    List.getElem?_eq_getElem h2]
  split
  · rename_i ori des hori hdes
    have : ori = des := by rw [hig, hdes] at hori; exact (Option.some.inj hori).symm
    subst this
    simp [NoInfo.igual_refl]
  · rfl

/-- When the two samples of every attempt resolve to the same vertex, a loop that still
has a line to generate uses up every budget of attempts. -/
theorem ciclo_linhas_nunca_termina (ext : Externos) (rnd : Nat → Nat) (layer : Char)
    (v1 v2 : ℚ) (comp linhas : Nat) (data : Graph) (n : Nat) (hne : data.vertexSet ≠ [])
    (hn : n < linhas)
    (hig : ∀ k, vertice_amostrado rnd data (2 * k) = vertice_amostrado rnd data (2 * k + 1))
    (passos j : Nat) :
    ciclo_linhas ext rnd layer v1 v2 comp linhas passos ⟨data, n, 2 * j⟩ =
      .error .sem_combustivel := by
  induction passos generalizing j with
  | zero => simp [ciclo_linhas, hn]
  | succ k ih =>
    unfold ciclo_linhas
    simp only [hn, if_true]
    rw [tentativa_linha_mesmo_vertice ext rnd layer v1 v2 comp ⟨data, n, 2 * j⟩ hne (hig j)]
    exact ih (j + 1)

/-- The same for `gera_linhas` with at least one bus line requested: the bus loop uses
up every budget. -/
theorem gera_linhas_nunca_termina (ext : Externos) (rnd : Nat → Nat) (data : Graph)
    (linhas_metro linhas_autocarro comp_metro comp_autocarro : Nat)
    (hne : data.vertexSet ≠ []) (hla : 0 < linhas_autocarro)
    (hig : ∀ k, vertice_amostrado rnd data (2 * k) = vertice_amostrado rnd data (2 * k + 1))
    (passos : Nat) :
    gera_linhas ext rnd passos data linhas_metro linhas_autocarro comp_metro comp_autocarro =
      .error .sem_combustivel := by
  unfold gera_linhas
  rw [ciclo_linhas_nunca_termina ext rnd 'A' _ _ comp_autocarro linhas_autocarro data 0 hne hla
    hig passos 0]
  rfl

/-! ## Minimum and maximum of the failure counts -/

theorem foldl_passo_falhas (l : List Int) (m : Int × Int) :
    ((l.foldl passo_falhas m).1 ≤ m.1 ∧ (∀ x ∈ l, (l.foldl passo_falhas m).1 ≤ x) ∧
      ((l.foldl passo_falhas m).1 = m.1 ∨ (l.foldl passo_falhas m).1 ∈ l)) ∧
    (m.2 ≤ (l.foldl passo_falhas m).2 ∧ (∀ x ∈ l, x ≤ (l.foldl passo_falhas m).2) ∧
      ((l.foldl passo_falhas m).2 = m.2 ∨ (l.foldl passo_falhas m).2 ∈ l)) := by
  induction l generalizing m with
  | nil => simp
  | cons x xs ih =>
    obtain ⟨⟨h1, h2, h3⟩, ⟨k1, k2, k3⟩⟩ := ih (passo_falhas m x)
    simp only [List.foldl_cons, List.mem_cons, forall_eq_or_imp]
    have e1 : (passo_falhas m x).1 ≤ m.1 ∧ (passo_falhas m x).1 ≤ x ∧
        ((passo_falhas m x).1 = m.1 ∨ (passo_falhas m x).1 = x) := by
      unfold passo_falhas
      dsimp only
      split_ifs <;> omega
    have e2 : m.2 ≤ (passo_falhas m x).2 ∧ x ≤ (passo_falhas m x).2 ∧
        ((passo_falhas m x).2 = m.2 ∨ (passo_falhas m x).2 = x) := by
      unfold passo_falhas
      dsimp only
      split_ifs <;> omega
    refine ⟨⟨by omega, ⟨by omega, h2⟩, ?_⟩, ⟨by omega, ⟨by omega, k2⟩, ?_⟩⟩
    · rcases h3 with h3 | h3
      · rcases e1.2.2 with e | e
        · exact Or.inl (h3.trans e)
        · exact Or.inr (Or.inl (h3.trans e))
      · exact Or.inr (Or.inr h3)
    · rcases k3 with k3 | k3
      · rcases e2.2.2 with e | e
        · exact Or.inl (k3.trans e)
        · exact Or.inr (Or.inl (k3.trans e))
      · exact Or.inr (Or.inr k3)

/-! ## The claims -/

/-- C1, as amended: grafting one line on a baseline path of at least two pairwise
distinct base stops that are vertices of the graph adds, between each baseline stop and
its overlay stop, exactly one zero-weight board edge (base to overlay) unless the stop is
the last of the line, and exactly one zero-weight alight edge (overlay to base) unless it
is the first; it adds no other edge between the two.  So a stop that had no such edge
before has exactly one board and one alight edge when intermediate, one board edge and
no alight edge when first, one alight edge and no board edge when last. -/
theorem enxerta_linha_board_alight (ext : Externos) (layer : Char) (v1 v2 : ℚ) (G : Graph)
    (prov : List NoInfo) (hl : layer ≠ LAYER_BASE) (h2 : 2 ≤ prov.length)
    (hbase : ∀ x ∈ prov, x.layer = LAYER_BASE) (hnd : (prov.map NoInfo.idNo).Nodup)
    (hpres : ∀ x ∈ prov, (G.getVertex x).isSome = true) :
    ∃ g', enxerta_linha ext layer v1 v2 G prov = .ok g' ∧
      ∀ (i : Nat) (r : NoInfo), prov[i]? = some r →
        g'.pesos r (r.sobreposto layer) = G.pesos r (r.sobreposto layer) ++
          (if i + 1 < prov.length then [0] else []) ∧
        g'.pesos (r.sobreposto layer) r = G.pesos (r.sobreposto layer) r ++
          (if 0 < i then [0] else []) := by
  obtain ⟨g', hg', hP⟩ := enxerta_linha_pesos ext layer v1 v2 G prov hl h2 hbase hnd hpres
  refine ⟨g', hg', ?_⟩
  intro i r hr
  have hlt : i < prov.length := by
    rcases List.getElem?_eq_some.mp hr with ⟨hlt, -⟩
    exact hlt
  obtain ⟨hb, ha⟩ := hP i r hr
  have c1 : (i < prov.length ∧ i + 1 < prov.length) ↔ i + 1 < prov.length := by omega
  have c2 : (0 < i ∧ i < prov.length) ↔ 0 < i := by omega
  constructor
  · rw [hb, if_congr c1 rfl rfl]
  · rw [ha, if_congr c2 rfl rfl]

/-- C1, witness: the bus line grafted on the path 1, 2, 3 of the network `redeLinha`. -/
theorem enxerta_linha_board_alight_witness :
    ∃ g', enxerta_linha extExemplo 'A' 40 40 redeLinha [paragem1, paragem2, paragem3]
        = .ok g' ∧
      ∀ (i : Nat) (r : NoInfo), [paragem1, paragem2, paragem3][i]? = some r →
        g'.pesos r (r.sobreposto 'A') = redeLinha.pesos r (r.sobreposto 'A') ++
          (if i + 1 < [paragem1, paragem2, paragem3].length then [0] else []) ∧
        g'.pesos (r.sobreposto 'A') r = redeLinha.pesos (r.sobreposto 'A') r ++
          (if 0 < i then [0] else []) :=
  enxerta_linha_board_alight extExemplo 'A' 40 40 redeLinha [paragem1, paragem2, paragem3]
    (by decide) (by decide) (by decide) (by decide) (by decide)

/-- C1, counterexample: two bus lines requested on `redeExemplo`, sampled as 1 -> 2 and
3 -> 2.  Both lines end at stop 2 and share its overlay stop, which is left with two
alight edges to its base counterpart, not exactly one. -/
theorem duas_linhas_partilham_paragem :
    (gera_linhas extExemplo (amostras [0, 1, 2, 1]) 2 redeExemplo 0 2 2 2).map
      (fun g => g.pesos (paragem2.sobreposto 'A') paragem2) = .ok [0, 0] := by
  with_unfolding_all decide

/-- C2, the code at the failing input: one subway line on the path 1, 2, 3 of
`redeLinha`.  Its first segment weighs the distance divided by `VELOCIDADE_AUTOCARRO`
(7/40), only its second segment the distance divided by `VELOCIDADE_METRO` (7/80). -/
theorem metro_primeiro_troco_velocidade_autocarro :
    (gera_linhas extExemplo (amostras [0, 2]) 1 redeLinha 1 0 3 0).map
      (fun g => (g.pesos (paragem1.sobreposto 'M') (paragem2.sobreposto 'M'),
        g.pesos (paragem2.sobreposto 'M') (paragem3.sobreposto 'M'))) =
      .ok ([distanciaExemplo 0 0 4 3 / extExemplo.VELOCIDADE_AUTOCARRO],
        [distanciaExemplo 4 3 0 6 / extExemplo.VELOCIDADE_METRO]) ∧
    distanciaExemplo 0 0 4 3 / extExemplo.VELOCIDADE_AUTOCARRO ≠
      distanciaExemplo 0 0 4 3 / extExemplo.VELOCIDADE_METRO := by
  with_unfolding_all decide

/-- C3: when `gera_linhas` returns, its graph is the given one after exactly
`linhas_autocarro` bus lines and then exactly `linhas_metro` subway lines were grafted,
each on a baseline Dijkstra path of at least `comp_autocarro`, respectively `comp_metro`,
stops: nothing shorter is grafted or counted. -/
theorem gera_linhas_linhas_aceites (ext : Externos) (rnd : Nat → Nat) (passos : Nat)
    (data g' : Graph) (linhas_metro linhas_autocarro comp_metro comp_autocarro : Nat)
    (h : gera_linhas ext rnd passos data linhas_metro linhas_autocarro comp_metro
      comp_autocarro = .ok g') :
    ∃ g1, LinhasAceites ext 'A' ext.VELOCIDADE_AUTOCARRO ext.VELOCIDADE_AUTOCARRO
        comp_autocarro data linhas_autocarro g1 ∧
      LinhasAceites ext 'M' ext.VELOCIDADE_AUTOCARRO ext.VELOCIDADE_METRO
        comp_metro g1 linhas_metro g' := by
  unfold gera_linhas at h
  cases h1 : ciclo_linhas ext rnd 'A' ext.VELOCIDADE_AUTOCARRO ext.VELOCIDADE_AUTOCARRO
      comp_autocarro linhas_autocarro passos ⟨data, 0, 0⟩ with
  | error e => simp [h1, Except.bind] at h
  | ok s1 =>
    simp only [h1, Except.bind] at h
    cases h2 : ciclo_linhas ext rnd 'M' ext.VELOCIDADE_AUTOCARRO ext.VELOCIDADE_METRO
        comp_metro linhas_metro passos ⟨s1.data, 0, s1.chamadas_rand⟩ with
    | error e => simp [h2] at h
    | ok s2 =>
      simp only [h2] at h
      injection h with h
      subst h
      have a1 := ciclo_linhas_aceites _ _ _ _ _ _ _ _ _ _ h1 (Nat.zero_le _)
      have a2 := ciclo_linhas_aceites _ _ _ _ _ _ _ _ _ _ h2 (Nat.zero_le _)
      exact ⟨s1.data, a1, a2⟩

/-- C3, witness: one bus line (1 -> 2) and one subway line (3 -> 2) on `redeExemplo`,
both of minimum length 2. -/
theorem gera_linhas_linhas_aceites_witness :
    ∃ g1, LinhasAceites extExemplo 'A' extExemplo.VELOCIDADE_AUTOCARRO
        extExemplo.VELOCIDADE_AUTOCARRO 2 redeExemplo 1 g1 ∧
      LinhasAceites extExemplo 'M' extExemplo.VELOCIDADE_AUTOCARRO
        extExemplo.VELOCIDADE_METRO 2 g1 1
        (grafoDe redeExemplo
          (gera_linhas extExemplo (amostras [0, 1, 2, 1]) 2 redeExemplo 1 1 2 2)) :=
  gera_linhas_linhas_aceites extExemplo (amostras [0, 1, 2, 1]) 2 redeExemplo _ 1 1 2 2
    (by with_unfolding_all decide)

/-- C4: for a baseline path of at least two stops, the overlay chain has as many stops
as the path, its `i`-th stop has the id, longitude and latitude of the `i`-th baseline
stop and the mode tag of the line, and grafting returns a graph in which every overlay
stop is a vertex. -/
theorem enxerta_linha_cadeia (ext : Externos) (layer : Char) (v1 v2 : ℚ) (G : Graph)
    (prov : List NoInfo) (h2 : 2 ≤ prov.length) :
    (linha_sobreposta layer prov).length = prov.length ∧
    (∀ (i : Nat) (p : NoInfo), prov[i]? = some p →
      ∃ o : NoInfo, (linha_sobreposta layer prov)[i]? = some o ∧
      o.idNo = p.idNo ∧ o.longitude = p.longitude ∧ o.latitude = p.latitude ∧
      o.layer = layer) ∧
    ∃ g', enxerta_linha ext layer v1 v2 G prov = .ok g' ∧
      ∀ o ∈ linha_sobreposta layer prov, (g'.getVertex o).isSome = true := by
  refine ⟨by simp [linha_sobreposta], ?_, enxerta_linha_presentes ext layer v1 v2 G prov h2⟩
  intro i p hp
  exact ⟨p.sobreposto layer, sobreposta_getElem layer prov i p hp, rfl, rfl, rfl, rfl⟩

/-- C4, witness: the subway chain over the path 1, 2, 3 of `redeLinha`. -/
theorem enxerta_linha_cadeia_witness :
    (linha_sobreposta 'M' [paragem1, paragem2, paragem3]).length =
      [paragem1, paragem2, paragem3].length ∧
    (∀ (i : Nat) (p : NoInfo), [paragem1, paragem2, paragem3][i]? = some p →
      ∃ o : NoInfo, (linha_sobreposta 'M' [paragem1, paragem2, paragem3])[i]? = some o ∧
      o.idNo = p.idNo ∧ o.longitude = p.longitude ∧ o.latitude = p.latitude ∧
      o.layer = 'M') ∧
    ∃ g', enxerta_linha extExemplo 'M' 40 80 redeLinha [paragem1, paragem2, paragem3]
        = .ok g' ∧
      ∀ o ∈ linha_sobreposta 'M' [paragem1, paragem2, paragem3],
        (g'.getVertex o).isSome = true :=
  enxerta_linha_cadeia extExemplo 'M' 40 80 redeLinha [paragem1, paragem2, paragem3]
    (by decide)

/-- C5, as amended: `gera_linhas` has no bound on the number of sampling attempts.  On a
non-empty graph, with at least one bus line requested, when the two samples of every
attempt resolve to the same vertex, every attempt is rejected (graph and count as they
were, two more values of `rand()` used), and whatever number of attempts it is allowed
`gera_linhas` is still looping when they are used up: it never returns and reports
nothing. -/
theorem gera_linhas_sem_limite_de_tentativas (ext : Externos) (rnd : Nat → Nat) (data : Graph)
    (linhas_metro linhas_autocarro comp_metro comp_autocarro : Nat)
    (hne : data.vertexSet ≠ []) (hla : 0 < linhas_autocarro)
    (hig : ∀ k, vertice_amostrado rnd data (2 * k) = vertice_amostrado rnd data (2 * k + 1)) :
    (∀ k, tentativa_linha ext rnd 'A' ext.VELOCIDADE_AUTOCARRO ext.VELOCIDADE_AUTOCARRO
      comp_autocarro ⟨data, 0, 2 * k⟩ = .ok ⟨data, 0, 2 * k + 2⟩) ∧
    ∀ passos, gera_linhas ext rnd passos data linhas_metro linhas_autocarro comp_metro
      comp_autocarro = .error .sem_combustivel :=
  ⟨fun k => tentativa_linha_mesmo_vertice ext rnd 'A' _ _ comp_autocarro ⟨data, 0, 2 * k⟩ hne
      (hig k),
    gera_linhas_nunca_termina ext rnd data linhas_metro linhas_autocarro comp_metro
      comp_autocarro hne hla hig⟩

/-- C5, witness: one bus line and one subway line requested on `redeExemplo` with
`rand()` giving 0, 0, 1, 1, 2, 2, ...: the attempts sample the stops 1, 2, 3, 1, ... in
turn, each time twice. -/
theorem gera_linhas_sem_limite_de_tentativas_witness :
    (∀ k, tentativa_linha extExemplo (fun i => i / 2) 'A' extExemplo.VELOCIDADE_AUTOCARRO
      extExemplo.VELOCIDADE_AUTOCARRO 2 ⟨redeExemplo, 0, 2 * k⟩ =
        .ok ⟨redeExemplo, 0, 2 * k + 2⟩) ∧
    ∀ passos, gera_linhas extExemplo (fun i => i / 2) passos redeExemplo 1 1 2 2 =
      .error .sem_combustivel :=
  gera_linhas_sem_limite_de_tentativas extExemplo (fun i => i / 2) redeExemplo 1 1 2 2
    (by decide) (by decide)
    (fun k => by
      have h1 : 2 * k / 2 = k := by omega
      have h2 : (2 * k + 1) / 2 = k := by omega
      simp only [vertice_amostrado, h1, h2])

/-- C5, counterexample: one bus line requested on `redeExemplo` with `rand()` always 0.
Both samples are stop 1 in every attempt; there is no number of attempts after which
`gera_linhas` has returned or has reported anything: it is still looping. -/
theorem gera_linhas_ciclo_infinito :
    ¬ ∃ passos, gera_linhas extExemplo (fun _ => 0) passos redeExemplo 0 1 2 2 ≠
      .error .sem_combustivel := by
  rintro ⟨passos, h⟩
  exact h (gera_linhas_nunca_termina extExemplo (fun _ => 0) redeExemplo 0 1 2 2 (by decide)
    (by decide) (fun _ => rfl) passos)

/-- C6: when `gera_linhas` returns, the vertex sequence has not shrunk, every vertex of
the given graph is still a vertex, at its position, and its edge list is the old one with
edges added at the end: no vertex and no edge is removed or rewritten. -/
theorem gera_linhas_so_acrescenta (ext : Externos) (rnd : Nat → Nat) (passos : Nat)
    (data g' : Graph) (linhas_metro linhas_autocarro comp_metro comp_autocarro : Nat)
    (h : gera_linhas ext rnd passos data linhas_metro linhas_autocarro comp_metro
      comp_autocarro = .ok g') :
    data.vertexSet.length ≤ g'.vertexSet.length ∧
    ∀ (i : Nat) (v : Vertex), data.vertexSet[i]? = some v →
      ∃ v' : Vertex, g'.vertexSet[i]? = some v' ∧ v'.info = v.info ∧
        ∃ novas, v'.adj = v.adj ++ novas :=
  have hest := gera_linhas_estende ext rnd passos data g' linhas_metro linhas_autocarro
    comp_metro comp_autocarro h
  ⟨estendeLista_length hest, fun i v hv => estendeLista_getElem hest i v hv⟩

/-- C6, witness: one bus line and one subway line on `redeExemplo`. -/
theorem gera_linhas_so_acrescenta_witness :
    redeExemplo.vertexSet.length ≤ (grafoDe redeExemplo (gera_linhas extExemplo
      (amostras [0, 1, 2, 1]) 2 redeExemplo 1 1 2 2)).vertexSet.length ∧
    ∀ (i : Nat) (v : Vertex), redeExemplo.vertexSet[i]? = some v →
      ∃ v' : Vertex, (grafoDe redeExemplo (gera_linhas extExemplo (amostras [0, 1, 2, 1]) 2
          redeExemplo 1 1 2 2)).vertexSet[i]? = some v' ∧ v'.info = v.info ∧
        ∃ novas, v'.adj = v.adj ++ novas :=
  gera_linhas_so_acrescenta extExemplo (amostras [0, 1, 2, 1]) 2 redeExemplo _ 1 1 2 2
    (by with_unfolding_all decide)

/-- C7: a sampling attempt that is rejected, because a sample does not resolve, because
both samples resolve to the same vertex, or because the baseline path has fewer stops
than the minimum, returns with the graph as it was and the count of generated lines as
it was. -/
theorem tentativa_rejeitada_nada_muda (ext : Externos) (rnd : Nat → Nat) (layer : Char)
    (v1 v2 : ℚ) (comp : Nat) (s : Estado) (vS vD : Vertex)
    (hS : s.data.vertexSet[rnd s.chamadas_rand % s.data.vertexSet.length]? = some vS)
    (hD : s.data.vertexSet[rnd (s.chamadas_rand + 1) % s.data.vertexSet.length]? = some vD)
    (hrej : s.data.getVertex ⟨vS.info.idNo, 0, 0, LAYER_BASE⟩ = none ∨
      s.data.getVertex ⟨vD.info.idNo, 0, 0, LAYER_BASE⟩ = none ∨
      ∃ ori des : Vertex, s.data.getVertex ⟨vS.info.idNo, 0, 0, LAYER_BASE⟩ = some ori ∧
        s.data.getVertex ⟨vD.info.idNo, 0, 0, LAYER_BASE⟩ = some des ∧
        (ori = des ∨ (ext.getDijkstraPath s.data ori.info des.info).length < comp)) :
    ∃ s', tentativa_linha ext rnd layer v1 v2 comp s = .ok s' ∧ s'.data = s.data ∧
      s'.numero_linhas = s.numero_linhas := by
  have hne : ¬ s.data.vertexSet.length = 0 := by
    intro h0
    rw [List.length_eq_zero.mp h0] at hS
    simp at hS
  refine ⟨⟨s.data, s.numero_linhas, s.chamadas_rand + 2⟩, ?_, rfl, rfl⟩
  unfold tentativa_linha
  simp only [hne, if_false, hS, hD]
  rcases hrej with h | h | ⟨ori, des, hori, hdes, h⟩
  · rw [h]
  · rw [h]
    cases s.data.getVertex ⟨vS.info.idNo, 0, 0, LAYER_BASE⟩ <;> rfl
  · rw [hori, hdes]
    rcases h with h | h
    · subst h
      simp [NoInfo.igual_refl]
    · simp only [h, if_true]
      split_ifs <;> rfl

/-- C7, witness: on `redeExemplo` with `rand()` always 0 both samples resolve to stop 1. -/
theorem tentativa_rejeitada_nada_muda_witness :
    ∃ s', tentativa_linha extExemplo (fun _ => 0) 'A' 40 40 2 ⟨redeExemplo, 0, 0⟩ = .ok s' ∧
      s'.data = redeExemplo ∧ s'.numero_linhas = 0 :=
  tentativa_rejeitada_nada_muda extExemplo (fun _ => 0) 'A' 40 40 2 ⟨redeExemplo, 0, 0⟩
    ⟨paragem1, [⟨paragem2, 7 / 5, 0⟩]⟩ ⟨paragem1, [⟨paragem2, 7 / 5, 0⟩]⟩ rfl rfl
    (Or.inr (Or.inr ⟨⟨paragem1, [⟨paragem2, 7 / 5, 0⟩]⟩, ⟨paragem1, [⟨paragem2, 7 / 5, 0⟩]⟩,
      by with_unfolding_all decide, by with_unfolding_all decide, Or.inl rfl⟩))

/-- C8, the code at the failing input: the record `10;1;2` read while `redeExemplo`
already has the street 1 -> 2.  `read_edges` and `abrirFicheiros` both leave stop 1 with
two edges to stop 2, each with the recomputed weight, where the claim has exactly one. -/
theorem ingestao_duplica_aresta :
    (read_edges extExemplo [⟨10, false⟩] [⟨10, 1, 2⟩] redeExemplo).map
      (fun g => g.pesos paragem1 paragem2) = .ok [7 / 5, 7 / 5] ∧
    (abrirFicheiros extExemplo [⟨10, 1, 2⟩] redeExemplo).map
      (fun g => g.pesos paragem1 paragem2) = .ok [7, 7] := by
  with_unfolding_all decide

/-- C9, as amended: reading one edge record does not fail exactly when its origin id and
its destination id both resolve to a vertex (and, in `read_edges`, its edge id has a
street entry).  A record with an id that does not resolve is not skipped. -/
theorem ingestao_definida_sse_resolve (ext : Externos) (arestas : List Aresta)
    (estado : Graph × Int) (r : Registo) :
    ((∃ e', read_edges_linha ext arestas estado r = .ok e') ↔
      ((estado.1.getVertex (NoInfo.mk3 (r.idNo1.tmod 100000000) 0 0)).isSome = true ∧
        (estado.1.getVertex (NoInfo.mk3 (r.idNo2.tmod 100000000) 0 0)).isSome = true ∧
        (arestas.find? (fun a => a.idAresta == r.idAresta)).isSome = true)) ∧
    ((∃ e', abrirFicheiros_linha ext estado r = .ok e') ↔
      ((estado.1.getVertex (NoInfo.mk3 (r.idNo1.tmod 100000000) 0 0)).isSome = true ∧
        (estado.1.getVertex (NoInfo.mk3 (r.idNo2.tmod 100000000) 0 0)).isSome = true)) := by
  simp only [read_edges_linha, abrirFicheiros_linha, Graph.removeEdge, distancia_extremos]
  cases h1 : estado.1.getVertex (NoInfo.mk3 (r.idNo1.tmod 100000000) 0 0) with
  | none => simp [Except.map, Except.bind]
  | some vS =>
    cases h2 : estado.1.getVertex (NoInfo.mk3 (r.idNo2.tmod 100000000) 0 0) with
    | none => simp [Except.map, Except.bind]
    | some vD =>
      cases h3 : removePrimeira (NoInfo.mk3 (r.idNo2.tmod 100000000) 0 0) vS.adj <;>
        cases h4 : arestas.find? (fun a => a.idAresta == r.idAresta) <;>
        simp [Except.map, Except.bind] <;> split_ifs <;> simp

/-- C9, counterexample: the record `10;1;9` read into `redeExemplo`, which has no stop 9.
Neither `read_edges` nor `abrirFicheiros` skips it: both read through the missing
vertex. -/
theorem ingestao_referencia_desconhecida :
    read_edges extExemplo [⟨10, false⟩] [⟨10, 1, 9⟩] redeExemplo = .error .indefinido ∧
    abrirFicheiros extExemplo [⟨10, 1, 9⟩] redeExemplo = .error .indefinido := by
  with_unfolding_all decide

/-- C10: on a non-empty graph whose searches each return at most as many stops as the
graph has vertices, the reported `min_falha` is the least and the reported `max_falha`
the greatest of the failure counts `n - |bfs(s)|` over the start vertices `s`. -/
theorem conectividade_min_max (ext : Externos) (data : Graph) (hne : data.vertexSet ≠ [])
    (hbfs : ∀ v ∈ data.vertexSet, (ext.bfs data v).length ≤ data.vertexSet.length) :
    ((∃ s ∈ data.vertexSet, (conectividade ext data).1 =
        (data.vertexSet.length : Int) - ((ext.bfs data s).length : Int)) ∧
      ∀ s ∈ data.vertexSet, (conectividade ext data).1 ≤
        (data.vertexSet.length : Int) - ((ext.bfs data s).length : Int)) ∧
    ((∃ s ∈ data.vertexSet, (conectividade ext data).2 =
        (data.vertexSet.length : Int) - ((ext.bfs data s).length : Int)) ∧
      ∀ s ∈ data.vertexSet, (data.vertexSet.length : Int) - ((ext.bfs data s).length : Int) ≤
        (conectividade ext data).2) := by
  obtain ⟨⟨h1, h2, h3⟩, ⟨k1, k2, k3⟩⟩ :=
    foldl_passo_falhas (soma_falhas ext data) ((data.vertexSet.length : Int), 0)
  obtain ⟨v0, hv0⟩ := List.exists_mem_of_ne_nil _ hne
  have hmem : ∀ s ∈ data.vertexSet,
      (data.vertexSet.length : Int) - ((ext.bfs data s).length : Int) ∈ soma_falhas ext data :=
    fun s hs => List.mem_map.mpr ⟨s, hs, rfl⟩
  have hlen : ∀ s ∈ data.vertexSet, ((ext.bfs data s).length : Int) ≤ data.vertexSet.length :=
    fun s hs => Int.ofNat_le.mpr (hbfs s hs)
  have hof : ∀ x ∈ soma_falhas ext data, ∃ s ∈ data.vertexSet,
      x = (data.vertexSet.length : Int) - ((ext.bfs data s).length : Int) := by
    intro x hx
    obtain ⟨s, hs, rfl⟩ := List.mem_map.mp hx
    exact ⟨s, hs, rfl⟩
  refine ⟨⟨?_, fun s hs => h2 _ (hmem s hs)⟩, ⟨?_, fun s hs => k2 _ (hmem s hs)⟩⟩
  · rcases h3 with h3 | h3
    · refine ⟨v0, hv0, ?_⟩
      have a1 := h2 _ (hmem v0 hv0)
      have a2 := hlen v0 hv0
      have a3 : (0 : Int) ≤ ((ext.bfs data v0).length : Int) := Int.ofNat_nonneg _
      unfold conectividade
      simp only at h3
      omega
    · exact hof _ h3
  · rcases k3 with k3 | k3
    · refine ⟨v0, hv0, ?_⟩
      have a1 := k2 _ (hmem v0 hv0)
      have a2 := hlen v0 hv0
      unfold conectividade
      simp only at k3
      omega
    · exact hof _ k3

/-- C10, witness: `redeExemplo` with a search that reaches the start vertex only. -/
theorem conectividade_min_max_witness :
    ((∃ s ∈ redeExemplo.vertexSet, (conectividade extExemplo redeExemplo).1 =
        (redeExemplo.vertexSet.length : Int) - ((extExemplo.bfs redeExemplo s).length : Int)) ∧
      ∀ s ∈ redeExemplo.vertexSet, (conectividade extExemplo redeExemplo).1 ≤
        (redeExemplo.vertexSet.length : Int) -
          ((extExemplo.bfs redeExemplo s).length : Int)) ∧
    ((∃ s ∈ redeExemplo.vertexSet, (conectividade extExemplo redeExemplo).2 =
        (redeExemplo.vertexSet.length : Int) - ((extExemplo.bfs redeExemplo s).length : Int)) ∧
      ∀ s ∈ redeExemplo.vertexSet, (redeExemplo.vertexSet.length : Int) -
          ((extExemplo.bfs redeExemplo s).length : Int) ≤
        (conectividade extExemplo redeExemplo).2) :=
  conectividade_min_max extExemplo redeExemplo (by decide) (by decide)

/-! ## Lemmas for the A* heuristic and for `choose_random` -/

theorem Metrica.nao_negativa {d : ℚ → ℚ → ℚ → ℚ → ℚ} (hm : Metrica d) (a b c e : ℚ) :
    0 ≤ d a b c e := by
  have h1 := hm.2 a b a b c e
  have h2 := hm.2 a b c e a b
  have h3 := hm.1 a b c e
  linarith

theorem le_div_velocidade {x v : ℚ} (hx : 0 ≤ x) (hv : 0 < v) (hv1 : v ≤ 1) : x ≤ x / v := by
  rw [le_div_iff₀ hv]
  nlinarith

theorem heuristicFunc_passo (ext : Externos) (hm : Metrica ext.haversine_km) (vel : ℚ)
    (hv : 0 < vel) (hv1 : vel ≤ 1) (u v d : NoInfo) :
    heuristicFunc ext d u ≤
      ext.haversine_km u.latitude u.longitude v.latitude v.longitude / vel +
        heuristicFunc ext d v := by
  unfold heuristicFunc
  have h1 := hm.2 u.latitude u.longitude v.latitude v.longitude d.latitude d.longitude
  have h2 := le_div_velocidade (hm.nao_negativa u.latitude u.longitude v.latitude v.longitude)
    hv hv1
  linarith

theorem metrica_distanciaExemplo : Metrica distanciaExemplo := by
  refine ⟨?_, ?_⟩
  · intro a b c e
    unfold distanciaExemplo
    rw [abs_sub_comm a c, abs_sub_comm b e]
  · intro a b c e f g
    unfold distanciaExemplo
    have h1 := abs_sub_le a c f
    have h2 := abs_sub_le b e g
    linarith

theorem choose_random_acerta (rnd : Nat → Nat) (vec : List par) (k : Nat) :
    ∀ (chamadas : Nat) (p : par),
      (∀ j, j < k → ∃ q, vec[rnd (chamadas + j) % vec.length]? = some q ∧ q.usado = true) →
      vec[rnd (chamadas + k) % vec.length]? = some p → p.usado = false →
      ∀ passos, k < passos →
        choose_random rnd passos vec chamadas =
          .ok (p.nome_estacao,
            vec.set (rnd (chamadas + k) % vec.length) ⟨p.nome_estacao, true⟩,
            chamadas + k + 1) := by
  induction k with
  | zero =>
    intro chamadas p _ hp hu passos hpas
    obtain ⟨n, rfl⟩ : ∃ n, passos = n + 1 := ⟨passos - 1, by omega⟩
    have hne : ¬ vec.length = 0 := by
      intro h0
      rw [List.length_eq_zero.mp h0] at hp
      simp at hp
    unfold choose_random
    simp only [Nat.add_zero] at hp ⊢
    simp [hne, hp, hu]
  | succ k ih =>
    intro chamadas p hantes hp hu passos hpas
    obtain ⟨n, rfl⟩ : ∃ n, passos = n + 1 := ⟨passos - 1, by omega⟩
    obtain ⟨q, hq, hqu⟩ := hantes 0 (Nat.succ_pos k)
    have hne : ¬ vec.length = 0 := by
      intro h0
      rw [List.length_eq_zero.mp h0] at hp
      simp at hp
    have e1 : chamadas + 1 + k = chamadas + (k + 1) := by omega
    have hrec := ih (chamadas + 1) p
      (fun j hj => by
        obtain ⟨q', hq', hqu'⟩ := hantes (j + 1) (by omega)
        exact ⟨q', by rw [show chamadas + 1 + j = chamadas + (j + 1) by omega]; exact hq', hqu'⟩)
      (by rw [e1]; exact hp) hu n (by omega)
    unfold choose_random
    simp only [Nat.add_zero] at hq
    simp only [hne, if_false, hq, hqu]
    rw [e1] at hrec
    simpa using hrec

/-! ## The estimate against the edge weights; the claims on `choose_random` and the mode dispatch -/

/-- The estimate of `heuristicFunc` against the edge weights, for speed constants that
do not shrink a distance: when the distance oracle is symmetric and satisfies the triangle
inequality and every speed constant is positive and at most 1, the estimate never
exceeds the weight of an edge plus the estimate at its target: for the streets of
`read_edges` (distance over `VELOCIDADE_PE`), for the segments of `gera_linhas`
(distance over `VELOCIDADE_AUTOCARRO` or `VELOCIDADE_METRO`) and for the zero-weight
transfer edges between stops of equal coordinates. -/
theorem heuristica_consistente_velocidades_baixas (ext : Externos)
    (hm : Metrica ext.haversine_km)
    (hpe : 0 < ext.VELOCIDADE_PE ∧ ext.VELOCIDADE_PE ≤ 1)
    (hau : 0 < ext.VELOCIDADE_AUTOCARRO ∧ ext.VELOCIDADE_AUTOCARRO ≤ 1)
    (hme : 0 < ext.VELOCIDADE_METRO ∧ ext.VELOCIDADE_METRO ≤ 1) :
    (∀ u v d : NoInfo, heuristicFunc ext d u ≤
      ext.haversine_km u.latitude u.longitude v.latitude v.longitude / ext.VELOCIDADE_PE +
        heuristicFunc ext d v) ∧
    (∀ u v d : NoInfo, heuristicFunc ext d u ≤
      ext.haversine_km u.latitude u.longitude v.latitude v.longitude /
        ext.VELOCIDADE_AUTOCARRO + heuristicFunc ext d v) ∧
    (∀ u v d : NoInfo, heuristicFunc ext d u ≤
      ext.haversine_km u.latitude u.longitude v.latitude v.longitude / ext.VELOCIDADE_METRO +
        heuristicFunc ext d v) ∧
    (∀ u v d : NoInfo, u.latitude = v.latitude → u.longitude = v.longitude →
      heuristicFunc ext d u ≤ 0 + heuristicFunc ext d v) := by
  refine ⟨fun u v d => heuristicFunc_passo ext hm _ hpe.1 hpe.2 u v d,
    fun u v d => heuristicFunc_passo ext hm _ hau.1 hau.2 u v d,
    fun u v d => heuristicFunc_passo ext hm _ hme.1 hme.2 u v d, ?_⟩
  intro u v d hlat hlon
  unfold heuristicFunc
  rw [hlat, hlon, zero_add]

/-- The same at speeds of 1/12, 1/2 and 1 with the taxicab distance. -/
theorem heuristica_consistente_velocidades_baixas_witness :
    (∀ u v d : NoInfo, heuristicFunc extLento d u ≤
      extLento.haversine_km u.latitude u.longitude v.latitude v.longitude /
        extLento.VELOCIDADE_PE + heuristicFunc extLento d v) ∧
    (∀ u v d : NoInfo, heuristicFunc extLento d u ≤
      extLento.haversine_km u.latitude u.longitude v.latitude v.longitude /
        extLento.VELOCIDADE_AUTOCARRO + heuristicFunc extLento d v) ∧
    (∀ u v d : NoInfo, heuristicFunc extLento d u ≤
      extLento.haversine_km u.latitude u.longitude v.latitude v.longitude /
        extLento.VELOCIDADE_METRO + heuristicFunc extLento d v) ∧
    (∀ u v d : NoInfo, u.latitude = v.latitude → u.longitude = v.longitude →
      heuristicFunc extLento d u ≤ 0 + heuristicFunc extLento d v) :=
  heuristica_consistente_velocidades_baixas extLento metrica_distanciaExemplo
    (by with_unfolding_all decide) (by with_unfolding_all decide)
    (by with_unfolding_all decide)

/-- The estimate against the edge weights for a speed constant above 1: with a symmetric
distance that satisfies the triangle inequality and a `VELOCIDADE_PE` of 5 (the constants
of `utils.h` are not among the sources), the street 1 -> 2 that `read_edges` adds weighs
7/5, while the estimate from stop 1 to the destination stop 2 is 7: more than the weight
of the street plus the estimate at stop 2, which is 0. -/
theorem heuristica_sobrestima_a_pe :
    Metrica extExemplo.haversine_km ∧
    (read_edges extExemplo [⟨10, false⟩] [⟨10, 1, 2⟩] redeSemRuas).map
      (fun g => g.pesos paragem1 paragem2) =
      .ok [extExemplo.haversine_km paragem1.latitude paragem1.longitude paragem2.latitude
        paragem2.longitude / extExemplo.VELOCIDADE_PE] ∧
    ¬ heuristicFunc extExemplo paragem2 paragem1 ≤
      extExemplo.haversine_km paragem1.latitude paragem1.longitude paragem2.latitude
        paragem2.longitude / extExemplo.VELOCIDADE_PE +
        heuristicFunc extExemplo paragem2 paragem2 := by
  refine ⟨metrica_distanciaExemplo, ?_, ?_⟩
  · with_unfolding_all decide
  · with_unfolding_all decide

/-- C15: when the draws of `rand()` reach an unused entry after `k` draws on used
entries, `choose_random` returns, after those `k + 1` draws, the name of that entry,
which was unused before the call; in the vector left behind that entry is marked used,
every other entry is as it was, and the length is the same. -/
theorem choose_random_marca_uma (rnd : Nat → Nat) (vec : List par) (chamadas k : Nat)
    (p : par)
    (hantes : ∀ j, j < k →
      ∃ q, vec[rnd (chamadas + j) % vec.length]? = some q ∧ q.usado = true)
    (hp : vec[rnd (chamadas + k) % vec.length]? = some p) (hu : p.usado = false) :
    ∃ vec' : List par,
      (∀ passos, k < passos →
        choose_random rnd passos vec chamadas = .ok (p.nome_estacao, vec', chamadas + k + 1)) ∧
      vec'.length = vec.length ∧
      vec'[rnd (chamadas + k) % vec.length]? = some ⟨p.nome_estacao, true⟩ ∧
      ∀ j, j ≠ rnd (chamadas + k) % vec.length → vec'[j]? = vec[j]? := by
  refine ⟨vec.set (rnd (chamadas + k) % vec.length) ⟨p.nome_estacao, true⟩,
    choose_random_acerta rnd vec k chamadas p hantes hp hu, by simp, ?_, ?_⟩
  · have hlt : rnd (chamadas + k) % vec.length < vec.length := by
      rcases List.getElem?_eq_some.mp hp with ⟨h, -⟩
      exact h
    simp [List.getElem?_set, hlt]
  · intro j hj
    simp [List.getElem?_set, Ne.symm hj]

/-- C15, witness: three stations, the first already used; the draws are 0, 3, 1, so
the second station is chosen at the third draw. -/
theorem choose_random_marca_uma_witness :
    ∃ vec' : List par,
      (∀ passos, 2 < passos →
        choose_random (amostras [0, 3, 1]) passos
          [⟨"Trindade", true⟩, ⟨"Bolhao", false⟩, ⟨"Aliados", false⟩] 0 =
          .ok ("Bolhao", vec', 0 + 2 + 1)) ∧
      vec'.length = [(⟨"Trindade", true⟩ : par), ⟨"Bolhao", false⟩, ⟨"Aliados", false⟩].length ∧
      vec'[amostras [0, 3, 1] (0 + 2) %
        [(⟨"Trindade", true⟩ : par), ⟨"Bolhao", false⟩, ⟨"Aliados", false⟩].length]? =
        some ⟨"Bolhao", true⟩ ∧
      ∀ j, j ≠ amostras [0, 3, 1] (0 + 2) %
          [(⟨"Trindade", true⟩ : par), ⟨"Bolhao", false⟩, ⟨"Aliados", false⟩].length →
        vec'[j]? = [(⟨"Trindade", true⟩ : par), ⟨"Bolhao", false⟩, ⟨"Aliados", false⟩][j]? :=
  choose_random_marca_uma (amostras [0, 3, 1])
    [⟨"Trindade", true⟩, ⟨"Bolhao", false⟩, ⟨"Aliados", false⟩] 0 2 ⟨"Bolhao", false⟩
    (by decide) (by decide) rfl

/-- C16, the code at the failing input: the documented `"StringSearchExact"` and
`"StringSearchAprox"` are sent to the last `else`, the branch of a start node number;
the string-search branch is taken for `"SearchExact"` and `"SearchApprox"`, the strings
the code compares with. -/
theorem modo_de_main_documentado :
    modo_de_main "StringSearchExact" = Modo.no_inicio ∧
    modo_de_main "StringSearchAprox" = Modo.no_inicio ∧
    modo_de_main "SearchExact" = Modo.pesquisa false ∧
    modo_de_main "SearchApprox" = Modo.pesquisa true ∧
    modo_de_main "Connectivity" = Modo.conectividade ∧
    modo_de_main "comp" = Modo.comp ∧
    modo_de_main "auto" = Modo.auto := by
  decide

/-! ## Borders -/

theorem foldlM_range'_inducao {σ : Type} (f : σ → Nat → Except Erro σ)
    (P : Nat → σ → Prop) (a n : Nat) (s0 : σ) (h0 : P 0 s0)
    (hstep : ∀ j s, j < n → P j s → ∃ s', f s (a + j) = .ok s' ∧ P (j + 1) s') :
    ∀ k, k ≤ n → ∃ s', (List.range' a k).foldlM f s0 = .ok s' ∧ P k s' := by
  intro k
  induction k with
  | zero => intro _; exact ⟨s0, rfl, h0⟩
  | succ k ih =>
    intro hk
    obtain ⟨s1, hs1, hP1⟩ := ih (Nat.le_of_succ_le hk)
    obtain ⟨s2, hs2, hP2⟩ := hstep k s1 hk hP1
    refine ⟨s2, ?_, hP2⟩
    rw [List.range'_concat, List.foldlM_append, hs1]
    simp [bind, Except.bind, hs2, pure, Except.pure]

theorem vetor_at_some {α : Type} {v : List α} {i : Nat} {x : α} (h : v[i]? = some x) :
    vetor_at v i = .ok x := by
  simp [vetor_at, h]

theorem Bord.zero (p s : List Char) : Bord p s 0 :=
  ⟨Nat.zero_le _, by simp⟩

theorem Bord.le_length {p s : List Char} {k : Nat} (h : Bord p s k) : k ≤ s.length := by
  have := h.2.length_le
  rw [List.length_take, Nat.min_eq_left h.1] at this
  exact this

theorem suffix_snoc_iff (a s : List Char) (x c : Char) :
    a ++ [x] <:+ s ++ [c] ↔ a <:+ s ∧ x = c := by
  rw [← List.reverse_prefix, List.reverse_append, List.reverse_append]
  simp only [List.reverse_singleton, List.singleton_append, List.cons_prefix_cons,
    List.reverse_prefix]
  exact And.comm

theorem Bord.snoc_iff {p : List Char} (s : List Char) (c : Char) {k : Nat}
    (hk : k < p.length) : Bord p (s ++ [c]) (k + 1) ↔ Bord p s k ∧ p[k]? = some c := by
  unfold Bord
  have e : p.take (k + 1) = p.take k ++ [p[k]] := by
    rw [List.take_succ, List.getElem?_eq_getElem hk]
    rfl
  rw [e, suffix_snoc_iff, List.getElem?_eq_getElem hk]
  constructor
  · rintro ⟨_, h1, h2⟩
    exact ⟨⟨Nat.le_of_lt hk, h1⟩, by rw [h2]⟩
  · rintro ⟨⟨_, h1⟩, h2⟩
    exact ⟨hk, h1, Option.some.inj h2⟩

theorem Bord.cadeia {p s : List Char} {q k : Nat} (hq : Bord p s q) (hk : k ≤ q) :
    Bord p s k ↔ Bord p (p.take q) k := by
  have hkm : k ≤ p.length := Nat.le_trans hk hq.1
  constructor
  · intro h
    refine ⟨hkm, List.suffix_of_suffix_length_le h.2 hq.2 ?_⟩
    rw [List.length_take, List.length_take, Nat.min_eq_left hkm, Nat.min_eq_left hq.1]
    exact hk
  · intro h
    exact ⟨hkm, h.2.trans hq.2⟩

theorem Bord.snoc_zero_or {p : List Char} (s : List Char) (c : Char) {k : Nat}
    (h : Bord p (s ++ [c]) k) : k = 0 ∨ ∃ j, k = j + 1 ∧ j < p.length ∧ Bord p s j ∧
      p[j]? = some c := by
  cases k with
  | zero => exact Or.inl rfl
  | succ j =>
    have hj : j < p.length := h.1
    exact Or.inr ⟨j, rfl, hj, (Bord.snoc_iff s c hj).mp h⟩

/-! ## The loops of the prefix table and of the search -/

theorem recua_spec (p : List Char) (pi : List Nat) (c : Char) (s : List Char) (ate : Nat)
    (htab : TabelaOk p pi ate) :
    ∀ q, q ≤ ate → q < p.length → Bord p s q →
      (∀ k, Bord p s k → q < k → k < p.length → p[k]? ≠ some c) →
      ∀ passos, q ≤ passos →
        ∃ r, recua p pi c passos q = .ok r ∧ r ≤ q ∧ Bord p s r ∧
          (0 < r → p[r]? = some c) ∧
          (∀ k, Bord p s k → r < k → k < p.length → p[k]? ≠ some c) := by
  intro q
  induction q using Nat.strong_induction_on with
  | _ q ih =>
    intro hqa hqm hB hacima passos hpas
    by_cases hq0 : q = 0
    · subst hq0
      refine ⟨0, ?_, Nat.le_refl _, hB, fun h => absurd h (Nat.lt_irrefl 0), hacima⟩
      cases passos <;> simp [recua]
    · have hpos : 0 < q := Nat.pos_of_ne_zero hq0
      have hx : vetor_at p q = .ok p[q] := vetor_at_some (List.getElem?_eq_getElem hqm)
      by_cases hc : p[q] = c
      · refine ⟨q, ?_, Nat.le_refl _, hB, fun _ => by
          rw [List.getElem?_eq_getElem hqm, hc], hacima⟩
        cases passos <;> simp [recua, hpos, hx, Except.bind, hc]
      · obtain ⟨b, hb, hbq, hbB, hbmax⟩ := htab q hpos hqa
        obtain ⟨n, rfl⟩ : ∃ n, passos = n + 1 := ⟨passos - 1, by omega⟩
        have hBb : Bord p s b := (Bord.cadeia hB (Nat.le_of_lt hbq)).mpr hbB
        have hacima' : ∀ k, Bord p s k → b < k → k < p.length → p[k]? ≠ some c := by
          intro k hk hbk hkm
          by_cases hkq : q < k
          · exact hacima k hk hkq hkm
          · by_cases hkq' : k = q
            · subst hkq'
              rw [List.getElem?_eq_getElem hqm]
              intro h
              exact hc (Option.some.inj h)
            · have hlt : k < q := by omega
              have := hbmax k hlt ((Bord.cadeia hB (Nat.le_of_lt hlt)).mp hk)
              omega
        obtain ⟨r, hr, hrb, hBr, hr0, hrmax⟩ :=
          ih b hbq (by omega) (by omega) hBb hacima' n (by omega)
        refine ⟨r, ?_, by omega, hBr, hr0, hrmax⟩
        simp [recua, hpos, hx, Except.bind, hc, vetor_at_some hb, hr]

theorem avanca_spec (p : List Char) (pi : List Nat) (c : Char) (s : List Char) (ate : Nat)
    (htab : TabelaOk p pi ate) (q : Nat) (hqa : q ≤ ate) (hqm : q < p.length)
    (hB : Bord p s q) (hmax : ∀ k, Bord p s k → k < p.length → k ≤ q) (passos : Nat)
    (hpas : q ≤ passos) :
    ∃ q', avanca p pi c passos q = .ok q' ∧ Bord p (s ++ [c]) q' ∧
      ∀ k, Bord p (s ++ [c]) k → k ≤ q' := by
  obtain ⟨r, hr, hrq, hBr, hr0, hrmax⟩ := recua_spec p pi c s ate htab q hqa hqm hB
    (fun k hk hqk hkm => absurd (hmax k hk hkm) (by omega)) passos hpas
  have hrm : r < p.length := by omega
  have hx : vetor_at p r = .ok p[r] := vetor_at_some (List.getElem?_eq_getElem hrm)
  by_cases hc : p[r] = c
  · refine ⟨r + 1, ?_, ?_, ?_⟩
    · simp [avanca, hr, hx, Except.bind, hc]
    · exact (Bord.snoc_iff s c hrm).mpr ⟨hBr, by rw [List.getElem?_eq_getElem hrm, hc]⟩
    · intro k hk
      rcases Bord.snoc_zero_or s c hk with h0 | ⟨j, rfl, hjm, hBj, hjc⟩
      · omega
      · by_contra hcon
        exact hrmax j hBj (by omega) hjm hjc
  · have hr00 : r = 0 := by
      by_contra hne
      have := hr0 (Nat.pos_of_ne_zero hne)
      rw [List.getElem?_eq_getElem hrm] at this
      exact hc (Option.some.inj this)
    refine ⟨r, ?_, ?_, ?_⟩
    · simp [avanca, hr, hx, Except.bind, hc]
    · rw [hr00]; exact Bord.zero _ _
    · intro k hk
      rcases Bord.snoc_zero_or s c hk with h0 | ⟨j, rfl, hjm, hBj, hjc⟩
      · omega
      · exfalso
        by_cases hj0 : j = 0
        · subst hj0
          subst hr00
          rw [List.getElem?_eq_getElem hrm] at hjc
          exact hc (Option.some.inj hjc)
        · exact hrmax j hBj (by omega) hjm hjc

/-! ## The prefix table is right -/

theorem tail_take_bord {p : List Char} {J k : Nat} (hJ : 1 ≤ J) (hJm : J ≤ p.length) :
    Bord p (p.take J).tail k ↔ k < J ∧ Bord p (p.take J) k := by
  have hlen : (p.take J).length = J := by rw [List.length_take, Nat.min_eq_left hJm]
  constructor
  · intro h
    have h1 := h.le_length
    rw [List.length_tail, hlen] at h1
    exact ⟨by omega, h.1, h.2.trans (List.tail_suffix _)⟩
  · rintro ⟨hk, hk1, hk2⟩
    refine ⟨hk1, ?_⟩
    cases hp : p.take J with
    | nil => rw [hp] at hlen; simp at hlen; omega
    | cons x xs =>
      rw [hp] at hk2
      rcases List.suffix_cons_iff.mp hk2 with h | h
      · have := congrArg List.length h
        rw [← hp, hlen, List.length_take, Nat.min_eq_left hk1] at this
        omega
      · exact h

theorem tail_take_succ {p : List Char} {J : Nat} (hJ : 1 ≤ J) (hJm : J < p.length) :
    (p.take (J + 1)).tail = (p.take J).tail ++ [p[J]] := by
  have e : p.take (J + 1) = p.take J ++ [p[J]] := by
    rw [List.take_succ, List.getElem?_eq_getElem hJm]
    rfl
  rw [e]
  cases hp : p.take J with
  | nil =>
    have := congrArg List.length hp
    rw [List.length_take, Nat.min_eq_left (Nat.le_of_lt hJm)] at this
    simp at this
    omega
  | cons x xs => rfl

theorem tabelaOk_inicial (p : List Char) (hp : 1 ≤ p.length) :
    TabelaOk p (List.replicate (p.length + 1) 0) 1 := by
  intro j hj1 hj2
  have : j = 1 := by omega
  subst this
  refine ⟨0, ?_, Nat.zero_lt_one, Bord.zero _ _, fun k hk _ => by omega⟩
  rw [List.getElem?_replicate, if_pos (by omega)]

theorem computePrefix_passo_spec (passos : Nat) (p : List Char) (pi : List Nat) (k J : Nat)
    (hpas : p.length ≤ passos) (hJ : 1 ≤ J) (hJm : J < p.length)
    (hlen : pi.length = p.length + 1) (htab : TabelaOk p pi J) (hk : EhFalha p J k) :
    ∃ pi' k', computePrefix_passo passos p (pi, k) (J + 1) = .ok (pi', k') ∧
      pi'.length = p.length + 1 ∧ TabelaOk p pi' (J + 1) ∧ EhFalha p (J + 1) k' := by
  obtain ⟨hkJ, hkB, hkmax⟩ := hk
  have hJle : J ≤ p.length := Nat.le_of_lt hJm
  have hB : Bord p (p.take J).tail k := (tail_take_bord hJ hJle).mpr ⟨hkJ, hkB⟩
  have hmax : ∀ k', Bord p (p.take J).tail k' → k' < p.length → k' ≤ k := by
    intro k' hk' _
    obtain ⟨h1, h2⟩ := (tail_take_bord hJ hJle).mp hk'
    exact hkmax k' h1 h2
  obtain ⟨k', hk', hBk', hk'max⟩ := avanca_spec p pi p[J] (p.take J).tail J htab k
    (by omega) (by omega) hB hmax passos (by omega)
  rw [← tail_take_succ hJ hJm] at hBk' hk'max
  obtain ⟨hk'J, hk'B⟩ := (tail_take_bord (by omega) hJm).mp hBk'
  have hfal : EhFalha p (J + 1) k' :=
    ⟨hk'J, hk'B, fun j hj hjB => hk'max j ((tail_take_bord (by omega) hJm).mpr ⟨hj, hjB⟩)⟩
  refine ⟨pi.set (J + 1) k', k', ?_, by simp [hlen], ?_, hfal⟩
  · have hc : vetor_at p J = .ok p[J] := vetor_at_some (List.getElem?_eq_getElem hJm)
    have hput : vetor_at_put pi (J + 1) k' = .ok (pi.set (J + 1) k') := by
      unfold vetor_at_put
      rw [if_pos (by omega)]
    simp [computePrefix_passo, hc, hk', hput, Except.bind]
  · intro j hj1 hj2
    by_cases hj : j = J + 1
    · subst hj
      exact ⟨k', by rw [List.getElem?_set, if_pos rfl, if_pos (by omega)], hfal⟩
    · obtain ⟨b, hb, hbf⟩ := htab j hj1 (by omega)
      exact ⟨b, by rw [List.getElem?_set, if_neg (Ne.symm hj)]; exact hb, hbf⟩

theorem computePrefix_spec (passos : Nat) (p : List Char) (hp : p ≠ [])
    (hpas : p.length ≤ passos) :
    ∃ pi, computePrefix passos p = .ok pi ∧ pi.length = p.length + 1 ∧
      TabelaOk p pi p.length := by
  have hm : 1 ≤ p.length := List.length_pos.mpr hp
  obtain ⟨⟨pi, k⟩, hfold, hlen, htab, -⟩ := foldlM_range'_inducao
    (computePrefix_passo passos p)
    (fun j (st : List Nat × Nat) => st.1.length = p.length + 1 ∧ TabelaOk p st.1 (j + 1) ∧
      EhFalha p (j + 1) st.2)
    2 (p.length - 1) (List.replicate (p.length + 1) 0, 0)
    ⟨by simp, tabelaOk_inicial p hm, Nat.zero_lt_one, Bord.zero _ _, fun k hk _ => by omega⟩
    (fun j st hj hP => by
      obtain ⟨pi', k', h1, h2, h3, h4⟩ := computePrefix_passo_spec passos p st.1 st.2 (j + 1)
        hpas (by omega) (by omega) hP.1 hP.2.1 hP.2.2
      refine ⟨(pi', k'), ?_, h2, h3, h4⟩
      rw [show 2 + j = j + 1 + 1 by omega]
      exact h1)
    (p.length - 1) (Nat.le_refl _)
  refine ⟨pi, ?_, hlen, ?_⟩
  · unfold computePrefix
    rw [hfold]
    rfl
  · have e : p.length - 1 + 1 = p.length := by omega
    rw [e] at htab
    exact htab

/-! ## The search counts the occurrences -/

theorem ocorre_em_iff (p t : List Char) (i : Nat) :
    ocorre_em p t i = true ↔ ∀ j, j < p.length → p[j]? = t[i + j]? := by
  unfold ocorre_em
  rw [decide_eq_true_iff]
  constructor
  · intro h j hj
    have := congrArg (fun l => l[j]?) h
    simp only [List.getElem?_take, if_pos hj, List.getElem?_drop] at this
    exact this.symm
  · intro h
    apply List.ext_getElem?
    intro j
    by_cases hj : j < p.length
    · rw [List.getElem?_take, if_pos hj, List.getElem?_drop, h j hj]
    · rw [List.getElem?_take, if_neg hj, List.getElem?_eq_none (Nat.le_of_not_lt hj)]

theorem ocorre_em_bord (p t : List Char) (e : Nat) (hm : p.length ≤ e) (he : e ≤ t.length) :
    ocorre_em p t (e - p.length) = true ↔ Bord p (t.take e) p.length := by
  unfold ocorre_em Bord
  rw [decide_eq_true_iff, List.take_length, List.suffix_iff_eq_drop, List.length_take,
    Nat.min_eq_left he, List.drop_take]
  have : e - (e - p.length) = p.length := by omega
  rw [this]
  exact ⟨fun h => ⟨Nat.le_refl _, h.symm⟩, fun h => h.2.symm⟩

theorem countP_range_succ (f : Nat → Bool) (n : Nat) :
    (List.range (n + 1)).countP f = (List.range n).countP f + (if f n then 1 else 0) := by
  rw [List.range_succ, List.countP_append]
  by_cases h : f n = true <;> simp [h]

theorem kmp_passo_spec (passos : Nat) (t p : List Char) (pi : List Nat) (occ q i : Nat)
    (hp : 1 ≤ p.length) (hpas : p.length ≤ passos) (htab : TabelaOk p pi p.length)
    (hi : i < t.length) (hq : q < p.length) (hB : Bord p (t.take i) q)
    (hmax : ∀ k, Bord p (t.take i) k → k < p.length → k ≤ q)
    (hocc : occ = (List.range (i + 1 - p.length)).countP (ocorre_em p t)) :
    ∃ occ' q', kmp_passo passos t p pi (occ, q) (1 + i) = .ok (occ', q') ∧
      q' < p.length ∧ Bord p (t.take (i + 1)) q' ∧
      (∀ k, Bord p (t.take (i + 1)) k → k < p.length → k ≤ q') ∧
      occ' = (List.range (i + 1 + 1 - p.length)).countP (ocorre_em p t) := by
  have hc : vetor_at t i = .ok t[i] := vetor_at_some (List.getElem?_eq_getElem hi)
  have htk : t.take (i + 1) = t.take i ++ [t[i]] := by
    rw [List.take_succ, List.getElem?_eq_getElem hi]
    rfl
  obtain ⟨q1, hq1, hB1, hmax1⟩ := avanca_spec p pi t[i] (t.take i) p.length htab q
    (by omega) hq hB hmax passos (by omega)
  rw [← htk] at hB1 hmax1
  by_cases hqm : q1 = p.length
  · subst hqm
    obtain ⟨b, hb, hbm, hbB, hbmax⟩ := htab p.length hp (Nat.le_refl _)
    have hle : p.length ≤ i + 1 := by
      have := hB1.le_length
      rw [List.length_take] at this
      omega
    refine ⟨occ + 1, b, ?_, hbm, (Bord.cadeia hB1 (Nat.le_of_lt hbm)).mpr hbB, ?_, ?_⟩
    · simp [kmp_passo, hc, hq1, Except.bind, vetor_at_some hb]
    · intro k hk hkm
      exact hbmax k hkm ((Bord.cadeia hB1 (Nat.le_of_lt hkm)).mp hk)
    · have e : i + 1 + 1 - p.length = (i + 1 - p.length) + 1 := by omega
      rw [e, countP_range_succ, ← hocc,
        if_pos ((ocorre_em_bord p t (i + 1) hle (by omega)).mpr hB1)]
  · have hlt : q1 < p.length := Nat.lt_of_le_of_ne hB1.1 hqm
    refine ⟨occ, q1, ?_, hlt, hB1, fun k hk _ => hmax1 k hk, ?_⟩
    · simp [kmp_passo, hc, hq1, Except.bind, hqm]
    · by_cases hle : p.length ≤ i + 1
      · have e : i + 1 + 1 - p.length = (i + 1 - p.length) + 1 := by omega
        have hno : ¬ ocorre_em p t (i + 1 - p.length) = true := by
          intro h
          have := hmax1 _ ((ocorre_em_bord p t (i + 1) hle (by omega)).mp h)
          omega
        rw [e, countP_range_succ, ← hocc, if_neg hno, Nat.add_zero]
      · have e1 : i + 1 + 1 - p.length = 0 := by omega
        have e2 : i + 1 - p.length = 0 := by omega
        rw [hocc, e1, e2]

theorem kmp_spec (passos : Nat) (t p : List Char) (pi : List Nat) (hp : p ≠ [])
    (hpas : p.length ≤ passos) (htab : TabelaOk p pi p.length) :
    kmpStringMatchGivenPi passos t p pi = .ok (numero_ocorrencias p t) := by
  have hm : 1 ≤ p.length := List.length_pos.mpr hp
  unfold kmpStringMatchGivenPi numero_ocorrencias
  by_cases hlong : p.length > t.length
  · have e : t.length + 1 - p.length = 0 := by omega
    simp [hlong, e]
  · rw [if_neg hlong]
    obtain ⟨⟨occ, q⟩, hfold, -, -, -, hocc⟩ := foldlM_range'_inducao
      (kmp_passo passos t p pi)
      (fun i (st : Nat × Nat) => st.2 < p.length ∧ Bord p (t.take i) st.2 ∧
        (∀ k, Bord p (t.take i) k → k < p.length → k ≤ st.2) ∧
        st.1 = (List.range (i + 1 - p.length)).countP (ocorre_em p t))
      1 t.length (0, 0)
      ⟨by omega, Bord.zero _ _, fun k hk _ => by
          have := hk.le_length
          simpa using this,
        by
          have e : 0 + 1 - p.length = 0 := by omega
          rw [e]
          rfl⟩
      (fun i st hi hP => by
        obtain ⟨occ', q', h1, h2, h3, h4, h5⟩ := kmp_passo_spec passos t p pi st.1 st.2 i hm
          hpas htab hi hP.1 hP.2.1 hP.2.2.1 hP.2.2.2
        exact ⟨(occ', q'), h1, h2, h3, h4, h5⟩)
      t.length (Nat.le_refl _)
    rw [hfold]
    simp only [Except.map]
    simp only at hocc
    rw [hocc]

/-! ## The naive search counts the occurrences -/

theorem string_indice_some {s : List Char} {i : Nat} (h : i < s.length) :
    string_indice s i = .ok s[i] := by
  simp [string_indice, List.getElem?_eq_getElem h]

theorem naive_compara_spec (t p : List Char) (i : Nat) (hin : i + p.length ≤ t.length) :
    ∀ d ip passos, p.length - ip = d → ip < p.length → d ≤ passos →
      (∀ j, j < ip → p[j]? = t[i + j]?) →
      naive_compara t p passos (i + ip) ip = .ok (if ocorre_em p t i then 1 else 0) := by
  intro d
  induction d with
  | zero => intro ip passos h1 h2; omega
  | succ d ih =>
    intro ip passos hd hip hpas hprev
    obtain ⟨n, rfl⟩ : ∃ n, passos = n + 1 := ⟨passos - 1, by omega⟩
    have ha : string_indice p ip = .ok p[ip] := string_indice_some hip
    have hit : i + ip < t.length := by omega
    have hb : string_indice t (i + ip) = .ok t[i + ip] := string_indice_some hit
    have hult : ultimo_indice p = p.length - 1 := by
      unfold ultimo_indice
      rw [if_neg (by omega)]
    unfold naive_compara
    simp only [ha, hb, Except.bind]
    by_cases hab : p[ip] = t[i + ip]
    · rw [if_pos hab, hult]
      have hprev' : ∀ j, j < ip + 1 → p[j]? = t[i + j]? := by
        intro j hj
        by_cases hj' : j = ip
        · subst hj'
          rw [List.getElem?_eq_getElem hip, List.getElem?_eq_getElem hit, hab]
        · exact hprev j (by omega)
      by_cases hlast : ip = p.length - 1
      · rw [if_pos hlast]
        have : ocorre_em p t i = true :=
          (ocorre_em_iff p t i).mpr (fun j hj => hprev' j (by omega))
        rw [this]
        rfl
      · rw [if_neg hlast]
        have := ih (ip + 1) n (by omega) (by omega) (by omega) hprev'
        rw [← Nat.add_assoc] at this
        exact this
    · rw [if_neg hab]
      have : ¬ ocorre_em p t i = true := by
        intro h
        have := (ocorre_em_iff p t i).mp h ip hip
        rw [List.getElem?_eq_getElem hip, List.getElem?_eq_getElem hit] at this
        exact hab (Option.some.inj this)
      rw [if_neg this]

theorem foldlM_soma_countP (f : Nat → Except Erro Nat) (g : Nat → Bool) (l : List Nat)
    (hf : ∀ i ∈ l, f i = .ok (if g i then 1 else 0)) (s0 : Nat) :
    l.foldlM (fun sum i => (f i).map fun inc => sum + inc) s0 = .ok (s0 + l.countP g) := by
  induction l generalizing s0 with
  | nil => rfl
  | cons x xs ih =>
    have hrec := ih (fun i hi => hf i (List.mem_cons_of_mem _ hi))
      (s0 + if g x = true then 1 else 0)
    rw [List.foldlM_cons, hf x (List.mem_cons_self _ _)]
    simp only [Except.map, bind, Except.bind] at hrec ⊢
    rw [hrec, List.countP_cons]
    congr 1
    omega

theorem naive_spec (passos : Nat) (t p : List Char) (hp : p ≠ [])
    (hpas : p.length ≤ passos) :
    naiveStringMatch passos t p = .ok (numero_ocorrencias p t) := by
  have hm : 1 ≤ p.length := List.length_pos.mpr hp
  unfold naiveStringMatch numero_ocorrencias
  by_cases hlong : p.length > t.length
  · have e : t.length + 1 - p.length = 0 := by omega
    simp [hlong, e]
  · rw [if_neg hlong]
    have e : t.length + 1 - p.length = t.length - p.length + 1 := by omega
    rw [e, foldlM_soma_countP (fun i => naive_compara t p passos i 0) (ocorre_em p t)]
    · simp
    · intro i hi
      have hi' : i < t.length - p.length + 1 := List.mem_range.mp hi
      have := naive_compara_spec t p i (by omega) p.length 0 passos (by omega) (by omega)
        hpas (fun j hj => absurd hj (Nat.not_lt_zero _))
      simpa using this

/-! ## The recurrence of the edit distance -/

theorem lev_nil_left (ys : List Char) : lev [] ys = ys.length := by
  rw [lev]

theorem lev_nil_right (xs : List Char) : lev xs [] = xs.length := by
  cases xs with
  | nil => rw [lev]
  | cons x xs => rw [lev]

theorem lev_cons_cons (x y : Char) (xs ys : List Char) :
    lev (x :: xs) (y :: ys) =
      if x = y then lev xs ys
      else 1 + min (min (lev xs ys) (lev xs (y :: ys))) (lev (x :: xs) ys) := by
  rw [lev]

theorem lev_lipschitz (n : Nat) : ∀ xs ys : List Char, xs.length + ys.length = n →
    (∀ y, lev xs ys ≤ lev xs (y :: ys) + 1) ∧ (∀ x, lev (x :: xs) ys ≤ lev xs ys + 1) := by
  induction n using Nat.strong_induction_on with
  | _ n ih =>
    intro xs ys hn
    constructor
    · intro y
      cases xs with
      | nil => rw [lev_nil_left, lev_nil_left]; simp only [List.length_cons]; omega
      | cons x xs' =>
        have h1 := (ih (xs'.length + ys.length) (by simp at hn; omega) xs' ys rfl)
        rw [lev_cons_cons x y xs' ys]
        split_ifs with hxy
        · exact h1.2 x
        · have a1 := h1.2 x
          have a2 := h1.1 y
          omega
    · intro x
      cases ys with
      | nil => rw [lev_nil_right, lev_nil_right]; simp only [List.length_cons]; omega
      | cons y ys' =>
        have h1 := (ih (xs.length + ys'.length) (by simp at hn; omega) xs ys' rfl)
        rw [lev_cons_cons x y xs ys']
        split_ifs with hxy
        · exact h1.1 y
        · omega

theorem lev_comm (n : Nat) : ∀ xs ys : List Char, xs.length + ys.length = n →
    lev xs ys = lev ys xs := by
  induction n using Nat.strong_induction_on with
  | _ n ih =>
    intro xs ys hn
    cases xs with
    | nil => rw [lev_nil_left, lev_nil_right]
    | cons x xs' =>
      cases ys with
      | nil => rw [lev_nil_left, lev_nil_right]
      | cons y ys' =>
        simp only [List.length_cons] at hn
        rw [lev_cons_cons, lev_cons_cons]
        have e1 := ih (xs'.length + ys'.length) (by omega) xs' ys' rfl
        have e2 := ih (xs'.length + (y :: ys').length) (by simp; omega) xs' (y :: ys') rfl
        have e3 := ih ((x :: xs').length + ys'.length) (by simp; omega) (x :: xs') ys' rfl
        rw [e1, e2, e3]
        by_cases hxy : x = y
        · rw [if_pos hxy, if_pos hxy.symm]
        · rw [if_neg hxy, if_neg (Ne.symm hxy)]
          omega

theorem lev_le_cons_right (xs ys : List Char) (y : Char) : lev xs ys ≤ lev xs (y :: ys) + 1 :=
  (lev_lipschitz _ xs ys rfl).1 y

theorem lev_cons_left_le (xs ys : List Char) (x : Char) : lev (x :: xs) ys ≤ lev xs ys + 1 :=
  (lev_lipschitz _ xs ys rfl).2 x

theorem lev_le_cons_left (xs ys : List Char) (x : Char) : lev xs ys ≤ lev (x :: xs) ys + 1 := by
  rw [lev_comm _ xs ys rfl, lev_comm _ (x :: xs) ys rfl]
  exact lev_le_cons_right ys xs x

theorem lev_cons_right_le (xs ys : List Char) (y : Char) : lev xs (y :: ys) ≤ lev xs ys + 1 := by
  rw [lev_comm _ xs (y :: ys) rfl, lev_comm _ xs ys rfl]
  exact lev_cons_left_le ys xs y

theorem lev_self (b : List Char) : lev b b = 0 := by
  induction b with
  | nil => rw [lev_nil_left]; rfl
  | cons x xs ih => rw [lev_cons_cons, if_pos rfl, ih]

theorem lev_substitui (r : List Char) (x y : Char) :
    ∀ b, lev (x :: r) b ≤ lev (y :: r) b + 1 := by
  intro b
  induction b with
  | nil => rw [lev_nil_right, lev_nil_right]; simp only [List.length_cons]; omega
  | cons z b' ih =>
    have u1 : lev (x :: r) (z :: b') ≤ lev r b' + 1 := by
      rw [lev_cons_cons]
      split_ifs <;> omega
    have u2 := lev_cons_left_le r (z :: b') x
    have u3 := lev_cons_right_le (x :: r) b' z
    rw [lev_cons_cons y z r b']
    split_ifs <;> omega

theorem lev_cons_congr (z : Char) (a a' : List Char) (h : ∀ b, lev a b ≤ lev a' b + 1) :
    ∀ b, lev (z :: a) b ≤ lev (z :: a') b + 1 := by
  intro b
  induction b with
  | nil =>
    have := h []
    rw [lev_nil_right, lev_nil_right] at this
    rw [lev_nil_right, lev_nil_right]
    simp only [List.length_cons]
    omega
  | cons y b' ih =>
    have h1 := h b'
    have h2 := h (y :: b')
    rw [lev_cons_cons, lev_cons_cons]
    split_ifs <;> omega

theorem lev_passo {a a' : List Char} (h : Passo a a') : ∀ b, lev a b ≤ lev a' b + 1 := by
  cases h with
  | insere l r x =>
    induction l with
    | nil => exact fun b => lev_le_cons_left r b x
    | cons z l ih => exact lev_cons_congr z _ _ ih
  | apaga l r x =>
    induction l with
    | nil => exact fun b => lev_cons_left_le r b x
    | cons z l ih => exact lev_cons_congr z _ _ ih
  | substitui l r x y =>
    induction l with
    | nil => exact lev_substitui r x y
    | cons z l ih => exact lev_cons_congr z _ _ ih

theorem lev_le_of_transforma {a b : List Char} {n : Nat} (h : Transforma a b n) :
    lev a b ≤ n := by
  induction h with
  | nada a => rw [lev_self]
  | mais a a' b n hp _ ih =>
    have := lev_passo hp b
    omega

/-! ## The edits that reach the recurrence -/

theorem Passo.passo_cons (z : Char) {a a' : List Char} (h : Passo a a') : Passo (z :: a) (z :: a') := by
  cases h with
  | insere l r x => exact Passo.insere (z :: l) r x
  | apaga l r x => exact Passo.apaga (z :: l) r x
  | substitui l r x y => exact Passo.substitui (z :: l) r x y

theorem Transforma.transforma_cons (z : Char) {a b : List Char} {n : Nat} (h : Transforma a b n) :
    Transforma (z :: a) (z :: b) n := by
  induction h with
  | nada a => exact Transforma.nada _
  | mais a a' b n hp _ ih => exact Transforma.mais _ _ _ _ (hp.passo_cons z) ih

theorem transforma_lev (n : Nat) : ∀ xs ys : List Char, xs.length + ys.length = n →
    Transforma xs ys (lev xs ys) := by
  induction n using Nat.strong_induction_on with
  | _ n ih =>
    intro xs ys hn
    cases xs with
    | nil =>
      cases ys with
      | nil => rw [lev_nil_left]; exact Transforma.nada _
      | cons y ys' =>
        rw [lev_nil_left]
        have h1 := ih (([] : List Char).length + ys'.length) (by simp at hn ⊢; omega) [] ys' rfl
        rw [lev_nil_left] at h1
        exact Transforma.mais _ _ _ _ (Passo.insere [] [] y) (h1.transforma_cons y)
    | cons x xs' =>
      cases ys with
      | nil =>
        rw [lev_nil_right]
        have h1 := ih (xs'.length + ([] : List Char).length) (by simp at hn ⊢; omega) xs' [] rfl
        rw [lev_nil_right] at h1
        exact Transforma.mais _ _ _ _ (Passo.apaga [] xs' x) h1
      | cons y ys' =>
        simp only [List.length_cons] at hn
        have h1 := ih (xs'.length + ys'.length) (by omega) xs' ys' rfl
        have h2 := ih (xs'.length + (y :: ys').length) (by simp; omega) xs' (y :: ys') rfl
        have h3 := ih ((x :: xs').length + ys'.length) (by simp; omega) (x :: xs') ys' rfl
        rw [lev_cons_cons]
        by_cases hxy : x = y
        · rw [if_pos hxy, hxy]
          exact h1.transforma_cons y
        · rw [if_neg hxy]
          have hmin : min (min (lev xs' ys') (lev xs' (y :: ys'))) (lev (x :: xs') ys') =
              lev xs' ys' ∨
            min (min (lev xs' ys') (lev xs' (y :: ys'))) (lev (x :: xs') ys') =
              lev xs' (y :: ys') ∨
            min (min (lev xs' ys') (lev xs' (y :: ys'))) (lev (x :: xs') ys') =
              lev (x :: xs') ys' := by omega
          rw [Nat.add_comm]
          rcases hmin with e | e | e
          · rw [e]
            exact Transforma.mais _ _ _ _ (Passo.substitui [] xs' x y) (h1.transforma_cons y)
          · rw [e]
            exact Transforma.mais _ _ _ _ (Passo.apaga [] xs' x) h2
          · rw [e]
            exact Transforma.mais _ _ _ _ (Passo.insere [] (x :: xs') y) (h3.transforma_cons y)

theorem Passo.passo_reverse {a a' : List Char} (h : Passo a a') : Passo a.reverse a'.reverse := by
  cases h with
  | insere l r x =>
    have := Passo.insere r.reverse l.reverse x
    simpa using this
  | apaga l r x =>
    have := Passo.apaga r.reverse l.reverse x
    simpa using this
  | substitui l r x y =>
    have := Passo.substitui r.reverse l.reverse x y
    simpa using this

theorem Transforma.transforma_reverse {a b : List Char} {n : Nat} (h : Transforma a b n) :
    Transforma a.reverse b.reverse n := by
  induction h with
  | nada a => exact Transforma.nada _
  | mais a a' b n hp _ ih => exact Transforma.mais _ _ _ _ hp.passo_reverse ih

/-! ## The table of `distancia_entre_palavras` -/

theorem foldl_coluna (k : Nat) (D0 : Nat → Nat → Int) :
    (List.range k).foldl (fun D i => tabela_put D i 0 (i : Int)) D0 =
      fun i' j' => if i' < k ∧ j' = 0 then (i' : Int) else D0 i' j' := by
  induction k with
  | zero => funext i' j'; simp
  | succ k ih =>
    rw [List.range_succ, List.foldl_append, ih]
    funext i' j'
    simp only [List.foldl_cons, List.foldl_nil, tabela_put]
    by_cases h1 : i' = k ∧ j' = 0
    · rw [if_pos h1, if_pos ⟨by omega, h1.2⟩, h1.1]
    · rw [if_neg h1]
      by_cases h2 : i' < k ∧ j' = 0
      · rw [if_pos h2, if_pos ⟨by omega, h2.2⟩]
      · rw [if_neg h2, if_neg (by
          rintro ⟨h3, h4⟩
          rcases Nat.lt_succ_iff_lt_or_eq.mp h3 with h | h
          · exact h2 ⟨h, h4⟩
          · exact h1 ⟨h, h4⟩)]

theorem foldl_linha (k : Nat) (D0 : Nat → Nat → Int) :
    (List.range k).foldl (fun D j => tabela_put D 0 j (j : Int)) D0 =
      fun i' j' => if i' = 0 ∧ j' < k then (j' : Int) else D0 i' j' := by
  induction k with
  | zero => funext i' j'; simp
  | succ k ih =>
    rw [List.range_succ, List.foldl_append, ih]
    funext i' j'
    simp only [List.foldl_cons, List.foldl_nil, tabela_put]
    by_cases h1 : i' = 0 ∧ j' = k
    · rw [if_pos h1, if_pos ⟨h1.1, by omega⟩, h1.2]
    · rw [if_neg h1]
      by_cases h2 : i' = 0 ∧ j' < k
      · rw [if_pos h2, if_pos ⟨h2.1, by omega⟩]
      · rw [if_neg h2, if_neg (by
          rintro ⟨h3, h4⟩
          rcases Nat.lt_succ_iff_lt_or_eq.mp h4 with h | h
          · exact h2 ⟨h3, h⟩
          · exact h1 ⟨h3, h⟩)]

theorem levTabela_zero_right (a b : List Char) (i : Nat) (hi : i ≤ a.length) :
    levTabela a b i 0 = (i : Int) := by
  unfold levTabela
  rw [List.take_zero, List.reverse_nil, lev_nil_right, List.length_reverse, List.length_take,
    Nat.min_eq_left hi]

theorem levTabela_zero_left (a b : List Char) (j : Nat) (hj : j ≤ b.length) :
    levTabela a b 0 j = (j : Int) := by
  unfold levTabela
  rw [List.take_zero, List.reverse_nil, lev_nil_left, List.length_reverse, List.length_take,
    Nat.min_eq_left hj]

theorem reverse_take_succ (a : List Char) (i : Nat) (hi : i < a.length) :
    (a.take (i + 1)).reverse = a[i] :: (a.take i).reverse := by
  rw [List.take_succ, List.getElem?_eq_getElem hi]
  simp

theorem levTabela_succ (a b : List Char) (i j : Nat) (hi : i < a.length) (hj : j < b.length) :
    levTabela a b (i + 1) (j + 1) =
      if a[i] = b[j] then levTabela a b i j
      else 1 + min (min (levTabela a b i j) (levTabela a b i (j + 1)))
        (levTabela a b (i + 1) j) := by
  unfold levTabela
  rw [reverse_take_succ a i hi, reverse_take_succ b j hj, lev_cons_cons]
  split_ifs
  · rfl
  · push_cast
    rfl

theorem tabelaAte_inicial (a b : List Char) :
    TabelaAte a b 0 b.length
      ((List.range (b.length + 1)).foldl (fun D j => tabela_put D 0 j (j : Int))
        ((List.range (a.length + 1)).foldl (fun D i => tabela_put D i 0 (i : Int))
          (fun _ _ => 0))) := by
  intro i' j' hi hj hc
  rw [foldl_linha, foldl_coluna]
  by_cases h0 : i' = 0
  · subst h0
    dsimp only
    rw [if_pos ⟨rfl, by omega⟩, levTabela_zero_left a b j' hj]
  · have hj0 : j' = 0 := by omega
    subst hj0
    dsimp only
    rw [if_neg (fun h => h0 h.1), if_pos ⟨by omega, rfl⟩, levTabela_zero_right a b i' hi]

theorem distancia_celula_spec (a b : List Char) (i j : Nat) (D : Nat → Nat → Int)
    (hi : i < a.length) (hj : j < b.length) (hD : TabelaAte a b (i + 1) j D) :
    ∃ D', distancia_celula a b (i + 1) D (1 + j) = .ok D' ∧ TabelaAte a b (i + 1) (j + 1) D' := by
  have ha : string_indice a i = .ok a[i] := string_indice_some hi
  have hb : string_indice b j = .ok b[j] := string_indice_some hj
  have d1 : D i j = levTabela a b i j := hD i j (by omega) (by omega) (by omega)
  have d2 : D i (1 + j) = levTabela a b i (j + 1) := by
    rw [Nat.add_comm 1 j]
    exact hD i (j + 1) (by omega) (by omega) (by omega)
  have d3 : D (i + 1) j = levTabela a b (i + 1) j :=
    hD (i + 1) j (by omega) (by omega) (by omega)
  have hput : ∀ v, v = levTabela a b (i + 1) (j + 1) →
      TabelaAte a b (i + 1) (j + 1) (tabela_put D (i + 1) (1 + j) v) := by
    intro v hv i' j' hi' hj' hc
    unfold tabela_put
    by_cases h : i' = i + 1 ∧ j' = 1 + j
    · rw [if_pos h, hv, h.1, h.2, Nat.add_comm 1 j]
    · rw [if_neg h]
      exact hD i' j' hi' hj' (by omega)
  unfold distancia_celula
  simp only [Nat.add_sub_cancel, Nat.add_sub_cancel_left, ha, hb, Except.bind]
  by_cases hab : a[i] = b[j]
  · rw [if_pos hab]
    exact ⟨_, rfl, hput _ (by rw [levTabela_succ a b i j hi hj, if_pos hab, d1])⟩
  · rw [if_neg hab]
    exact ⟨_, rfl, hput _ (by rw [levTabela_succ a b i j hi hj, if_neg hab, d1, d2, d3])⟩

theorem distancia_linha_spec (a b : List Char) (i : Nat) (D : Nat → Nat → Int)
    (hi : i < a.length) (hD : TabelaAte a b i b.length D) :
    ∃ D', (List.range' 1 b.length).foldlM (distancia_celula a b (i + 1)) D = .ok D' ∧
      TabelaAte a b (i + 1) b.length D' :=
  foldlM_range'_inducao (distancia_celula a b (i + 1))
    (fun j D' => TabelaAte a b (i + 1) j D') 1 b.length D
    (fun i' j' hi' hj' hc => hD i' j' hi' hj' (by omega))
    (fun j D' hj hP => distancia_celula_spec a b i j D' hi hj hP)
    b.length (Nat.le_refl _)

theorem distancia_entre_palavras_lev (a b : List Char) :
    distancia_entre_palavras a b = .ok ((lev a.reverse b.reverse : Nat) : Int) := by
  obtain ⟨D, hD, hT⟩ := foldlM_range'_inducao
    (fun D i => (List.range' 1 b.length).foldlM (distancia_celula a b i) D)
    (fun i D => TabelaAte a b i b.length D) 1 a.length _ (tabelaAte_inicial a b)
    (fun i D hi hP => by
      rw [Nat.add_comm 1 i]
      exact distancia_linha_spec a b i D hi hP)
    a.length (Nat.le_refl _)
  unfold distancia_entre_palavras
  simp only [hD, Except.map]
  rw [hT a.length b.length (Nat.le_refl _) (Nat.le_refl _) (by omega)]
  unfold levTabela
  rw [List.take_length, List.take_length]

/-! ## The claims on the string searches and on the edit distance -/

/-- C12: for a non-empty pattern, `kmpStringMatchGivenPi` run on the table of
`computePrefix` returns the number of positions at which the pattern occurs in the text,
overlapping occurrences included; that number is 0 when the pattern is longer than the
text.  A step budget of the length of the pattern is enough for every inner loop. -/
theorem kmp_conta_ocorrencias (passos : Nat) (input toSearch : List Char)
    (hp : toSearch ≠ []) (hpas : toSearch.length ≤ passos) :
    (computePrefix passos toSearch).bind (kmpStringMatchGivenPi passos input toSearch) =
      .ok (numero_ocorrencias toSearch input) ∧
    (toSearch.length > input.length → numero_ocorrencias toSearch input = 0) := by
  obtain ⟨pi, hpi, -, htab⟩ := computePrefix_spec passos toSearch hp hpas
  refine ⟨?_, ?_⟩
  · rw [hpi]
    exact kmp_spec passos input toSearch pi hp hpas htab
  · intro hlong
    unfold numero_ocorrencias
    have e : input.length + 1 - toSearch.length = 0 := by omega
    rw [e]
    rfl

/-- C12, witness: the pattern `aa` occurs three times in the text `aaaa`. -/
theorem kmp_conta_ocorrencias_witness :
    (computePrefix 2 ['a', 'a']).bind (kmpStringMatchGivenPi 2 ['a', 'a', 'a', 'a'] ['a', 'a']) =
      .ok (numero_ocorrencias ['a', 'a'] ['a', 'a', 'a', 'a']) ∧
    ((['a', 'a'] : List Char).length > (['a', 'a', 'a', 'a'] : List Char).length →
      numero_ocorrencias ['a', 'a'] ['a', 'a', 'a', 'a'] = 0) :=
  kmp_conta_ocorrencias 2 ['a', 'a', 'a', 'a'] ['a', 'a'] (by decide) (by decide)

/-- C13: `distancia_entre_palavras(a, b)` returns the least number of single-character
insertions, deletions and substitutions that turn `a` into `b`: that many edits do turn
`a` into `b`, and no smaller number does. -/
theorem distancia_entre_palavras_minima (a b : List Char) :
    ∃ n : Nat, distancia_entre_palavras a b = .ok (n : Int) ∧ Transforma a b n ∧
      ∀ k, Transforma a b k → n ≤ k := by
  refine ⟨lev a.reverse b.reverse, distancia_entre_palavras_lev a b, ?_, ?_⟩
  · have := (transforma_lev _ a.reverse b.reverse rfl).transforma_reverse
    rw [List.reverse_reverse, List.reverse_reverse] at this
    exact this
  · intro k hk
    exact lev_le_of_transforma hk.transforma_reverse

/-- C17: for a non-empty pattern, `naiveStringMatch` and `kmpStringMatchGivenPi` run on
the table of `computePrefix` return the same number, the number of occurrences of the
pattern in the text; so the tests `> 0` of the two passes of `main` agree on every stop
name. -/
theorem naive_igual_kmp (passos : Nat) (text pattern : List Char) (hp : pattern ≠ [])
    (hpas : pattern.length ≤ passos) :
    naiveStringMatch passos text pattern =
      (computePrefix passos pattern).bind (kmpStringMatchGivenPi passos text pattern) ∧
    naiveStringMatch passos text pattern = .ok (numero_ocorrencias pattern text) := by
  obtain ⟨pi, hpi, -, htab⟩ := computePrefix_spec passos pattern hp hpas
  rw [hpi]
  have h1 := kmp_spec passos text pattern pi hp hpas htab
  have h2 := naive_spec passos text pattern hp hpas
  exact ⟨by rw [h2]; exact h1.symm, h2⟩

/-- C17, witness: the pattern `ab` in the text `abcab`. -/
theorem naive_igual_kmp_witness :
    naiveStringMatch 2 ['a', 'b', 'c', 'a', 'b'] ['a', 'b'] =
      (computePrefix 2 ['a', 'b']).bind
        (kmpStringMatchGivenPi 2 ['a', 'b', 'c', 'a', 'b'] ['a', 'b']) ∧
    naiveStringMatch 2 ['a', 'b', 'c', 'a', 'b'] ['a', 'b'] =
      .ok (numero_ocorrencias ['a', 'b'] ['a', 'b', 'c', 'a', 'b']) :=
  naive_igual_kmp 2 ['a', 'b', 'c', 'a', 'b'] ['a', 'b'] (by decide) (by decide)

/-! ## The scans of `printMoreProximate` -/

theorem drop_eq_cons {α : Type} {l : List α} {i : Nat} {x : α} {r : List α}
    (h : l.drop i = x :: r) : l[i]? = some x ∧ l.drop (i + 1) = r := by
  constructor
  · have := List.getElem?_drop l i 0
    rw [h] at this
    simpa using this.symm
  · rw [← List.drop_drop 1 i l, h]
    rfl

theorem varre_linha_spec (nome : NoInfo → String) (linhas : List (List NoInfo)) (min : Int)
    (n i : Nat) (linha : List NoInfo) (hl : linhas[i]? = some linha) :
    ∀ (ds : List Int) (j : Nat) (lista : List (String × Int)),
      (linha.drop j).length = ds.length → lista.length < n →
      varre_linha nome linhas min n i j ds lista =
        .ok (lista ++ ((List.zipWith (fun x d => (nome x, d)) (linha.drop j) ds).filter
          (fun e => decide (e.2 = min))).take (n - lista.length)) := by
  intro ds
  induction ds with
  | nil =>
    intro j lista _ _
    simp [varre_linha]
  | cons d ds ih =>
    intro j lista hlen hlt
    cases hdrop : linha.drop j with
    | nil => rw [hdrop] at hlen; simp at hlen
    | cons x rest =>
      obtain ⟨hx, hrest⟩ := drop_eq_cons hdrop
      have hac : acesso2 linhas i j = .ok x := by
        simp [acesso2, hl, acesso, hx]
      have hlen' : (linha.drop (j + 1)).length = ds.length := by
        rw [hrest]
        rw [hdrop] at hlen
        simpa using hlen
      rw [List.zipWith_cons_cons]
      unfold varre_linha
      by_cases hd : d = min
      · subst hd
        simp only [if_true, hac, Except.bind]
        rw [List.filter_cons_of_pos (by simp)]
        by_cases hfull : (lista ++ [(nome x, d)]).length ≥ n
        · rw [if_pos hfull]
          have : n - lista.length = 1 := by
            simp at hfull
            omega
          rw [this]
          simp
        · rw [if_neg hfull]
          have hlt' : (lista ++ [(nome x, d)]).length < n := Nat.lt_of_not_ge hfull
          rw [ih (j + 1) _ hlen' hlt', hrest]
          have e : n - lista.length = (n - (lista ++ [(nome x, d)]).length) + 1 := by
            simp at hlt' ⊢
            omega
          rw [e, List.take_succ_cons]
          simp
      · rw [if_neg hd, List.filter_cons_of_neg (by simpa using hd), ih (j + 1) lista hlen' hlt,
          hrest]

theorem entradas_cons (nome : NoInfo → String) (l : List NoInfo) (ls : List (List NoInfo))
    (ds : List Int) (dss : List (List Int)) :
    entradas nome (l :: ls) (ds :: dss) =
      List.zipWith (fun x d => (nome x, d)) l ds ++ entradas nome ls dss := by
  simp [entradas]

theorem entradas_nil_right (nome : NoInfo → String) (ls : List (List NoInfo)) :
    entradas nome ls [] = [] := by
  simp [entradas]

theorem varre_linhas_spec (nome : NoInfo → String) (linhas : List (List NoInfo)) (min : Int)
    (n : Nat) :
    ∀ (dss : List (List Int)) (i : Nat) (lista : List (String × Int)),
      MesmaForma (linhas.drop i) dss → lista.length < n →
      varre_linhas nome linhas min n i dss lista =
        .ok (lista ++ ((entradas nome (linhas.drop i) dss).filter
          (fun e => decide (e.2 = min))).take (n - lista.length)) := by
  intro dss
  induction dss with
  | nil =>
    intro i lista _ _
    simp [varre_linhas, entradas_nil_right]
  | cons ds dss ih =>
    intro i lista hforma hlt
    cases hdrop : linhas.drop i with
    | nil => rw [hdrop] at hforma; cases hforma
    | cons l ls =>
      rw [hdrop] at hforma
      obtain ⟨hl, hrest⟩ := drop_eq_cons hdrop
      unfold MesmaForma at hforma
      rw [List.forall₂_cons] at hforma
      obtain ⟨hlen, hforma'⟩ := hforma
      have hrow := varre_linha_spec nome linhas min n i l hl ds 0 lista (by simpa using hlen) hlt
      rw [List.drop_zero] at hrow
      unfold varre_linhas
      rw [hrow, entradas_cons, List.filter_append]
      simp only [Except.bind]
      by_cases hfull : (lista ++ List.take (n - lista.length) (List.filter
          (fun e => decide (e.2 = min)) (List.zipWith (fun x d => (nome x, d)) l ds))).length ≥ n
      · rw [if_pos hfull]
        have hge : n - lista.length ≤ (List.filter (fun e => decide (e.2 = min))
            (List.zipWith (fun x d => (nome x, d)) l ds)).length := by
          rw [List.length_append, List.length_take] at hfull
          omega
        rw [List.take_append_of_le_length hge]
      · rw [if_neg hfull]
        have hshort : (List.filter (fun e => decide (e.2 = min))
            (List.zipWith (fun x d => (nome x, d)) l ds)).length < n - lista.length := by
          rw [List.length_append, List.length_take] at hfull
          omega
        have htake := List.take_of_length_le (Nat.le_of_lt hshort)
        rw [htake] at hfull ⊢
        have hlt' := Nat.lt_of_not_ge hfull
        rw [ih (i + 1) _ (by rw [hrest]; exact hforma') hlt', hrest,
          List.take_append_eq_append_take, htake, List.append_assoc]
        congr 2
        rw [List.length_append, Nat.sub_add_eq]

/-! ## The rounds of `printMoreProximate` -/

theorem rondas_add (E : List (String × Int)) (v0 : Int) (k r : Nat) :
    ∃ X, rondas E v0 (k + r) = rondas E v0 k ++ X := by
  induction r with
  | zero => exact ⟨[], by simp⟩
  | succ r ih =>
    obtain ⟨X, hX⟩ := ih
    refine ⟨X ++ E.filter (fun e => decide (e.2 = v0 + ((k + r : Nat) : Int))), ?_⟩
    rw [← Nat.add_assoc, rondas, hX, List.append_assoc]

theorem take_rondas_succ (E : List (String × Int)) (v0 : Int) (k n : Nat)
    (hlt : (rondas E v0 k).length < n) :
    (rondas E v0 (k + 1)).take n = rondas E v0 k ++
      (E.filter (fun e => decide (e.2 = v0 + (k : Int)))).take (n - (rondas E v0 k).length) := by
  rw [rondas, List.take_append_eq_append_take, List.take_of_length_le (Nat.le_of_lt hlt)]

theorem printMoreProximate_ciclo_spec (nome : NoInfo → String) (linhas : List (List NoInfo))
    (dists : List (List Int)) (n : Nat) (max v0 : Int) (hforma : MesmaForma linhas dists) :
    ∀ (r k passos : Nat), r ≤ passos →
      (rondas (entradas nome linhas dists) v0 k).length < n →
      n ≤ (rondas (entradas nome linhas dists) v0 (k + r)).length →
      printMoreProximate_ciclo nome linhas dists n max passos (v0 + (k : Int))
          (rondas (entradas nome linhas dists) v0 k) =
        .ok ((rondas (entradas nome linhas dists) v0 (k + r)).take n) := by
  intro r
  induction r with
  | zero => intro k passos _ h1 h2; rw [Nat.add_zero] at h2; omega
  | succ r ih =>
    intro k passos hpas hlt hge
    obtain ⟨p, rfl⟩ : ∃ p, passos = p + 1 := ⟨passos - 1, by omega⟩
    have hscan := varre_linhas_spec nome linhas (v0 + (k : Int)) n dists 0
      (rondas (entradas nome linhas dists) v0 k) (by rw [List.drop_zero]; exact hforma) hlt
    rw [List.drop_zero, ← take_rondas_succ _ v0 k n hlt] at hscan
    unfold printMoreProximate_ciclo
    rw [if_pos (Or.inl hlt), hscan]
    simp only [Except.bind]
    obtain ⟨X, hX⟩ := rondas_add (entradas nome linhas dists) v0 (k + 1) r
    have hidx : k + (r + 1) = k + 1 + r := by omega
    by_cases hfull : ((rondas (entradas nome linhas dists) v0 (k + 1)).take n).length ≥ n
    · rw [if_pos hfull, hidx, hX]
      have hge' : n ≤ (rondas (entradas nome linhas dists) v0 (k + 1)).length := by
        rw [List.length_take] at hfull
        omega
      rw [List.take_append_of_le_length hge']
    · rw [if_neg hfull]
      have hlt' : (rondas (entradas nome linhas dists) v0 (k + 1)).length < n := by
        rw [List.length_take] at hfull
        omega
      rw [List.take_of_length_le (Nat.le_of_lt hlt')]
      have := ih (k + 1) p (by omega) hlt' (by rw [← hidx]; exact hge)
      rw [← hidx] at this
      rw [← this]
      congr 1
      push_cast
      ring

/-! ## What the rounds list -/

theorem rondas_mem (E : List (String × Int)) (v0 : Int) (k : Nat) (e : String × Int)
    (h : e ∈ rondas E v0 k) : e ∈ E ∧ v0 ≤ e.2 ∧ e.2 < v0 + (k : Int) := by
  induction k with
  | zero => simp [rondas] at h
  | succ k ih =>
    rw [rondas, List.mem_append] at h
    rcases h with h | h
    · obtain ⟨h1, h2, h3⟩ := ih h
      refine ⟨h1, h2, ?_⟩
      push_cast
      omega
    · rw [List.mem_filter, decide_eq_true_iff] at h
      refine ⟨h.1, ?_, ?_⟩
      · omega
      · push_cast
        omega

theorem rondas_pairwise (E : List (String × Int)) (v0 : Int) (k : Nat) :
    (rondas E v0 k).Pairwise (fun x y => x.2 ≤ y.2) := by
  induction k with
  | zero => exact List.Pairwise.nil
  | succ k ih =>
    rw [rondas, List.pairwise_append]
    refine ⟨ih, ?_, ?_⟩
    · apply List.pairwise_of_forall_mem_list
      intro a ha b hb
      rw [List.mem_filter, decide_eq_true_iff] at ha hb
      omega
    · intro a ha b hb
      have h1 := (rondas_mem E v0 k a ha).2.2
      rw [List.mem_filter, decide_eq_true_iff] at hb
      omega

theorem filter_lt_succ_perm (E : List (String × Int)) (c : Int) :
    (E.filter (fun e => decide (e.2 < c)) ++ E.filter (fun e => decide (e.2 = c))).Perm
      (E.filter (fun e => decide (e.2 < c + 1))) := by
  induction E with
  | nil => exact List.Perm.refl _
  | cons e E ih =>
    by_cases h1 : e.2 < c
    · rw [List.filter_cons_of_pos (by simpa using h1),
        List.filter_cons_of_neg (by simp; omega),
        List.filter_cons_of_pos (by simp; omega)]
      exact List.Perm.cons e ih
    · by_cases h2 : e.2 = c
      · rw [List.filter_cons_of_neg (by simpa using h1),
          List.filter_cons_of_pos (by simpa using h2),
          List.filter_cons_of_pos (by simp; omega)]
        exact List.perm_middle.trans (List.Perm.cons e ih)
      · rw [List.filter_cons_of_neg (by simpa using h1),
          List.filter_cons_of_neg (by simpa using h2),
          List.filter_cons_of_neg (by simp; omega)]
        exact ih

theorem rondas_perm (E : List (String × Int)) (v0 : Int) (hlow : ∀ e ∈ E, v0 ≤ e.2)
    (k : Nat) :
    (rondas E v0 k).Perm (E.filter (fun e => decide (e.2 < v0 + (k : Int)))) := by
  induction k with
  | zero =>
    have : E.filter (fun e => decide (e.2 < v0 + ((0 : Nat) : Int))) = [] := by
      rw [List.filter_eq_nil_iff]
      intro e he
      have := hlow e he
      simp
      omega
    rw [this]
    exact List.Perm.refl _
  | succ k ih =>
    rw [rondas]
    have e1 : v0 + ((k + 1 : Nat) : Int) = v0 + (k : Int) + 1 := by push_cast; ring
    rw [e1]
    exact (List.Perm.append_right _ ih).trans (filter_lt_succ_perm E _)

theorem passo_min_max_eq : passo_min_max = passo_falhas := rfl

theorem min_max_distancias_limites (dists : List (List Int)) :
    ∀ ds ∈ dists, ∀ d ∈ ds,
      (min_max_distancias dists).1 ≤ d ∧ d ≤ (min_max_distancias dists).2 := by
  intro ds hds d hd
  have hmem : d ∈ dists.flatten := List.mem_flatten.mpr ⟨ds, hds, hd⟩
  have hfold : min_max_distancias dists = dists.flatten.foldl passo_falhas (10000, 0) := by
    unfold min_max_distancias
    rw [List.foldl_flatten, passo_min_max_eq]
  obtain ⟨⟨-, h2, -⟩, ⟨-, k2, -⟩⟩ := foldl_passo_falhas dists.flatten (10000, 0)
  rw [hfold]
  exact ⟨h2 d hmem, k2 d hmem⟩

theorem zipWith_mem_dist (nome : NoInfo → String) (e : String × Int) :
    ∀ (l : List NoInfo) (ds : List Int),
      e ∈ List.zipWith (fun x d => (nome x, d)) l ds → e.2 ∈ ds := by
  intro l
  induction l with
  | nil => intro ds h; simp at h
  | cons x l ih =>
    intro ds h
    cases ds with
    | nil => simp at h
    | cons d ds =>
      rw [List.zipWith_cons_cons, List.mem_cons] at h
      rcases h with h | h
      · rw [h]; exact List.mem_cons_self _ _
      · exact List.mem_cons_of_mem _ (ih ds h)

theorem entradas_mem_dist (nome : NoInfo → String) (e : String × Int) :
    ∀ (ls : List (List NoInfo)) (dss : List (List Int)),
      e ∈ entradas nome ls dss → ∃ ds ∈ dss, e.2 ∈ ds := by
  intro ls
  induction ls with
  | nil => intro dss h; simp [entradas] at h
  | cons l ls ih =>
    intro dss h
    cases dss with
    | nil => rw [entradas_nil_right] at h; simp at h
    | cons ds dss =>
      rw [entradas_cons, List.mem_append] at h
      rcases h with h | h
      · exact ⟨ds, List.mem_cons_self _ _, zipWith_mem_dist nome e l ds h⟩
      · obtain ⟨ds', h1, h2⟩ := ih dss h
        exact ⟨ds', List.mem_cons_of_mem _ h1, h2⟩

theorem entradas_length (nome : NoInfo → String) :
    ∀ (ls : List (List NoInfo)) (dss : List (List Int)), MesmaForma ls dss →
      (entradas nome ls dss).length = dss.flatten.length := by
  intro ls
  induction ls with
  | nil =>
    intro dss h
    cases h
    rfl
  | cons l ls ih =>
    intro dss h
    cases dss with
    | nil => cases h
    | cons ds dss =>
      unfold MesmaForma at h
      rw [List.forall₂_cons] at h
      rw [entradas_cons, List.length_append, List.length_zipWith, ih dss h.2,
        List.flatten_cons, List.length_append, h.1, Nat.min_self]

theorem varre_linhas_vazias (nome : NoInfo → String) (linhas : List (List NoInfo))
    (min : Int) (i : Nat) (dss : List (List Int)) (h : ∀ ds ∈ dss, ds = []) :
    varre_linhas nome linhas min 0 i dss [] = .ok [] := by
  cases dss with
  | nil => rfl
  | cons ds dss =>
    have := h ds (List.mem_cons_self _ _)
    subst this
    simp [varre_linhas, varre_linha, Except.bind]

/-- C14: for `linhas_geradas` and `distancias` of the same shape with at least
`numero_lista` entries in total, `printMoreProximate` returns (given enough steps) a list of
exactly `numero_lista` pairs, in non-decreasing order of distance; the listed pairs together
with the unlisted ones are exactly the pairs (name of a stop, that stop's own distance), and
every unlisted pair has a distance at least that of every listed one. -/
theorem printMoreProximate_lista (nome : NoInfo → String) (linhas : List (List NoInfo))
    (dists : List (List Int)) (n : Nat) (hforma : MesmaForma linhas dists)
    (htotal : n ≤ dists.flatten.length) :
    ∃ (passos0 : Nat) (lista resto : List (String × Int)),
      (∀ passos, passos0 ≤ passos →
        printMoreProximate passos nome linhas dists n = .ok lista) ∧
      lista.length = n ∧ lista.Pairwise (fun x y => x.2 ≤ y.2) ∧
      (lista ++ resto).Perm (entradas nome linhas dists) ∧
      ∀ x ∈ lista, ∀ y ∈ resto, x.2 ≤ y.2 := by
  have hlim : ∀ e ∈ entradas nome linhas dists,
      (min_max_distancias dists).1 ≤ e.2 ∧ e.2 ≤ (min_max_distancias dists).2 := by
    intro e he
    obtain ⟨ds, hds, hd⟩ := entradas_mem_dist nome e linhas dists he
    exact min_max_distancias_limites dists ds hds e.2 hd
  by_cases hn : n = 0
  · subst hn
    refine ⟨1, [], entradas nome linhas dists, ?_, rfl, List.Pairwise.nil, List.Perm.refl _,
      fun x hx => by simp at hx⟩
    intro passos hpas
    obtain ⟨p, rfl⟩ : ∃ p, passos = p + 1 := ⟨passos - 1, by omega⟩
    unfold printMoreProximate printMoreProximate_ciclo
    by_cases hmm : (min_max_distancias dists).1 > (min_max_distancias dists).2
    · have hvazias : ∀ ds ∈ dists, ds = [] := by
        intro ds hds
        cases ds with
        | nil => rfl
        | cons d ds' =>
          have := min_max_distancias_limites dists _ hds d (List.mem_cons_self _ _)
          omega
      rw [if_pos (Or.inr hmm), varre_linhas_vazias nome linhas _ 0 dists hvazias]
      rfl
    · rw [if_neg (by simp; omega)]
  · have hlen := entradas_length nome linhas dists hforma
    have hpos : 0 < (entradas nome linhas dists).length := by omega
    obtain ⟨e0, he0⟩ := List.exists_mem_of_length_pos hpos
    have hb0 := hlim e0 he0
    have hperm := rondas_perm (entradas nome linhas dists) (min_max_distancias dists).1
      (fun e he => (hlim e he).1)
      ((min_max_distancias dists).2 - (min_max_distancias dists).1 + 1).toNat
    have hall : (entradas nome linhas dists).filter (fun e => decide (e.2 <
        (min_max_distancias dists).1 +
          ((((min_max_distancias dists).2 - (min_max_distancias dists).1 + 1).toNat : Nat) : Int)))
        = entradas nome linhas dists := by
      rw [List.filter_eq_self]
      intro e he
      have := hlim e he
      rw [decide_eq_true_iff, Int.toNat_of_nonneg (by omega)]
      omega
    rw [hall] at hperm
    have hge : n ≤ (rondas (entradas nome linhas dists) (min_max_distancias dists).1
        (0 + ((min_max_distancias dists).2 - (min_max_distancias dists).1 + 1).toNat)).length := by
      rw [Nat.zero_add, hperm.length_eq]
      omega
    have hciclo := printMoreProximate_ciclo_spec nome linhas dists n
      (min_max_distancias dists).2 (min_max_distancias dists).1 hforma
      ((min_max_distancias dists).2 - (min_max_distancias dists).1 + 1).toNat 0
    rw [Nat.zero_add] at hge hciclo
    have hpw := rondas_pairwise (entradas nome linhas dists) (min_max_distancias dists).1
      ((min_max_distancias dists).2 - (min_max_distancias dists).1 + 1).toNat
    refine ⟨((min_max_distancias dists).2 - (min_max_distancias dists).1 + 1).toNat,
      (rondas (entradas nome linhas dists) (min_max_distancias dists).1
        ((min_max_distancias dists).2 - (min_max_distancias dists).1 + 1).toNat).take n,
      (rondas (entradas nome linhas dists) (min_max_distancias dists).1
        ((min_max_distancias dists).2 - (min_max_distancias dists).1 + 1).toNat).drop n,
      ?_, List.length_take_of_le hge, hpw.sublist (List.take_sublist _ _), ?_, ?_⟩
    · intro passos hpas
      have := hciclo passos hpas (by simp [rondas]; omega) hge
      unfold printMoreProximate
      simpa [rondas] using this
    · rw [List.take_append_drop]
      exact hperm
    · rw [← List.take_append_drop n (rondas (entradas nome linhas dists)
        (min_max_distancias dists).1
        ((min_max_distancias dists).2 - (min_max_distancias dists).1 + 1).toNat),
        List.pairwise_append] at hpw
      exact hpw.2.2

/-- The statement of C14 at three stops in two lines with distances 3, 1 and 2, asking for the
two closest. -/
theorem printMoreProximate_lista_witness :
    MesmaForma [[paragem1, paragem2], [paragem3]] [[3, 1], [2]] ∧
    2 ≤ ([[3, 1], [2]] : List (List Int)).flatten.length ∧
    ∃ (passos0 : Nat) (lista resto : List (String × Int)),
      (∀ passos, passos0 ≤ passos →
        printMoreProximate passos (fun x => toString x.idNo)
          [[paragem1, paragem2], [paragem3]] [[3, 1], [2]] 2 = .ok lista) ∧
      lista.length = 2 ∧ lista.Pairwise (fun x y => x.2 ≤ y.2) ∧
      (lista ++ resto).Perm
        (entradas (fun x => toString x.idNo) [[paragem1, paragem2], [paragem3]] [[3, 1], [2]]) ∧
      ∀ x ∈ lista, ∀ y ∈ resto, x.2 ≤ y.2 :=
  ⟨List.Forall₂.cons rfl (List.Forall₂.cons rfl List.Forall₂.nil), by decide,
    printMoreProximate_lista (fun x => toString x.idNo) [[paragem1, paragem2], [paragem3]]
      [[3, 1], [2]] 2 (List.Forall₂.cons rfl (List.Forall₂.cons rfl List.Forall₂.nil))
      (by decide)⟩

end CAL
